import Mathlib

/-! Move generation of the placer (vpr/src/place/move_utils.cpp).

A shallow embedding of the move-proposal functions of `move_utils.cpp`
(`create_move`, `find_affected_blocks`, `record_single_block_swap`,
`record_macro_swaps`, `record_macro_macro_swaps`, `record_macro_move`,
`identify_macro_self_swap_affected_macros`, `record_macro_self_swaps`,
`is_legal_swap_to_location`, `determine_locations_emptied_by_move`),
followed by theorems about them.

The global placement context becomes an explicit read-only value
`PlacementState`; the proposal record and the abort-reason log are threaded
through every function as a `MoveCtx`.
-/

set_option autoImplicit false

namespace MoveUtils

/-! ## Data model -/

/-- Block handle. The strong-id type of the netlist is an integer; real blocks
are the non-negative values. -/
abbrev ClusterBlockId := Int

/-- Modelled from the spec: the sentinel `EMPTY_BLOCK_ID` (its definition is not
in move_utils.cpp): the site holds no block. -/
def EMPTY_BLOCK_ID : ClusterBlockId := -1

/-- Modelled from the spec: the sentinel `INVALID_BLOCK_ID` (its definition is
not in move_utils.cpp): the site is not a legal site for any block. -/
def INVALID_BLOCK_ID : ClusterBlockId := -2

/-- Modelled from the spec: the boolean conversion of a block handle used by
`!b_to` and `blk_to && ...`; a handle is false exactly when the site is
unoccupied (the empty sentinel). -/
def ClusterBlockId.toBool (b : ClusterBlockId) : Bool := decide (b ≠ EMPTY_BLOCK_ID)

/-- Grid location `(x, y, sub_tile)`. -/
structure t_pl_loc where
  x : Int
  y : Int
  sub_tile : Int
deriving DecidableEq, Repr

/-- Difference of two locations. -/
structure t_pl_offset where
  x : Int
  y : Int
  sub_tile : Int
deriving DecidableEq, Repr

/-- The `loc + offset` operator of `t_pl_loc` (componentwise). -/
def t_pl_loc.add (l : t_pl_loc) (o : t_pl_offset) : t_pl_loc :=
  ⟨l.x + o.x, l.y + o.y, l.sub_tile + o.sub_tile⟩

/-- The `loc - loc` operator of `t_pl_loc` (componentwise). -/
def t_pl_loc.sub (a b : t_pl_loc) : t_pl_offset :=
  ⟨a.x - b.x, a.y - b.y, a.sub_tile - b.sub_tile⟩

/-- The unary minus of `t_pl_offset`. -/
def t_pl_offset.neg (o : t_pl_offset) : t_pl_offset :=
  ⟨-o.x, -o.y, -o.sub_tile⟩

/-- The `offset + offset` operator of `t_pl_offset`. -/
def t_pl_offset.add (a b : t_pl_offset) : t_pl_offset :=
  ⟨a.x + b.x, a.y + b.y, a.sub_tile + b.sub_tile⟩

/-- The strict order of `t_pl_loc` used by `std::set<t_pl_loc>`:
lexicographic on `(x, y, sub_tile)`. -/
def t_pl_loc.lt (a b : t_pl_loc) : Bool :=
  decide (a.x < b.x) || (decide (a.x = b.x) &&
    (decide (a.y < b.y) || (decide (a.y = b.y) && decide (a.sub_tile < b.sub_tile))))

/-- Entry of `block_locs`: where a block is and whether it is fixed. -/
structure t_block_loc where
  loc : t_pl_loc
  is_fixed : Bool
deriving DecidableEq, Repr

/-- One member of a placement macro. -/
structure t_pl_macro_member where
  blk_index : ClusterBlockId
  offset : t_pl_offset
deriving DecidableEq, Repr

/-- Placement macro: an ordered sequence of members. -/
structure t_pl_macro where
  members : List t_pl_macro_member
deriving DecidableEq, Repr

/-- One entry of the proposal record. -/
structure t_pl_moved_block where
  block_num : ClusterBlockId
  old_loc : t_pl_loc
  new_loc : t_pl_loc
deriving DecidableEq, Repr

/-- Outcome of the propagation engine. -/
inductive e_block_move_result where
  | VALID
  | ABORT
  | INVERT
  | INVERT_VALID
deriving DecidableEq, Repr

/-- Outcome of `create_move`. -/
inductive e_create_move where
  | VALID
  | ABORT
deriving DecidableEq, Repr

/-- The read-only part of the global context: device grid, clustering and
placement tables. `grid_blocks` is total: off-grid or out-of-capacity sites hold
`INVALID_BLOCK_ID`. -/
structure PlacementState where
  grid_width : Nat
  grid_height : Nat
  /-- Physical tile type index at a grid cell: `grid.get_physical_type(x, y)`. -/
  get_physical_type : Int → Int → Nat
  /-- Capacity of a physical tile type: `physical_tile->capacity`. -/
  capacity : Nat → Int
  /-- The external predicate `is_sub_tile_compatible(tile, logical, sub_tile)`. -/
  is_sub_tile_compatible : Nat → Nat → Int → Bool
  /-- Logical block type of a block: `clb_nlist.block_type(blk)`. -/
  block_type : ClusterBlockId → Nat
  block_locs : ClusterBlockId → t_block_loc
  grid_blocks : t_pl_loc → ClusterBlockId
  pl_macros : List t_pl_macro

/-- The mutable state of one move attempt: the proposal record
`blocks_affected.moved_blocks` (its length is `num_moved_blocks`), the
abort-reason log behind `log_move_abort` (one element per call). -/
structure MoveCtx where
  moved_blocks : List t_pl_moved_block
  f_move_abort_reasons : List String
deriving DecidableEq, Repr

/-- The empty proposal record with an empty log. -/
def MoveCtx.empty : MoveCtx := ⟨[], []⟩

/-- Why a run of the model stopped without a result. -/
inductive Fault where
  | out_of_fuel
  | out_of_bounds
deriving DecidableEq, Repr

/-! ## Helpers that are not in move_utils.cpp -/

/-- The function `log_move_abort`: count one more abort for `reason`. -/
def log_move_abort (st : MoveCtx) (reason : String) : MoveCtx :=
  ⟨st.moved_blocks, st.f_move_abort_reasons ++ [reason]⟩

/-- Modelled from the spec: `record_block_move` (defined outside
move_utils.cpp) appends the entry `(blk, current location of blk, to)` to the
proposal record and reports VALID. This is the helper without a refusal path;
the functions `record_single_block_swap_via` to `create_move_via` are the same
code over any helper of type `Recorder`, of which this one is an instance. -/
def record_block_move (s : PlacementState) (st : MoveCtx) (blk : ClusterBlockId)
    (to_loc : t_pl_loc) : e_block_move_result × MoveCtx :=
  (e_block_move_result.VALID,
    ⟨st.moved_blocks ++ [⟨blk, (s.block_locs blk).loc, to_loc⟩], st.f_move_abort_reasons⟩)

/-- Modelled from the spec: `clear_move_blocks` (defined outside
move_utils.cpp) empties the proposal record. -/
def clear_move_blocks (st : MoveCtx) : MoveCtx :=
  ⟨[], st.f_move_abort_reasons⟩

/-- Whether `blk` is a member of a placement macro. -/
def macro_has_block (blk : ClusterBlockId) (m : t_pl_macro) : Bool :=
  m.members.any (fun mem => decide (mem.blk_index = blk))

/-- Index of the first placement macro of `macros` having `blk` as a member,
counted from `i`; `-1` when there is none. -/
def find_imacro (blk : ClusterBlockId) : List t_pl_macro → Int → Int
  | [], _ => -1
  | m :: ms, i => if macro_has_block blk m then i else find_imacro blk ms (i + 1)

/-- Modelled from the spec: `get_imacro_from_iblk` (defined outside
move_utils.cpp) looks up the macro a block belongs to; `-1` for a block in no
macro and for the sentinels. -/
def get_imacro_from_iblk (iblk : ClusterBlockId) (macros : List t_pl_macro) : Int :=
  if 0 ≤ iblk then find_imacro iblk macros 0 else -1

/-- Member list of `pl_macros[i]` (empty when `i` is not an index). -/
def macro_members (s : PlacementState) (i : Int) : List t_pl_macro_member :=
  if 0 ≤ i then (s.pl_macros.getD i.toNat ⟨[]⟩).members else []

/-- Indexing `members[i]` with an `int` index; `none` is an out-of-range read. -/
def member_at (ms : List t_pl_macro_member) (i : Int) : Option t_pl_macro_member :=
  if 0 ≤ i then ms.get? i.toNat else none

/-! ## is_legal_swap_to_location (lines 442-476) -/

/-- The function `is_legal_swap_to_location`. -/
def is_legal_swap_to_location (s : PlacementState) (blk : ClusterBlockId)
    (to_loc : t_pl_loc) : Bool :=
  if to_loc.x < 0 ∨ to_loc.x ≥ (s.grid_width : Int) ∨ to_loc.y < 0 ∨ to_loc.y ≥ (s.grid_height : Int) then
    false
  else
    let physical_tile := s.get_physical_type to_loc.x to_loc.y
    let logical_block := s.block_type blk
    if to_loc.sub_tile < 0 ∨ to_loc.sub_tile ≥ s.capacity physical_tile
        ∨ s.is_sub_tile_compatible physical_tile logical_block to_loc.sub_tile = false then
      false
    else
      let b_to := s.grid_blocks to_loc
      if b_to ≠ INVALID_BLOCK_ID ∧ b_to ≠ EMPTY_BLOCK_ID then
        if (s.block_locs b_to).is_fixed then false else true
      else
        true

/-! ## record_single_block_swap (lines 115-161) -/

/-- The function `record_single_block_swap`. -/
def record_single_block_swap (s : PlacementState) (st : MoveCtx) (b_from : ClusterBlockId)
    (to_loc : t_pl_loc) : e_block_move_result × MoveCtx :=
  if (s.block_locs b_from).is_fixed then
    (e_block_move_result.ABORT, st)
  else
    let b_to := s.grid_blocks to_loc
    let curr_from := (s.block_locs b_from).loc
    if b_to = EMPTY_BLOCK_ID then
      record_block_move s st b_from to_loc
    else if b_to ≠ INVALID_BLOCK_ID then
      if (b_to ≠ EMPTY_BLOCK_ID ∧ b_to ≠ INVALID_BLOCK_ID)
          ∧ (is_legal_swap_to_location s b_to curr_from = false
              ∨ (s.block_locs b_to).is_fixed = true) then
        (e_block_move_result.ABORT, st)
      else
        let r := record_block_move s st b_from to_loc
        if r.1 ≠ e_block_move_result.VALID then
          r
        else
          let from_loc := (s.block_locs b_from).loc
          record_block_move s r.2 b_to from_loc
    else
      (e_block_move_result.VALID, st)

/-! ## determine_locations_emptied_by_move (lines 479-497) -/

/-- Insertion into a `std::set<t_pl_loc>`, kept as a strictly increasing list. -/
def set_emplace (l : t_pl_loc) : List t_pl_loc → List t_pl_loc
  | [] => [l]
  | h :: t =>
    if l.lt h then l :: h :: t
    else if h.lt l then h :: set_emplace l t
    else h :: t

/-- The set `moved_from` after the loop of `determine_locations_emptied_by_move`. -/
def moved_from_set (mb : List t_pl_moved_block) : List t_pl_loc :=
  mb.foldl (fun acc e => set_emplace e.old_loc acc) []

/-- The set `moved_to` after the loop of `determine_locations_emptied_by_move`. -/
def moved_to_set (mb : List t_pl_moved_block) : List t_pl_loc :=
  mb.foldl (fun acc e => set_emplace e.new_loc acc) []

/-- The call `std::set_difference(a, b)` on two sets: the elements of `a`, in
order, that are not in `b`. -/
def set_difference (a b : List t_pl_loc) : List t_pl_loc :=
  a.filter (fun l => !(b.contains l))

/-- The function `determine_locations_emptied_by_move`; the result is the
`std::set` in iteration order. -/
def determine_locations_emptied_by_move (st : MoveCtx) : List t_pl_loc :=
  set_difference (moved_from_set st.moved_blocks) (moved_to_set st.moved_blocks)

/-! ## record_macro_move (lines 320-347) -/

/-- The member loop of `record_macro_move`, over the members not yet visited. -/
def record_macro_move_loop (s : PlacementState) (imacro_cur : Int) (swap_offset : t_pl_offset) :
    List t_pl_macro_member → MoveCtx → List ClusterBlockId →
      e_block_move_result × MoveCtx × List ClusterBlockId
  | [], st, displaced_blocks => (e_block_move_result.VALID, st, displaced_blocks)
  | member :: rest, st, displaced_blocks =>
    let from_loc := (s.block_locs member.blk_index).loc
    let to_loc := from_loc.add swap_offset
    if is_legal_swap_to_location s member.blk_index to_loc = false then
      (e_block_move_result.ABORT, log_move_abort st "macro move to location illegal",
        displaced_blocks)
    else
      let blk_to := s.grid_blocks to_loc
      let st1 := (record_block_move s st member.blk_index to_loc).2
      let imacro_to := get_imacro_from_iblk blk_to s.pl_macros
      let displaced1 :=
        if blk_to.toBool && decide (imacro_to ≠ imacro_cur) then displaced_blocks ++ [blk_to]
        else displaced_blocks
      record_macro_move_loop s imacro_cur swap_offset rest st1 displaced1

/-- The function `record_macro_move`. -/
def record_macro_move (s : PlacementState) (st : MoveCtx) (displaced_blocks : List ClusterBlockId)
    (imacro_cur : Int) (swap_offset : t_pl_offset) :
    e_block_move_result × MoveCtx × List ClusterBlockId :=
  record_macro_move_loop s imacro_cur swap_offset (macro_members s imacro_cur) st displaced_blocks

/-! ## identify_macro_self_swap_affected_macros (lines 352-381) -/

/-- The member loop of `identify_macro_self_swap_affected_macros` from member
`imember` on (the loop is entered with `outcome == VALID`); a nested call is a
call of the loop for the other macro from member 0. One unit of fuel is spent
per iteration and per call. The result is the returned outcome, the log and the
vector `macros`. -/
def identify_loop (s : PlacementState) (swap_offset : t_pl_offset) :
    Nat → MoveCtx → List Int → Int → Nat → Except Fault (e_block_move_result × MoveCtx × List Int)
  | 0, _, _, _, _ => Except.error Fault.out_of_fuel
  | fuel + 1, st, macros, imacro_cur, imember =>
    match (macro_members s imacro_cur).get? imember with
    | none => Except.ok (e_block_move_result.VALID, st, macros)
    | some mem =>
      let blk := mem.blk_index
      let from_loc := (s.block_locs blk).loc
      let to_loc := from_loc.add swap_offset
      if is_legal_swap_to_location s blk to_loc = false then
        Except.ok (e_block_move_result.ABORT,
          log_move_abort st "macro move to location illegal", macros)
      else
        let blk_to := s.grid_blocks to_loc
        let imacro_to := get_imacro_from_iblk blk_to s.pl_macros
        if imacro_to ≠ -1 ∧ ¬ (imacro_to ∈ macros) then
          match identify_loop s swap_offset fuel st (macros ++ [imacro_to]) imacro_to 0 with
          | Except.error e => Except.error e
          | Except.ok (outcome, st1, macros1) =>
            if outcome = e_block_move_result.VALID then
              identify_loop s swap_offset fuel st1 macros1 imacro_cur (imember + 1)
            else
              Except.ok (e_block_move_result.VALID, st1, macros1)
        else
          identify_loop s swap_offset fuel st macros imacro_cur (imember + 1)

/-- The function `identify_macro_self_swap_affected_macros`. -/
def identify_macro_self_swap_affected_macros (s : PlacementState) (fuel : Nat) (st : MoveCtx)
    (macros : List Int) (imacro_cur : Int) (swap_offset : t_pl_offset) :
    Except Fault (e_block_move_result × MoveCtx × List Int) :=
  identify_loop s swap_offset fuel st macros imacro_cur 0

/-! ## record_macro_self_swaps (lines 383-440) -/

/-- The call `std::unique` followed by the resize: consecutive duplicates are
removed. -/
def std_unique : List Int → List Int
  | [] => []
  | [a] => [a]
  | a :: b :: t => if a = b then std_unique (b :: t) else a :: std_unique (b :: t)

/-- The loop of `record_macro_self_swaps` that moves every affected macro. -/
def move_affected_macros (s : PlacementState) (swap_offset : t_pl_offset) :
    List Int → MoveCtx → List ClusterBlockId →
      e_block_move_result × MoveCtx × List ClusterBlockId
  | [], st, displaced_blocks => (e_block_move_result.VALID, st, displaced_blocks)
  | imacro_affected :: rest, st, displaced_blocks =>
    let r := record_macro_move s st displaced_blocks imacro_affected swap_offset
    if r.1 ≠ e_block_move_result.VALID then r
    else move_affected_macros s swap_offset rest r.2.1 r.2.2

/-- The lambda `is_non_macro_block` of `record_macro_self_swaps`. -/
def is_non_macro_block (s : PlacementState) (affected_macros : List Int)
    (blk : ClusterBlockId) : Bool :=
  if get_imacro_from_iblk blk s.pl_macros ∈ affected_macros then false else true

/-- The last loop of `record_macro_self_swaps`: each displaced block is sent to
the location under the iterator `loc_itr`, here the list of the locations from
the iterator to the end of the set; reading the end iterator is a fault. -/
def reseat_displaced (s : PlacementState) :
    List ClusterBlockId → List t_pl_loc → e_block_move_result × MoveCtx →
      Except Fault (e_block_move_result × MoveCtx)
  | [], _, r => Except.ok r
  | _ :: _, [], _ => Except.error Fault.out_of_bounds
  | blk :: rest, loc :: locs, r =>
    reseat_displaced s rest locs (record_block_move s r.2 blk loc)

/-- The function `record_macro_self_swaps`. -/
def record_macro_self_swaps (s : PlacementState) (fuel : Nat) (st : MoveCtx)
    (imacro_cur : Int) (swap_offset : t_pl_offset) : Except Fault (e_block_move_result × MoveCtx) :=
  let st0 := clear_move_blocks st
  match identify_macro_self_swap_affected_macros s fuel st0 [] imacro_cur swap_offset with
  | Except.error e => Except.error e
  | Except.ok (outcome, st1, macros) =>
    if outcome ≠ e_block_move_result.VALID then Except.ok (outcome, st1)
    else
      let affected_macros := std_unique macros
      let r := move_affected_macros s swap_offset affected_macros st1 []
      if r.1 ≠ e_block_move_result.VALID then Except.ok (r.1, r.2.1)
      else
        let non_macro_displaced_blocks := r.2.2.filter (is_non_macro_block s affected_macros)
        let empty_locs := determine_locations_emptied_by_move r.2.1
        reseat_displaced s non_macro_displaced_blocks empty_locs (r.1, r.2.1)

/-! ## record_macro_swaps and record_macro_macro_swaps (lines 166-312) -/

/-- How the lock-step loop of `record_macro_macro_swaps` ends: by a `return`
inside the body, or by its condition becoming false (with the final
`imember_from` and `imember_to`). -/
inductive LockStep where
  | returned (outcome : e_block_move_result) (st : MoveCtx) (imember_from : Int)
  | finished (st : MoveCtx) (imember_from : Int) (imember_to : Int)
  | fault
deriving DecidableEq, Repr

/-- The lock-step loop of `record_macro_macro_swaps` (lines 269-301). The second
list holds the members of the to macro from `imember_to` on. -/
def lock_step_loop (s : PlacementState) (from_members : List t_pl_macro_member)
    (from_to_macro_offset swap_offset : t_pl_offset) :
    List t_pl_macro_member → MoveCtx → Int → Int → LockStep
  | [], st, imember_from, imember_to => LockStep.finished st imember_from imember_to
  | to_member :: to_rest, st, imember_from, imember_to =>
    if imember_from < (from_members.length : Int) then
      match member_at from_members imember_from with
      | none => LockStep.fault
      | some from_member =>
        if from_member.offset ≠ to_member.offset.add from_to_macro_offset then
          LockStep.returned e_block_move_result.ABORT
            (log_move_abort st "macro shapes disagree") imember_from
        else
          let b_from := from_member.blk_index
          let curr_to := (s.block_locs b_from).loc.add swap_offset
          let curr_from := (s.block_locs b_from).loc
          let b_to := to_member.blk_index
          if (b_to ≠ EMPTY_BLOCK_ID ∧ b_to ≠ INVALID_BLOCK_ID)
              ∧ is_legal_swap_to_location s b_to curr_from = false then
            LockStep.returned e_block_move_result.ABORT st imember_from
          else if is_legal_swap_to_location s b_from curr_to = false then
            LockStep.returned e_block_move_result.ABORT
              (log_move_abort st "macro_from swap to location illegal") imember_from
          else
            let r := record_single_block_swap s st b_from curr_to
            if r.1 ≠ e_block_move_result.VALID then
              LockStep.returned r.1 r.2 imember_from
            else
              lock_step_loop s from_members from_to_macro_offset swap_offset to_rest r.2
                (imember_from + 1) (imember_to + 1)
    else
      LockStep.finished st imember_from imember_to

mutual

/-- The function `record_macro_swaps`: the result is the outcome, the state and
the final value of the reference parameter `imember_from`. Every call and every
loop iteration spends one unit of fuel. -/
def record_macro_swaps (s : PlacementState) :
    Nat → MoveCtx → Int → Int → t_pl_offset → Except Fault (e_block_move_result × MoveCtx × Int)
  | 0, _, _, _, _ => Except.error Fault.out_of_fuel
  | fuel + 1, st, imacro_from, imember_from, swap_offset =>
    if imember_from < ((macro_members s imacro_from).length : Int) then
      match member_at (macro_members s imacro_from) imember_from with
      | none => Except.error Fault.out_of_bounds
      | some mem =>
        let curr_b_from := mem.blk_index
        let curr_from := (s.block_locs curr_b_from).loc
        let curr_to := curr_from.add swap_offset
        if is_legal_swap_to_location s curr_b_from curr_to = false then
          Except.ok (e_block_move_result.ABORT,
            log_move_abort st "macro_from swap to location illegal", imember_from + 1)
        else
          let b_to := s.grid_blocks curr_to
          let imacro_to := get_imacro_from_iblk b_to s.pl_macros
          if imacro_to ≠ -1 then
            if imacro_from = imacro_to then
              match record_macro_self_swaps s fuel st imacro_from swap_offset with
              | Except.error e => Except.error e
              | Except.ok (outcome, st1) =>
                Except.ok (outcome, st1, ((macro_members s imacro_from).length : Int))
            else
              match record_macro_macro_swaps s fuel st imacro_from imember_from imacro_to b_to
                  swap_offset with
              | Except.error e => Except.error e
              | Except.ok (outcome, st1, imember1) =>
                if outcome = e_block_move_result.INVERT_VALID then
                  Except.ok (outcome, st1, imember1)
                else if outcome = e_block_move_result.VALID then
                  record_macro_swaps s fuel st1 imacro_from (imember1 - 1 + 1) swap_offset
                else
                  Except.ok (outcome, st1, imember1 - 1 + 1)
          else
            let r := record_single_block_swap s st curr_b_from curr_to
            if r.1 = e_block_move_result.VALID then
              record_macro_swaps s fuel r.2 imacro_from (imember_from + 1) swap_offset
            else
              Except.ok (r.1, r.2, imember_from + 1)
    else
      Except.ok (e_block_move_result.VALID, st, imember_from)

/-- The function `record_macro_macro_swaps`: the result is the outcome, the
state and the final value of the reference parameter `imember_from`. -/
def record_macro_macro_swaps (s : PlacementState) :
    Nat → MoveCtx → Int → Int → Int → ClusterBlockId → t_pl_offset →
      Except Fault (e_block_move_result × MoveCtx × Int)
  | 0, _, _, _, _, _, _ => Except.error Fault.out_of_fuel
  | fuel + 1, st, imacro_from, imember_from, imacro_to, blk_to, swap_offset =>
    match member_at (macro_members s imacro_to) 0 with
    | none => Except.error Fault.out_of_bounds
    | some first_to =>
      if first_to.blk_index ≠ blk_to then
        match record_macro_swaps s fuel st imacro_to 0 swap_offset.neg with
        | Except.error e => Except.error e
        | Except.ok (outcome, st1, _) =>
          if outcome = e_block_move_result.INVERT then
            Except.ok (e_block_move_result.ABORT, log_move_abort st1 "invert recursion2",
              imember_from)
          else if outcome = e_block_move_result.VALID then
            Except.ok (e_block_move_result.INVERT_VALID, st1, imember_from)
          else
            Except.ok (outcome, st1, imember_from)
      else
        match member_at (macro_members s imacro_from) imember_from with
        | none => Except.error Fault.out_of_bounds
        | some from_first =>
          let from_to_macro_offset := from_first.offset
          match lock_step_loop s (macro_members s imacro_from) from_to_macro_offset swap_offset
              (macro_members s imacro_to) st imember_from 0 with
          | LockStep.fault => Except.error Fault.out_of_bounds
          | LockStep.returned outcome st1 imember1 => Except.ok (outcome, st1, imember1)
          | LockStep.finished st1 imember1 imember_to =>
            if imember_to < ((macro_members s imacro_to).length : Int) then
              match record_macro_swaps s fuel st1 imacro_to imember_to swap_offset.neg with
              | Except.error e => Except.error e
              | Except.ok (outcome, st2, _) => Except.ok (outcome, st2, imember1)
            else
              Except.ok (e_block_move_result.VALID, st1, imember1)

end

/-! ## find_affected_blocks and create_move (lines 35-113) -/

/-- The function `find_affected_blocks`. -/
def find_affected_blocks (s : PlacementState) (fuel : Nat) (st : MoveCtx)
    (b_from : ClusterBlockId) (to_loc : t_pl_loc) : Except Fault (e_block_move_result × MoveCtx) :=
  let from_loc := (s.block_locs b_from).loc
  let imacro_from := get_imacro_from_iblk b_from s.pl_macros
  if imacro_from ≠ -1 then
    let swap_offset := to_loc.sub from_loc
    match record_macro_swaps s fuel st imacro_from 0 swap_offset with
    | Except.error e => Except.error e
    | Except.ok (outcome, st1, _) => Except.ok (outcome, st1)
  else
    let b_to := s.grid_blocks to_loc
    let imacro_to := get_imacro_from_iblk b_to s.pl_macros
    if imacro_to ≠ -1 then
      Except.ok (e_block_move_result.INVERT, st)
    else
      Except.ok (record_single_block_swap s st b_from to_loc)

/-- The last statement of `create_move`: the outcome of the engine as an
outcome of the move. -/
def classify_outcome (r : e_block_move_result × MoveCtx) : e_create_move × MoveCtx :=
  if r.1 = e_block_move_result.VALID ∨ r.1 = e_block_move_result.INVERT_VALID then
    (e_create_move.VALID, r.2)
  else
    (e_create_move.ABORT, r.2)

/-- The body of `create_move`, with the callee `find_affected_blocks` as the
parameter `fab`. The second component of the result is the number of
invocations of `fab` made by the call. -/
def create_move_with
    (fab : MoveCtx → ClusterBlockId → t_pl_loc → Except Fault (e_block_move_result × MoveCtx))
    (s : PlacementState) (st : MoveCtx) (b_from : ClusterBlockId) (to_loc : t_pl_loc) :
    Except Fault (e_create_move × MoveCtx) × Nat :=
  match fab st b_from to_loc with
  | Except.error e => (Except.error e, 1)
  | Except.ok (outcome, st1) =>
    if outcome = e_block_move_result.INVERT then
      let b_to := s.grid_blocks to_loc
      if b_to.toBool = false then
        (Except.ok (classify_outcome (e_block_move_result.ABORT,
          log_move_abort st1 "inverted move no to block")), 1)
      else
        let from_loc := (s.block_locs b_from).loc
        match fab st1 b_to from_loc with
        | Except.error e => (Except.error e, 2)
        | Except.ok (outcome2, st2) =>
          if outcome2 = e_block_move_result.INVERT then
            (Except.ok (classify_outcome (e_block_move_result.ABORT,
              log_move_abort st2 "inverted move recurrsion")), 2)
          else
            (Except.ok (classify_outcome (outcome2, st2)), 2)
    else
      (Except.ok (classify_outcome (outcome, st1)), 1)

/-- The function `create_move`. -/
def create_move (s : PlacementState) (fuel : Nat) (st : MoveCtx) (b_from : ClusterBlockId)
    (to_loc : t_pl_loc) : Except Fault (e_create_move × MoveCtx) :=
  (create_move_with (find_affected_blocks s fuel) s st b_from to_loc).1

/-! ## Concrete placement states -/

/-- Position of a location in a list of block locations, as a block handle;
`none` when no block is there. -/
def block_at (locs : List t_block_loc) (l : t_pl_loc) : Option ClusterBlockId :=
  match locs.findIdx? (fun e => decide (e.loc = l)) with
  | some i => some (i : Int)
  | none => none

/-- A placement state on a `w` by `h` grid of one tile type with `cap`
sub-tiles per cell, every sub-tile compatible with every block: block `i` is at
`locs[i]`, the grid holds the blocks at their locations, `EMPTY_BLOCK_ID` at the
other sites of the grid and `INVALID_BLOCK_ID` outside it (an answer for a read
that the source leaves unchecked; no statement about a site in the grid depends
on it). -/
def mk_state (w h : Nat) (cap : Int) (locs : List t_block_loc) (macros : List t_pl_macro) :
    PlacementState where
  grid_width := w
  grid_height := h
  get_physical_type := fun _ _ => 0
  capacity := fun _ => cap
  is_sub_tile_compatible := fun _ _ _ => true
  block_type := fun _ => 0
  block_locs := fun b => if 0 ≤ b then locs.getD b.toNat ⟨⟨0, 0, 0⟩, false⟩ else ⟨⟨0, 0, 0⟩, false⟩
  grid_blocks := fun l =>
    if 0 ≤ l.x ∧ l.x < (w : Int) ∧ 0 ≤ l.y ∧ l.y < (h : Int) ∧ 0 ≤ l.sub_tile ∧ l.sub_tile < cap then
      match block_at locs l with
      | some b => b
      | none => EMPTY_BLOCK_ID
    else INVALID_BLOCK_ID
  pl_macros := macros

/-! ## Predicates on placement states -/

/-- The grid occupancy agrees with the block locations: a site occupied by a
real block is the location of that block. -/
def GridAgrees (s : PlacementState) : Prop :=
  ∀ l, s.grid_blocks l ≠ EMPTY_BLOCK_ID → s.grid_blocks l ≠ INVALID_BLOCK_ID →
    (s.block_locs (s.grid_blocks l)).loc = l

/-- A row of four sites: blocks 0 and 1 movable at x = 0 and x = 1, block 2
fixed at x = 2, the site at x = 3 empty; no macros. -/
def s_single : PlacementState :=
  mk_state 4 1 1 [⟨⟨0, 0, 0⟩, false⟩, ⟨⟨1, 0, 0⟩, false⟩, ⟨⟨2, 0, 0⟩, true⟩] []

/-- Two columns of three sites: the macro 0 is blocks 0 and 1 at (0,0) and
(0,1), the macro 1 is blocks 2 and 3 at (1,0) and (1,2): their shapes differ. -/
def s_shapes : PlacementState :=
  mk_state 2 3 1
    [⟨⟨0, 0, 0⟩, false⟩, ⟨⟨0, 1, 0⟩, false⟩, ⟨⟨1, 0, 0⟩, false⟩, ⟨⟨1, 2, 0⟩, false⟩]
    [⟨[⟨0, ⟨0, 0, 0⟩⟩, ⟨1, ⟨0, 1, 0⟩⟩]⟩, ⟨[⟨2, ⟨0, 0, 0⟩⟩, ⟨3, ⟨0, 2, 0⟩⟩]⟩]

/-- Two columns of two sites: block 0 alone at (0,0); the macro 0 is blocks 1
and 2 at (1,0) and (1,1); the site (0,1) is empty. -/
def s_invert : PlacementState :=
  mk_state 2 2 1
    [⟨⟨0, 0, 0⟩, false⟩, ⟨⟨1, 0, 0⟩, false⟩, ⟨⟨1, 1, 0⟩, false⟩]
    [⟨[⟨1, ⟨0, 0, 0⟩⟩, ⟨2, ⟨0, 1, 0⟩⟩]⟩]

/-- A callee that always asks for the inverted direction. -/
def fab_always_invert (st : MoveCtx) (_b : ClusterBlockId) (_l : t_pl_loc) :
    Except Fault (e_block_move_result × MoveCtx) :=
  Except.ok (e_block_move_result.INVERT, st)

/-- One column of five sites holding two carry chains that run downwards: the
macro 0 is blocks 0 and 1 at y = 2 and y = 1, the macro 1 is blocks 2 and 3 at
y = 4 and y = 3; the site y = 0 is empty. -/
def s_stacked : PlacementState :=
  mk_state 1 5 1
    [⟨⟨0, 2, 0⟩, false⟩, ⟨⟨0, 1, 0⟩, false⟩, ⟨⟨0, 4, 0⟩, false⟩, ⟨⟨0, 3, 0⟩, false⟩]
    [⟨[⟨0, ⟨0, 0, 0⟩⟩, ⟨1, ⟨0, -1, 0⟩⟩]⟩, ⟨[⟨2, ⟨0, 0, 0⟩⟩, ⟨3, ⟨0, -1, 0⟩⟩]⟩]

/-- One column of three sites: the macro 0 is the fixed block 0 at y = 0 and the
movable block 1 at y = 1; the site y = 2 is empty. -/
def s_fixed_head : PlacementState :=
  mk_state 1 3 1 [⟨⟨0, 0, 0⟩, true⟩, ⟨⟨0, 1, 0⟩, false⟩]
    [⟨[⟨0, ⟨0, 0, 0⟩⟩, ⟨1, ⟨0, 1, 0⟩⟩]⟩]

/-- Consistent placement state: the macro lookup `get_imacro_from_iblk` agrees
with the macro table (so each block is in at most one macro), no block occurs
twice in a macro, every macro member is a real block that the grid holds at its
location (so distinct members are at distinct sites), and the grid occupancy
agrees with the block locations. -/
structure Consistent (s : PlacementState) : Prop where
  lookup_agrees : ∀ p ∈ s.pl_macros.enum, ∀ m ∈ p.2.members,
    get_imacro_from_iblk m.blk_index s.pl_macros = (p.1 : Int)
  members_nodup : ∀ mac ∈ s.pl_macros, (mac.members.map (fun m => m.blk_index)).Nodup
  members_placed : ∀ mac ∈ s.pl_macros, ∀ m ∈ mac.members,
    s.grid_blocks (s.block_locs m.blk_index).loc = m.blk_index
  grid_agrees : GridAgrees s

/-- The entry that moving a macro member by `swap_offset` records. -/
def member_entry (s : PlacementState) (swap_offset : t_pl_offset) (m : t_pl_macro_member) :
    t_pl_moved_block :=
  ⟨m.blk_index, (s.block_locs m.blk_index).loc, (s.block_locs m.blk_index).loc.add swap_offset⟩

/-- The occupant of the destination of a macro member moved by `swap_offset`. -/
def dest_occupant (s : PlacementState) (swap_offset : t_pl_offset) (m : t_pl_macro_member) :
    ClusterBlockId :=
  s.grid_blocks ((s.block_locs m.blk_index).loc.add swap_offset)

/-- The members of the macros of a list of macro indices, in order. -/
def affected_members (s : PlacementState) (affected_macros : List Int) :
    List t_pl_macro_member :=
  affected_macros.flatMap (macro_members s)

/-- One column of three sites: the macro 0 is blocks 0 and 1 at y = 0 and
y = 1, and the single block 2 is at y = 2. Moving the macro up by one is a
self-swap that displaces block 2. -/
def s_self_swap : PlacementState :=
  mk_state 1 3 1 [⟨⟨0, 0, 0⟩, false⟩, ⟨⟨0, 1, 0⟩, false⟩, ⟨⟨0, 2, 0⟩, false⟩]
    [⟨[⟨0, ⟨0, 0, 0⟩⟩, ⟨1, ⟨0, 1, 0⟩⟩]⟩]

/-- The block `b` is a real block outside the macros `A` that occupies the
destination of a member of a macro of `A` moved by `swap_offset`. -/
def Displaced (s : PlacementState) (A : List Int) (swap_offset : t_pl_offset)
    (b : ClusterBlockId) : Prop :=
  b ≠ EMPTY_BLOCK_ID ∧ b ≠ INVALID_BLOCK_ID ∧ get_imacro_from_iblk b s.pl_macros ∉ A
    ∧ ∃ m ∈ affected_members s A, dest_occupant s swap_offset m = b

/-- The location `l` is vacated by moving the macros `A` by `swap_offset`: it is
the old location of a moved member and the new location of no moved member. -/
def Vacated (s : PlacementState) (A : List Int) (swap_offset : t_pl_offset)
    (l : t_pl_loc) : Prop :=
  (∃ m ∈ affected_members s A, (s.block_locs m.blk_index).loc = l)
    ∧ ¬ ∃ m ∈ affected_members s A, (s.block_locs m.blk_index).loc.add swap_offset = l

/-! ## Candidate site search (lines 533-599 and 775-918) -/

/-- Why a run of the search model stopped without a result: the fuel ran out,
a table was read outside its range, or a `VTR_ASSERT` failed. -/
inductive SearchFault where
  | out_of_fuel
  | out_of_bounds
  | assertion
deriving DecidableEq, Repr

/-- Compressed block grid of one block type. `grid[cx]` is the flat map of the
column `cx`; only its keys (the occupied compressed rows, in iteration order,
which for a flat map is increasing) are read by the search. -/
structure t_compressed_block_grid where
  compressed_to_grid_x : List Int
  compressed_to_grid_y : List Int
  grid : List (List Int)
  compatible_sub_tiles_for_tile : Nat → List Int

/-- Modelled from the spec: a floorplan region is an axis-aligned rectangle
with inclusive bounds (the class `Region` is not in move_utils.cpp). -/
structure Region where
  xmin : Int
  ymin : Int
  xmax : Int
  ymax : Int
deriving DecidableEq, Repr

/-- Modelled from the spec: `intersection(r1, r2)`, the geometric intersection
of two rectangles. -/
def intersection (r1 r2 : Region) : Region :=
  ⟨max r1.xmin r2.xmin, max r1.ymin r2.ymin, min r1.xmax r2.xmax, min r1.ymax r2.ymax⟩

/-- Modelled from the spec: `Region::empty()`, the rectangle holds no cell. -/
def Region.empty (r : Region) : Bool :=
  decide (r.xmax < r.xmin) || decide (r.ymax < r.ymin)

/-- What the search reads from the global contexts for one block type: the
compressed grid of the type, the coordinate mappings (external utilities), the
floorplan constraints and the device grid queries behind the final assertions. -/
structure SearchEnv where
  /-- The index of the logical block type: `type->index`. -/
  type_index : Int
  compressed_block_grid : t_compressed_block_grid
  /-- The external utility `grid_to_compressed(coords, point)`. -/
  grid_to_compressed : List Int → Int → Int
  /-- The external utility `grid_to_compressed_approx(coords, point)`. -/
  grid_to_compressed_approx : List Int → Int → Int
  /-- The rectangles of `cluster_constraints[b]`; the empty list is the empty
  partition region (block not constrained). -/
  cluster_constraints : ClusterBlockId → List Region
  get_physical_type : Int → Int → Nat
  /-- The external predicate `is_tile_compatible(tile, type)` for this type. -/
  is_tile_compatible : Nat → Bool
  get_width_offset : Int → Int → Int
  get_height_offset : Int → Int → Int

/-- Modelled from the spec: `vtr::irand(imax)` returns a value of `[0, imax]`;
the `n`-th draw of the random source `rng` is reduced to that range. -/
def irand (rng : Nat → Nat) (n : Nat) (imax : Int) : Int :=
  ((rng n : Nat) : Int) % (imax + 1)

/-- Modelled from the spec: `is_cluster_constrained(b)`, the block has a
floorplan constraint. -/
def is_cluster_constrained (env : SearchEnv) (b : ClusterBlockId) : Bool :=
  !(env.cluster_constraints b).isEmpty

/-- Reading `coords[i]` with an `int` index. -/
def coord_at (coords : List Int) (i : Int) : Option Int :=
  if 0 ≤ i then coords.get? i.toNat else none

/-- The call `lower_bound(v)` on the keys of a flat map: position of the first
key not less than `v` (the number of keys when there is none). -/
def lower_bound (keys : List Int) (v : Int) : Nat :=
  keys.findIdx (fun k => decide (v ≤ k))

/-- The call `upper_bound(v)` on the keys of a flat map: position of the first
key greater than `v` (the number of keys when there is none). -/
def upper_bound (keys : List Int) (v : Int) : Nat :=
  keys.findIdx (fun k => decide (v < k))

/-- Result of `find_compatible_compressed_loc_in_range`: the returned flag, the
final values of the reference parameters `cx_to` and `cy_to`, the number of
calls of `vtr::irand`, the set `tried_cx_to` in insertion order, and the total
number of insertions into the sets `tried_dy`. -/
structure KernelResult where
  legal : Bool
  cx_to : Int
  cy_to : Int
  n_draws : Nat
  tried_cx_to : List Int
  n_rows_tried : Nat
deriving DecidableEq, Repr

/-- The inner loop of `find_compatible_compressed_loc_in_range` (lines
850-871), entered with `legal == false`. The result is `legal`, `cy_to`, the
number of draws so far and the set `tried_dy`. -/
def row_search_loop (rng : Nat → Nat) (keys : List Int) (y_lower : Nat) (y_range : Int)
    (min_cy max_cy cx_from cy_from cx_to : Int) :
    Nat → List Int → Int → Nat → Except SearchFault (Bool × Int × Nat × List Int)
  | 0, _, _, _ => Except.error SearchFault.out_of_fuel
  | fuel + 1, tried_dy, cy_to, n =>
    if (tried_dy.length : Int) < y_range then
      let dy := irand rng n (y_range - 1)
      if dy ∈ tried_dy then
        row_search_loop rng keys y_lower y_range min_cy max_cy cx_from cy_from cx_to fuel
          tried_dy cy_to (n + 1)
      else
        match keys.get? (y_lower + dy.toNat) with
        | none => Except.error SearchFault.out_of_bounds
        | some cy =>
          if cy < min_cy ∨ max_cy < cy then Except.error SearchFault.assertion
          else if cx_from = cx_to ∧ cy_from = cy then
            row_search_loop rng keys y_lower y_range min_cy max_cy cx_from cy_from cx_to fuel
              (tried_dy ++ [dy]) cy (n + 1)
          else
            Except.ok (true, cy, n + 1, tried_dy ++ [dy])
    else
      Except.ok (false, cy_to, n, tried_dy)

/-- Reading `compressed_block_grid.grid[cx]`: the keys of the column. -/
def column_at (env : SearchEnv) (cx : Int) : Option (List Int) :=
  if 0 ≤ cx then env.compressed_block_grid.grid.get? cx.toNat else none

/-- Lines 821-841: the rows of a picked column that the inner loop will search,
as the positions `y_lower_iter` and `y_upper_iter` and the values of `min_cy`
and `max_cy` after the block; `none` when the column is left by a `continue`. -/
def column_window (type_index : Int) (keys : List Int) (min_cy max_cy : Int) :
    Option (Nat × Nat × Int × Int) :=
  let y_lower := lower_bound keys min_cy
  if y_lower = keys.length then none
  else
    let y_upper := upper_bound keys max_cy
    if min_cy < keys.getD y_lower 0 then
      if type_index ≠ 1 then none
      else some (0, keys.length, keys.getD 0 0, keys.getD (keys.length - 1) 0)
    else some (y_lower, y_upper, min_cy, max_cy)

/-- The outer loop of `find_compatible_compressed_loc_in_range` (lines
800-872), entered with `legal == false`. The parameters `min_cy` and `max_cy`
are loop state because the fall-back branch overwrites them. -/
def column_search_loop (env : SearchEnv) (rng : Nat → Nat)
    (min_cx max_cx delta_cx cx_from cy_from possibilities : Int) :
    Nat → List Int → Int → Int → Int → Int → Nat → Nat → Except SearchFault KernelResult
  | 0, _, _, _, _, _, _, _ => Except.error SearchFault.out_of_fuel
  | fuel + 1, tried_cx_to, min_cy, max_cy, cx_to, cy_to, n, rows =>
    if (tried_cx_to.length : Int) < possibilities then
      let cx := min_cx + irand rng n delta_cx
      if cx < min_cx ∨ max_cx < cx then Except.error SearchFault.assertion
      else if cx ∈ tried_cx_to then
        column_search_loop env rng min_cx max_cx delta_cx cx_from cy_from possibilities fuel
          tried_cx_to min_cy max_cy cx cy_to (n + 1) rows
      else
        match column_at env cx with
        | none => Except.error SearchFault.out_of_bounds
        | some keys =>
          match column_window env.type_index keys min_cy max_cy with
          | none =>
            column_search_loop env rng min_cx max_cx delta_cx cx_from cy_from possibilities fuel
              (tried_cx_to ++ [cx]) min_cy max_cy cx cy_to (n + 1) rows
          | some (y_lower, y_upper, min_cy1, max_cy1) =>
            let y_range : Int := (y_upper : Int) - (y_lower : Int)
            if y_range < 0 then Except.error SearchFault.assertion
            else
              match row_search_loop rng keys y_lower y_range min_cy1 max_cy1 cx_from cy_from cx
                  fuel [] cy_to (n + 1) with
              | Except.error e => Except.error e
              | Except.ok (legal, cy1, n1, tried_dy) =>
                if legal then
                  Except.ok ⟨true, cx, cy1, n1, tried_cx_to ++ [cx], rows + tried_dy.length⟩
                else
                  column_search_loop env rng min_cx max_cx delta_cx cx_from cy_from
                    possibilities fuel (tried_cx_to ++ [cx]) min_cy1 max_cy1 cx cy1 n1
                    (rows + tried_dy.length)
    else
      Except.ok ⟨false, cx_to, cy_to, n, tried_cx_to, rows⟩

/-- The function `find_compatible_compressed_loc_in_range`; `n` is the number
of draws already taken from the random source. -/
def find_compatible_compressed_loc_in_range (env : SearchEnv) (rng : Nat → Nat) (fuel : Nat)
    (n : Nat) (min_cx max_cx min_cy max_cy delta_cx cx_from cy_from cx_to cy_to : Int)
    (is_median : Bool) : Except SearchFault KernelResult :=
  let possibilities := if is_median then delta_cx + 1 else delta_cx
  column_search_loop env rng min_cx max_cx delta_cx cx_from cy_from possibilities fuel []
    min_cy max_cy cx_to cy_to n 0

/-- The reference parameters `min_cx, min_cy, max_cx, max_cy, delta_cx` of
`intersect_range_limit_with_floorplan_constraints`. -/
structure SearchBounds where
  min_cx : Int
  min_cy : Int
  max_cx : Int
  max_cy : Int
  delta_cx : Int
deriving DecidableEq, Repr

/-- The function `intersect_range_limit_with_floorplan_constraints`: the
returned flag and the final values of the reference parameters. -/
def intersect_range_limit_with_floorplan_constraints (env : SearchEnv) (b_from : ClusterBlockId)
    (b : SearchBounds) : Except SearchFault (Bool × SearchBounds) :=
  let cbg := env.compressed_block_grid
  match coord_at cbg.compressed_to_grid_x b.min_cx, coord_at cbg.compressed_to_grid_x b.max_cx,
      coord_at cbg.compressed_to_grid_y b.min_cy, coord_at cbg.compressed_to_grid_y b.max_cy with
  | some min_x, some max_x, some min_y, some max_y =>
    let range_reg : Region := ⟨min_x, min_y, max_x, max_y⟩
    let regions := env.cluster_constraints b_from
    match regions with
    | [region0] =>
      let intersect_reg := intersection region0 range_reg
      if intersect_reg.empty then
        Except.ok (false, b)
      else
        let min_cx := env.grid_to_compressed_approx cbg.compressed_to_grid_x intersect_reg.xmin
        let max_cx := env.grid_to_compressed_approx cbg.compressed_to_grid_x intersect_reg.xmax
        let min_cy := env.grid_to_compressed_approx cbg.compressed_to_grid_y intersect_reg.ymin
        let max_cy := env.grid_to_compressed_approx cbg.compressed_to_grid_y intersect_reg.ymax
        Except.ok (true, ⟨min_cx, min_cy, max_cx, max_cy, max_cx - min_cx⟩)
    | _ => Except.ok (true, b)
  | _, _, _, _ => Except.error SearchFault.out_of_bounds

/-- The function `compressed_grid_to_loc`; it takes the `n`-th draw. -/
def compressed_grid_to_loc (env : SearchEnv) (rng : Nat → Nat) (n : Nat) (cx cy : Int) :
    Except SearchFault t_pl_loc :=
  let cbg := env.compressed_block_grid
  match coord_at cbg.compressed_to_grid_x cx, coord_at cbg.compressed_to_grid_y cy with
  | some x, some y =>
    let to_type := env.get_physical_type x y
    let compatible_sub_tiles := cbg.compatible_sub_tiles_for_tile to_type
    match coord_at compatible_sub_tiles (irand rng n ((compatible_sub_tiles.length : Int) - 1)) with
    | some sub_tile => Except.ok ⟨x, y, sub_tile⟩
    | none => Except.error SearchFault.out_of_bounds
  | _, _ => Except.error SearchFault.out_of_bounds

/-- Result of `find_to_loc_uniform`: the returned flag, the reference parameter
`to` (the value passed in when nothing was found), and the locals `cx_to` and
`cy_to` (`OPEN`, that is -1, before the search). -/
structure ToLocResult where
  found : Bool
  to_loc : t_pl_loc
  cx_to : Int
  cy_to : Int
deriving DecidableEq, Repr

/-- The function `find_to_loc_uniform`. The parameter `rlim` is the range limit
after its conversion to `int` by `std::min<int>`. -/
def find_to_loc_uniform (env : SearchEnv) (rng : Nat → Nat) (fuel : Nat) (rlim : Int)
    (from_loc : t_pl_loc) (to_loc : t_pl_loc) (b_from : ClusterBlockId) :
    Except SearchFault ToLocResult :=
  let cbg := env.compressed_block_grid
  let rlim_x := min (cbg.compressed_to_grid_x.length : Int) rlim
  let rlim_y := min (cbg.compressed_to_grid_y.length : Int) rlim
  let cx_from := env.grid_to_compressed cbg.compressed_to_grid_x from_loc.x
  let cy_from := env.grid_to_compressed cbg.compressed_to_grid_y from_loc.y
  let min_cx := max 0 (cx_from - rlim_x)
  let max_cx := min ((cbg.compressed_to_grid_x.length : Int) - 1) (cx_from + rlim_x)
  let delta_cx := max_cx - min_cx
  let min_cy := max 0 (cy_from - rlim_y)
  let max_cy := min ((cbg.compressed_to_grid_y.length : Int) - 1) (cy_from + rlim_y)
  let b0 : SearchBounds := ⟨min_cx, min_cy, max_cx, max_cy, delta_cx⟩
  let clipped : Except SearchFault (Bool × SearchBounds) :=
    if is_cluster_constrained env b_from then
      intersect_range_limit_with_floorplan_constraints env b_from b0
    else Except.ok (true, b0)
  match clipped with
  | Except.error e => Except.error e
  | Except.ok (false, _) => Except.ok ⟨false, to_loc, -1, -1⟩
  | Except.ok (true, b) =>
    match find_compatible_compressed_loc_in_range env rng fuel 0 b.min_cx b.max_cx b.min_cy
        b.max_cy b.delta_cx cx_from cy_from (-1) (-1) false with
    | Except.error e => Except.error e
    | Except.ok res =>
      if res.legal = false then Except.ok ⟨false, to_loc, res.cx_to, res.cy_to⟩
      else if res.cx_to = -1 ∨ res.cy_to = -1 then Except.error SearchFault.assertion
      else
        match compressed_grid_to_loc env rng res.n_draws res.cx_to res.cy_to with
        | Except.error e => Except.error e
        | Except.ok loc =>
          if env.is_tile_compatible (env.get_physical_type loc.x loc.y) = false
              ∨ env.get_width_offset loc.x loc.y ≠ 0 ∨ env.get_height_offset loc.x loc.y ≠ 0 then
            Except.error SearchFault.assertion
          else Except.ok ⟨true, loc, res.cx_to, res.cy_to⟩

/-- Position of `point` in `coords` (the number of coordinates when absent):
the value of `std::lower_bound` on increasing coordinates that hold `point`. -/
def index_of_coord (coords : List Int) (point : Int) : Int :=
  (coords.findIdx (fun c => decide (point ≤ c)) : Nat)

/-- A search environment over a device where compressed index and coordinate
coincide on `ncols` columns and `nrows` rows: the coordinate mappings look the
coordinate up, the approximate one clamps to the last index; every tile has the
single compatible sub-tile 0 and passes the final assertions. -/
def mk_env (type_index : Int) (ncols nrows : Nat) (grid : List (List Int))
    (constraints : ClusterBlockId → List Region) : SearchEnv where
  type_index := type_index
  compressed_block_grid :=
    ⟨(List.range ncols).map (fun i => (i : Int)), (List.range nrows).map (fun i => (i : Int)),
      grid, fun _ => [0]⟩
  grid_to_compressed := index_of_coord
  grid_to_compressed_approx := fun coords point =>
    min (index_of_coord coords point) ((coords.length : Int) - 1)
  cluster_constraints := constraints
  get_physical_type := fun _ _ => 0
  is_tile_compatible := fun _ => true
  get_width_offset := fun _ _ => 0
  get_height_offset := fun _ _ => 0

/-- A block type (index 2) with five columns, each holding the rows 0 to 4; no
block is constrained. -/
def env_full5 : SearchEnv :=
  mk_env 2 5 5 (List.replicate 5 [0, 1, 2, 3, 4]) (fun _ => [])

/-- The random source whose `n`-th draw is `n + 1`. -/
def rng_succ (n : Nat) : Nat := n + 1

/-- The random source that always draws 0. -/
def rng_zero (_n : Nat) : Nat := 0

/-- A block type (index 2) with one column whose occupied rows are 1 and 2 (row
0 of the compressed rows 0 to 2 is not occupied in this column). -/
def env_sparse_column : SearchEnv :=
  mk_env 2 1 3 [[1, 2]] (fun _ => [])

/-- A block type (index 2) that occupies a single column with the rows 0 and 1. -/
def env_one_column : SearchEnv :=
  mk_env 2 1 2 [[0, 1]] (fun _ => [])

/-- The environment `env_full5` with every block constrained to the single cell
(2, 2). -/
def env_full5_cell : SearchEnv :=
  mk_env 2 5 5 (List.replicate 5 [0, 1, 2, 3, 4]) (fun _ => [⟨2, 2, 2, 2⟩])

/-- The environment `env_full5` with every block constrained to the union of
the two cells (0, 0) and (4, 4). -/
def env_full5_two : SearchEnv :=
  mk_env 2 5 5 (List.replicate 5 [0, 1, 2, 3, 4]) (fun _ => [⟨0, 0, 0, 0⟩, ⟨4, 4, 4, 4⟩])

/-- The environment `env_full5` with every block constrained to the rectangle
from (0, 0) to (2, 1). -/
def env_full5_rect : SearchEnv :=
  mk_env 2 5 5 (List.replicate 5 [0, 1, 2, 3, 4]) (fun _ => [⟨0, 0, 2, 1⟩])

/-- The cell `(x, y)` lies in the rectangle. -/
def Region.contains (r : Region) (x y : Int) : Prop :=
  r.xmin ≤ x ∧ x ≤ r.xmax ∧ r.ymin ≤ y ∧ y ≤ r.ymax

/-- A block type (index 2) with three columns of one occupied row each. -/
def env_three_columns : SearchEnv :=
  mk_env 2 3 1 [[0], [0], [0]] (fun _ => [])

/-- The designated block type (index 1) with one column whose only occupied row
is 0, among the compressed rows 0 to 3. -/
def env_type1_low : SearchEnv :=
  mk_env 1 1 4 [[0]] (fun _ => [])

/-- The designated block type (index 1) with one column whose occupied rows are
0 and 5, among the compressed rows 0 to 5. -/
def env_type1_split : SearchEnv :=
  mk_env 1 1 6 [[0, 5]] (fun _ => [])

/-- The blocks that moving the macro member `m` by `swap_offset` onto a site
held by no macro can put into the record: the member, then the occupant of its
destination when that is a real block. -/
def swap_blocks (s : PlacementState) (swap_offset : t_pl_offset) (m : t_pl_macro_member) :
    List ClusterBlockId :=
  m.blk_index ::
    (if dest_occupant s swap_offset m ≠ EMPTY_BLOCK_ID
        ∧ dest_occupant s swap_offset m ≠ INVALID_BLOCK_ID then
      [dest_occupant s swap_offset m]
    else [])

/-- Three columns of two sites: the macro 0 is blocks 0 and 1 at (0,0) and
(0,1), the single block 2 is at (1,0), the macro 1 is blocks 3 and 4 at (1,1)
and (2,0); the site (2,1) is empty. -/
def s_tail : PlacementState :=
  mk_state 3 2 1
    [⟨⟨0, 0, 0⟩, false⟩, ⟨⟨0, 1, 0⟩, false⟩, ⟨⟨1, 0, 0⟩, false⟩, ⟨⟨1, 1, 0⟩, false⟩,
      ⟨⟨2, 0, 0⟩, false⟩]
    [⟨[⟨0, ⟨0, 0, 0⟩⟩, ⟨1, ⟨0, 1, 0⟩⟩]⟩, ⟨[⟨3, ⟨0, 0, 0⟩⟩, ⟨4, ⟨1, -1, 0⟩⟩]⟩]

/-- Two columns of two sites holding two chains of opposite directions: the
macro 0 is blocks 0 and 1 at (0,0) and (0,1), the macro 1 is blocks 2 and 3 at
(1,1) and (1,0). -/
def s_cross : PlacementState :=
  mk_state 2 2 1
    [⟨⟨0, 0, 0⟩, false⟩, ⟨⟨0, 1, 0⟩, false⟩, ⟨⟨1, 1, 0⟩, false⟩, ⟨⟨1, 0, 0⟩, false⟩]
    [⟨[⟨0, ⟨0, 0, 0⟩⟩, ⟨1, ⟨0, 1, 0⟩⟩]⟩, ⟨[⟨2, ⟨0, 0, 0⟩⟩, ⟨3, ⟨0, -1, 0⟩⟩]⟩]

/-- Two columns of two sites: the macro 0 is the fixed block 0 at (0,0) and
block 1 at (0,1), the macro 1 is blocks 2 and 3 at (1,0) and (1,1). -/
def s_fixed_pair : PlacementState :=
  mk_state 2 2 1
    [⟨⟨0, 0, 0⟩, true⟩, ⟨⟨0, 1, 0⟩, false⟩, ⟨⟨1, 0, 0⟩, false⟩, ⟨⟨1, 1, 0⟩, false⟩]
    [⟨[⟨0, ⟨0, 0, 0⟩⟩, ⟨1, ⟨0, 1, 0⟩⟩]⟩, ⟨[⟨2, ⟨0, 0, 0⟩⟩, ⟨3, ⟨0, 1, 0⟩⟩]⟩]

/-- No member of a macro, moved by `swap_offset`, lands on a site held by a
member of its own macro: moving by `swap_offset` never starts a self-swap. -/
def SelfFree (s : PlacementState) (swap_offset : t_pl_offset) : Prop :=
  ∀ p ∈ s.pl_macros.enum, ∀ m ∈ p.2.members,
    get_imacro_from_iblk (dest_occupant s swap_offset m) s.pl_macros ≠ (p.1 : Int)

/-- One column of four sites: the macro 0 is blocks 0 and 1 at y = 1 and y = 0
(a chain that runs downwards), the single block 2 is at y = 2, the site y = 3 is
empty. Moving the macro up by one swaps its first member with block 2 and then
finds its second member landing on the first one. -/
def s_reset : PlacementState :=
  mk_state 1 4 1 [⟨⟨0, 1, 0⟩, false⟩, ⟨⟨0, 0, 0⟩, false⟩, ⟨⟨0, 2, 0⟩, false⟩]
    [⟨[⟨0, ⟨0, 0, 0⟩⟩, ⟨1, ⟨0, -1, 0⟩⟩]⟩]

/-- The entries that a call of `record_single_block_swap b_from to_loc` with
outcome VALID appends: the move of `b_from`, followed by the move of the
occupant of `to_loc` to the location of `b_from` when the occupant is a real
block; nothing when the occupant is the INVALID sentinel. -/
def swap_entries (s : PlacementState) (b_from : ClusterBlockId) (to_loc : t_pl_loc) :
    List t_pl_moved_block :=
  if s.grid_blocks to_loc = EMPTY_BLOCK_ID then
    [⟨b_from, (s.block_locs b_from).loc, to_loc⟩]
  else if s.grid_blocks to_loc ≠ INVALID_BLOCK_ID then
    [⟨b_from, (s.block_locs b_from).loc, to_loc⟩,
      ⟨s.grid_blocks to_loc, (s.block_locs (s.grid_blocks to_loc)).loc, (s.block_locs b_from).loc⟩]
  else []

/-- The macro `j` is the macro of the occupant of the destination of a member of
the macro `i` moved by `swap_offset`. -/
def follows (s : PlacementState) (swap_offset : t_pl_offset) (i j : Int) : Prop :=
  j ≠ -1 ∧ ∃ m ∈ macro_members s i,
    get_imacro_from_iblk (dest_occupant s swap_offset m) s.pl_macros = j

/-- The macro `j` is reached from the macro `i` by following, any number of
times, the macro of a destination occupant under the same offset. -/
def reached (s : PlacementState) (swap_offset : t_pl_offset) (i j : Int) : Prop :=
  Relation.ReflTransGen (follows s swap_offset) i j

/-- The largest number of members of a macro. -/
def max_members (s : PlacementState) : Nat :=
  (s.pl_macros.map (fun mac => mac.members.length)).foldr max 0

/-- An amount of fuel that lets `identify_macro_self_swap_affected_macros` return
from any call: one loop of at most `max_members + 1` iterations per macro, one
call per macro. -/
def self_swap_fuel (s : PlacementState) : Nat :=
  (s.pl_macros.length + 1) * (max_members s + 2)

/-- The location is a site of the grid: the column and the row are inside the
device and the sub-tile is below the capacity of the tile. These are the sites
at which the source may read `grid_blocks[x][y].blocks[sub_tile]`. -/
def in_grid (s : PlacementState) (l : t_pl_loc) : Prop :=
  0 ≤ l.x ∧ l.x < (s.grid_width : Int) ∧ 0 ≤ l.y ∧ l.y < (s.grid_height : Int)
    ∧ 0 ≤ l.sub_tile ∧ l.sub_tile < s.capacity (s.get_physical_type l.x l.y)

/-- A row of four sites: blocks 0 and 1 movable at x = 0 and x = 1, the site at
x = 2 is inside the grid and holds the INVALID sentinel (it is no site for a
block), the site at x = 3 is empty; no macros. -/
def s_blocked : PlacementState :=
  { mk_state 4 1 1 [⟨⟨0, 0, 0⟩, false⟩, ⟨⟨1, 0, 0⟩, false⟩] [] with
    grid_blocks := fun l =>
      if l = ⟨2, 0, 0⟩ then INVALID_BLOCK_ID
      else (mk_state 4 1 1 [⟨⟨0, 0, 0⟩, false⟩, ⟨⟨1, 0, 0⟩, false⟩] []).grid_blocks l }

/-- The random source is fair: from every draw on, every value of every range
`[0, imax]` is drawn again at some later draw. -/
def fair_source (rng : Nat → Nat) : Prop :=
  ∀ (n : Nat) (imax v : Int), 0 ≤ v → v ≤ imax → ∃ k, irand rng (n + k) imax = v

/-! ## The engine over an arbitrary record_block_move

The helper `record_block_move` is defined outside move_utils.cpp. The
definitions below are the functions of lines 115-440 again, with the helper as a
parameter: every call of `record_block_move` is a call of `rbm`. -/

/-- The type of the helper `record_block_move(blocks_affected, blk, to)`: from
the placement state, the proposal, the block and the destination to the outcome
and the proposal after the call. -/
abbrev Recorder : Type :=
  PlacementState → MoveCtx → ClusterBlockId → t_pl_loc → e_block_move_result × MoveCtx

/-- The function `record_single_block_swap` (lines 115-161) over the helper
`rbm`. -/
def record_single_block_swap_via (rbm : Recorder) (s : PlacementState) (st : MoveCtx)
    (b_from : ClusterBlockId) (to_loc : t_pl_loc) : e_block_move_result × MoveCtx :=
  if (s.block_locs b_from).is_fixed then
    (e_block_move_result.ABORT, st)
  else
    let b_to := s.grid_blocks to_loc
    let curr_from := (s.block_locs b_from).loc
    if b_to = EMPTY_BLOCK_ID then
      rbm s st b_from to_loc
    else if b_to ≠ INVALID_BLOCK_ID then
      if (b_to ≠ EMPTY_BLOCK_ID ∧ b_to ≠ INVALID_BLOCK_ID)
          ∧ (is_legal_swap_to_location s b_to curr_from = false
              ∨ (s.block_locs b_to).is_fixed = true) then
        (e_block_move_result.ABORT, st)
      else
        let r := rbm s st b_from to_loc
        if r.1 ≠ e_block_move_result.VALID then
          r
        else
          let from_loc := (s.block_locs b_from).loc
          rbm s r.2 b_to from_loc
    else
      (e_block_move_result.VALID, st)

/-- The member loop of `record_macro_move` (lines 320-347) over the helper
`rbm`; the outcome of the helper is not read. -/
def record_macro_move_loop_via (rbm : Recorder) (s : PlacementState) (imacro_cur : Int)
    (swap_offset : t_pl_offset) :
    List t_pl_macro_member → MoveCtx → List ClusterBlockId →
      e_block_move_result × MoveCtx × List ClusterBlockId
  | [], st, displaced_blocks => (e_block_move_result.VALID, st, displaced_blocks)
  | member :: rest, st, displaced_blocks =>
    let from_loc := (s.block_locs member.blk_index).loc
    let to_loc := from_loc.add swap_offset
    if is_legal_swap_to_location s member.blk_index to_loc = false then
      (e_block_move_result.ABORT, log_move_abort st "macro move to location illegal",
        displaced_blocks)
    else
      let blk_to := s.grid_blocks to_loc
      let st1 := (rbm s st member.blk_index to_loc).2
      let imacro_to := get_imacro_from_iblk blk_to s.pl_macros
      let displaced1 :=
        if blk_to.toBool && decide (imacro_to ≠ imacro_cur) then displaced_blocks ++ [blk_to]
        else displaced_blocks
      record_macro_move_loop_via rbm s imacro_cur swap_offset rest st1 displaced1

/-- The function `record_macro_move` over the helper `rbm`. -/
def record_macro_move_via (rbm : Recorder) (s : PlacementState) (st : MoveCtx)
    (displaced_blocks : List ClusterBlockId) (imacro_cur : Int) (swap_offset : t_pl_offset) :
    e_block_move_result × MoveCtx × List ClusterBlockId :=
  record_macro_move_loop_via rbm s imacro_cur swap_offset (macro_members s imacro_cur) st
    displaced_blocks

/-- The loop of `record_macro_self_swaps` that moves every affected macro, over
the helper `rbm`. -/
def move_affected_macros_via (rbm : Recorder) (s : PlacementState) (swap_offset : t_pl_offset) :
    List Int → MoveCtx → List ClusterBlockId →
      e_block_move_result × MoveCtx × List ClusterBlockId
  | [], st, displaced_blocks => (e_block_move_result.VALID, st, displaced_blocks)
  | imacro_affected :: rest, st, displaced_blocks =>
    let r := record_macro_move_via rbm s st displaced_blocks imacro_affected swap_offset
    if r.1 ≠ e_block_move_result.VALID then r
    else move_affected_macros_via rbm s swap_offset rest r.2.1 r.2.2

/-- The last loop of `record_macro_self_swaps` over the helper `rbm`: the
outcome is the outcome of the last call of the helper. -/
def reseat_displaced_via (rbm : Recorder) (s : PlacementState) :
    List ClusterBlockId → List t_pl_loc → e_block_move_result × MoveCtx →
      Except Fault (e_block_move_result × MoveCtx)
  | [], _, r => Except.ok r
  | _ :: _, [], _ => Except.error Fault.out_of_bounds
  | blk :: rest, loc :: locs, r =>
    reseat_displaced_via rbm s rest locs (rbm s r.2 blk loc)

/-- The function `record_macro_self_swaps` (lines 383-440) over the helper
`rbm`. -/
def record_macro_self_swaps_via (rbm : Recorder) (s : PlacementState) (fuel : Nat)
    (st : MoveCtx) (imacro_cur : Int) (swap_offset : t_pl_offset) :
    Except Fault (e_block_move_result × MoveCtx) :=
  let st0 := clear_move_blocks st
  match identify_macro_self_swap_affected_macros s fuel st0 [] imacro_cur swap_offset with
  | Except.error e => Except.error e
  | Except.ok (outcome, st1, macros) =>
    if outcome ≠ e_block_move_result.VALID then Except.ok (outcome, st1)
    else
      let affected_macros := std_unique macros
      let r := move_affected_macros_via rbm s swap_offset affected_macros st1 []
      if r.1 ≠ e_block_move_result.VALID then Except.ok (r.1, r.2.1)
      else
        let non_macro_displaced_blocks := r.2.2.filter (is_non_macro_block s affected_macros)
        let empty_locs := determine_locations_emptied_by_move r.2.1
        reseat_displaced_via rbm s non_macro_displaced_blocks empty_locs (r.1, r.2.1)

/-- The lock-step loop of `record_macro_macro_swaps` (lines 269-301) over the
helper `rbm`. -/
def lock_step_loop_via (rbm : Recorder) (s : PlacementState)
    (from_members : List t_pl_macro_member) (from_to_macro_offset swap_offset : t_pl_offset) :
    List t_pl_macro_member → MoveCtx → Int → Int → LockStep
  | [], st, imember_from, imember_to => LockStep.finished st imember_from imember_to
  | to_member :: to_rest, st, imember_from, imember_to =>
    if imember_from < (from_members.length : Int) then
      match member_at from_members imember_from with
      | none => LockStep.fault
      | some from_member =>
        if from_member.offset ≠ to_member.offset.add from_to_macro_offset then
          LockStep.returned e_block_move_result.ABORT
            (log_move_abort st "macro shapes disagree") imember_from
        else
          let b_from := from_member.blk_index
          let curr_to := (s.block_locs b_from).loc.add swap_offset
          let curr_from := (s.block_locs b_from).loc
          let b_to := to_member.blk_index
          if (b_to ≠ EMPTY_BLOCK_ID ∧ b_to ≠ INVALID_BLOCK_ID)
              ∧ is_legal_swap_to_location s b_to curr_from = false then
            LockStep.returned e_block_move_result.ABORT st imember_from
          else if is_legal_swap_to_location s b_from curr_to = false then
            LockStep.returned e_block_move_result.ABORT
              (log_move_abort st "macro_from swap to location illegal") imember_from
          else
            let r := record_single_block_swap_via rbm s st b_from curr_to
            if r.1 ≠ e_block_move_result.VALID then
              LockStep.returned r.1 r.2 imember_from
            else
              lock_step_loop_via rbm s from_members from_to_macro_offset swap_offset to_rest r.2
                (imember_from + 1) (imember_to + 1)
    else
      LockStep.finished st imember_from imember_to

mutual

/-- The function `record_macro_swaps` (lines 166-217) over the helper `rbm`. -/
def record_macro_swaps_via (rbm : Recorder) (s : PlacementState) :
    Nat → MoveCtx → Int → Int → t_pl_offset → Except Fault (e_block_move_result × MoveCtx × Int)
  | 0, _, _, _, _ => Except.error Fault.out_of_fuel
  | fuel + 1, st, imacro_from, imember_from, swap_offset =>
    if imember_from < ((macro_members s imacro_from).length : Int) then
      match member_at (macro_members s imacro_from) imember_from with
      | none => Except.error Fault.out_of_bounds
      | some mem =>
        let curr_b_from := mem.blk_index
        let curr_from := (s.block_locs curr_b_from).loc
        let curr_to := curr_from.add swap_offset
        if is_legal_swap_to_location s curr_b_from curr_to = false then
          Except.ok (e_block_move_result.ABORT,
            log_move_abort st "macro_from swap to location illegal", imember_from + 1)
        else
          let b_to := s.grid_blocks curr_to
          let imacro_to := get_imacro_from_iblk b_to s.pl_macros
          if imacro_to ≠ -1 then
            if imacro_from = imacro_to then
              match record_macro_self_swaps_via rbm s fuel st imacro_from swap_offset with
              | Except.error e => Except.error e
              | Except.ok (outcome, st1) =>
                Except.ok (outcome, st1, ((macro_members s imacro_from).length : Int))
            else
              match record_macro_macro_swaps_via rbm s fuel st imacro_from imember_from imacro_to
                  b_to swap_offset with
              | Except.error e => Except.error e
              | Except.ok (outcome, st1, imember1) =>
                if outcome = e_block_move_result.INVERT_VALID then
                  Except.ok (outcome, st1, imember1)
                else if outcome = e_block_move_result.VALID then
                  record_macro_swaps_via rbm s fuel st1 imacro_from (imember1 - 1 + 1) swap_offset
                else
                  Except.ok (outcome, st1, imember1 - 1 + 1)
          else
            let r := record_single_block_swap_via rbm s st curr_b_from curr_to
            if r.1 = e_block_move_result.VALID then
              record_macro_swaps_via rbm s fuel r.2 imacro_from (imember_from + 1) swap_offset
            else
              Except.ok (r.1, r.2, imember_from + 1)
    else
      Except.ok (e_block_move_result.VALID, st, imember_from)

/-- The function `record_macro_macro_swaps` (lines 222-312) over the helper
`rbm`. -/
def record_macro_macro_swaps_via (rbm : Recorder) (s : PlacementState) :
    Nat → MoveCtx → Int → Int → Int → ClusterBlockId → t_pl_offset →
      Except Fault (e_block_move_result × MoveCtx × Int)
  | 0, _, _, _, _, _, _ => Except.error Fault.out_of_fuel
  | fuel + 1, st, imacro_from, imember_from, imacro_to, blk_to, swap_offset =>
    match member_at (macro_members s imacro_to) 0 with
    | none => Except.error Fault.out_of_bounds
    | some first_to =>
      if first_to.blk_index ≠ blk_to then
        match record_macro_swaps_via rbm s fuel st imacro_to 0 swap_offset.neg with
        | Except.error e => Except.error e
        | Except.ok (outcome, st1, _) =>
          if outcome = e_block_move_result.INVERT then
            Except.ok (e_block_move_result.ABORT, log_move_abort st1 "invert recursion2",
              imember_from)
          else if outcome = e_block_move_result.VALID then
            Except.ok (e_block_move_result.INVERT_VALID, st1, imember_from)
          else
            Except.ok (outcome, st1, imember_from)
      else
        match member_at (macro_members s imacro_from) imember_from with
        | none => Except.error Fault.out_of_bounds
        | some from_first =>
          let from_to_macro_offset := from_first.offset
          match lock_step_loop_via rbm s (macro_members s imacro_from) from_to_macro_offset
              swap_offset (macro_members s imacro_to) st imember_from 0 with
          | LockStep.fault => Except.error Fault.out_of_bounds
          | LockStep.returned outcome st1 imember1 => Except.ok (outcome, st1, imember1)
          | LockStep.finished st1 imember1 imember_to =>
            if imember_to < ((macro_members s imacro_to).length : Int) then
              match record_macro_swaps_via rbm s fuel st1 imacro_to imember_to swap_offset.neg
                with
              | Except.error e => Except.error e
              | Except.ok (outcome, st2, _) => Except.ok (outcome, st2, imember1)
            else
              Except.ok (e_block_move_result.VALID, st1, imember1)

end

/-- The function `find_affected_blocks` (lines 68-113) over the helper `rbm`. -/
def find_affected_blocks_via (rbm : Recorder) (s : PlacementState) (fuel : Nat) (st : MoveCtx)
    (b_from : ClusterBlockId) (to_loc : t_pl_loc) : Except Fault (e_block_move_result × MoveCtx) :=
  let from_loc := (s.block_locs b_from).loc
  let imacro_from := get_imacro_from_iblk b_from s.pl_macros
  if imacro_from ≠ -1 then
    let swap_offset := to_loc.sub from_loc
    match record_macro_swaps_via rbm s fuel st imacro_from 0 swap_offset with
    | Except.error e => Except.error e
    | Except.ok (outcome, st1, _) => Except.ok (outcome, st1)
  else
    let b_to := s.grid_blocks to_loc
    let imacro_to := get_imacro_from_iblk b_to s.pl_macros
    if imacro_to ≠ -1 then
      Except.ok (e_block_move_result.INVERT, st)
    else
      Except.ok (record_single_block_swap_via rbm s st b_from to_loc)

/-- The function `create_move` (lines 35-66) over the helper `rbm`. -/
def create_move_via (rbm : Recorder) (s : PlacementState) (fuel : Nat) (st : MoveCtx)
    (b_from : ClusterBlockId) (to_loc : t_pl_loc) : Except Fault (e_create_move × MoveCtx) :=
  (create_move_with (find_affected_blocks_via rbm s fuel) s st b_from to_loc).1

theorem block_at_some {locs : List t_block_loc} {l : t_pl_loc} {b : ClusterBlockId}
    (h : block_at locs l = some b) :
    0 ≤ b ∧ b.toNat < locs.length ∧ (locs.getD b.toNat ⟨⟨0, 0, 0⟩, false⟩).loc = l := by
  unfold block_at at h
  cases hf : locs.findIdx? (fun e => decide (e.loc = l)) with
  | none => simp [hf] at h
  | some i =>
    simp only [hf, Option.some.injEq] at h
    subst h
    rw [List.findIdx?_eq_some_iff_getElem] at hf
    obtain ⟨hi, hp, _⟩ := hf
    refine ⟨Int.ofNat_nonneg i, by simpa using hi, ?_⟩
    simp only [Int.toNat_ofNat]
    rw [List.getD_eq_getElem _ _ hi]
    simpa using hp

theorem mk_state_grid_agrees (w h : Nat) (cap : Int) (locs : List t_block_loc)
    (macros : List t_pl_macro) : GridAgrees (mk_state w h cap locs macros) := by
  intro l hE hI
  simp only [mk_state] at hE hI ⊢
  split at hE
  · rename_i hin
    simp only [hin, and_self, if_true] at hI ⊢
    cases hb : block_at locs l with
    | none => simp [hb] at hE
    | some b =>
      obtain ⟨h0, _, hl⟩ := block_at_some hb
      simp only [hb, if_pos h0]
      exact hl
  · rename_i hout
    simp [hout] at hI

/-! ## is_legal_swap_to_location -/

/-- C5: `is_legal_swap_to_location blk to` is true exactly when `to` is on the
grid, its sub-tile index is below the capacity of the physical tile there, the
sub-tile is compatible with the logical type of `blk`, and the occupant of `to`
is EMPTY, INVALID or a block that is not fixed. -/
theorem is_legal_swap_to_location_iff (s : PlacementState) (blk : ClusterBlockId)
    (to_loc : t_pl_loc) :
    is_legal_swap_to_location s blk to_loc = true ↔
      ((0 ≤ to_loc.x ∧ to_loc.x < (s.grid_width : Int))
        ∧ (0 ≤ to_loc.y ∧ to_loc.y < (s.grid_height : Int)))
      ∧ (0 ≤ to_loc.sub_tile
          ∧ to_loc.sub_tile < s.capacity (s.get_physical_type to_loc.x to_loc.y))
      ∧ s.is_sub_tile_compatible (s.get_physical_type to_loc.x to_loc.y) (s.block_type blk)
          to_loc.sub_tile = true
      ∧ (s.grid_blocks to_loc = EMPTY_BLOCK_ID ∨ s.grid_blocks to_loc = INVALID_BLOCK_ID
          ∨ (s.block_locs (s.grid_blocks to_loc)).is_fixed = false) := by
  unfold is_legal_swap_to_location
  by_cases hgrid : to_loc.x < 0 ∨ to_loc.x ≥ (s.grid_width : Int) ∨ to_loc.y < 0
      ∨ to_loc.y ≥ (s.grid_height : Int)
  · rw [if_pos hgrid]
    constructor
    · intro h; cases h
    · rintro ⟨⟨⟨h1, h2⟩, h3, h4⟩, _⟩
      omega
  · rw [if_neg hgrid]
    have hg : (0 ≤ to_loc.x ∧ to_loc.x < (s.grid_width : Int))
        ∧ (0 ≤ to_loc.y ∧ to_loc.y < (s.grid_height : Int)) := by omega
    simp only []
    by_cases hsub : to_loc.sub_tile < 0
        ∨ to_loc.sub_tile ≥ s.capacity (s.get_physical_type to_loc.x to_loc.y)
        ∨ s.is_sub_tile_compatible (s.get_physical_type to_loc.x to_loc.y) (s.block_type blk)
            to_loc.sub_tile = false
    · rw [if_pos hsub]
      constructor
      · intro h; cases h
      · rintro ⟨_, ⟨h1, h2⟩, h3, _⟩
        rcases hsub with h | h | h
        · omega
        · omega
        · rw [h3] at h; cases h
    · rw [if_neg hsub]
      have hs : (0 ≤ to_loc.sub_tile
          ∧ to_loc.sub_tile < s.capacity (s.get_physical_type to_loc.x to_loc.y))
          ∧ s.is_sub_tile_compatible (s.get_physical_type to_loc.x to_loc.y) (s.block_type blk)
            to_loc.sub_tile = true := by
        refine ⟨by omega, ?_⟩
        cases hc : s.is_sub_tile_compatible (s.get_physical_type to_loc.x to_loc.y)
            (s.block_type blk) to_loc.sub_tile
        · exact absurd (Or.inr (Or.inr hc)) hsub
        · rfl
      by_cases hocc : s.grid_blocks to_loc ≠ INVALID_BLOCK_ID
          ∧ s.grid_blocks to_loc ≠ EMPTY_BLOCK_ID
      · rw [if_pos hocc]
        cases hf : (s.block_locs (s.grid_blocks to_loc)).is_fixed
        · simp only [Bool.false_eq_true, if_false, true_iff]
          exact ⟨hg, hs.1, hs.2, Or.inr (Or.inr trivial)⟩
        · simp only [if_true, Bool.false_eq_true, false_iff]
          rintro ⟨_, _, _, h | h | h⟩
          · exact hocc.2 h
          · exact hocc.1 h
          · cases h
      · rw [if_neg hocc]
        simp only [true_iff]
        refine ⟨hg, hs.1, hs.2, ?_⟩
        by_cases hE : s.grid_blocks to_loc = EMPTY_BLOCK_ID
        · exact Or.inl hE
        · by_cases hI : s.grid_blocks to_loc = INVALID_BLOCK_ID
          · exact Or.inr (Or.inl hI)
          · exact absurd ⟨hI, hE⟩ hocc

/-! ## record_single_block_swap -/

/-- C1: on a state whose grid agrees with the block locations, from the empty
record, swapping a non-fixed block A into an empty site is VALID with the one
entry (A, loc A, to); swapping it into a site occupied by a non-fixed block B
that may legally go to loc A is VALID with the two entries (A, loc A, to) and
(B, to, loc A), in that order. -/
theorem record_single_block_swap_entries (s : PlacementState) (hgrid : GridAgrees s)
    (A : ClusterBlockId) (to_loc : t_pl_loc) (hA : (s.block_locs A).is_fixed = false) :
    (s.grid_blocks to_loc = EMPTY_BLOCK_ID →
      record_single_block_swap s MoveCtx.empty A to_loc
        = (e_block_move_result.VALID, ⟨[⟨A, (s.block_locs A).loc, to_loc⟩], []⟩))
    ∧ (∀ B : ClusterBlockId, s.grid_blocks to_loc = B → B ≠ EMPTY_BLOCK_ID →
        B ≠ INVALID_BLOCK_ID → (s.block_locs B).is_fixed = false →
        is_legal_swap_to_location s B (s.block_locs A).loc = true →
        record_single_block_swap s MoveCtx.empty A to_loc
          = (e_block_move_result.VALID,
              ⟨[⟨A, (s.block_locs A).loc, to_loc⟩, ⟨B, to_loc, (s.block_locs A).loc⟩], []⟩)) := by
  constructor
  · intro hE
    simp [record_single_block_swap, hA, hE, record_block_move, MoveCtx.empty]
  · intro B hB hBE hBI hBf hleg
    have hloc : (s.block_locs B).loc = to_loc := by
      have := hgrid to_loc (by rw [hB]; exact hBE) (by rw [hB]; exact hBI)
      rwa [hB] at this
    simp [record_single_block_swap, hA, hB, hBE, hBI, hBf, hleg, record_block_move,
      MoveCtx.empty, hloc]

/-- C3: `record_single_block_swap` returns ABORT and leaves the state (record
and log) as it was when the mover is fixed, or when the destination holds a
real block that is fixed or may not legally go to the location of the mover. -/
theorem record_single_block_swap_abort (s : PlacementState) (st : MoveCtx)
    (b_from : ClusterBlockId) (to_loc : t_pl_loc)
    (h : (s.block_locs b_from).is_fixed = true
      ∨ ((s.grid_blocks to_loc ≠ EMPTY_BLOCK_ID ∧ s.grid_blocks to_loc ≠ INVALID_BLOCK_ID)
          ∧ ((s.block_locs (s.grid_blocks to_loc)).is_fixed = true
              ∨ is_legal_swap_to_location s (s.grid_blocks to_loc) (s.block_locs b_from).loc
                  = false))) :
    record_single_block_swap s st b_from to_loc = (e_block_move_result.ABORT, st) := by
  unfold record_single_block_swap
  cases hf : (s.block_locs b_from).is_fixed
  · rcases h with h | ⟨⟨hE, hI⟩, hbad⟩
    · rw [hf] at h; cases h
    · simp only [Bool.false_eq_true, if_false, if_neg hE, if_pos hI]
      rw [if_pos ⟨⟨hE, hI⟩, hbad.symm⟩]
  · simp

/-- Witness of C1 on `s_single`: block 0 into the empty site x = 3, and block 0
onto block 1. -/
theorem record_single_block_swap_entries_witness :
    record_single_block_swap s_single MoveCtx.empty 0 ⟨3, 0, 0⟩
        = (e_block_move_result.VALID, ⟨[⟨0, ⟨0, 0, 0⟩, ⟨3, 0, 0⟩⟩], []⟩)
    ∧ record_single_block_swap s_single MoveCtx.empty 0 ⟨1, 0, 0⟩
        = (e_block_move_result.VALID,
            ⟨[⟨0, ⟨0, 0, 0⟩, ⟨1, 0, 0⟩⟩, ⟨1, ⟨1, 0, 0⟩, ⟨0, 0, 0⟩⟩], []⟩) :=
  ⟨(record_single_block_swap_entries s_single (mk_state_grid_agrees _ _ _ _ _) 0 ⟨3, 0, 0⟩
      (by decide)).1 (by decide),
    (record_single_block_swap_entries s_single (mk_state_grid_agrees _ _ _ _ _) 0 ⟨1, 0, 0⟩
      (by decide)).2 1 (by decide) (by decide) (by decide) (by decide) (by decide)⟩

/-- Witness of C3 on `s_single`: the fixed block 2 as mover, and block 0 moved
onto the fixed block 2. -/
theorem record_single_block_swap_abort_witness :
    record_single_block_swap s_single MoveCtx.empty 2 ⟨3, 0, 0⟩
        = (e_block_move_result.ABORT, MoveCtx.empty)
    ∧ record_single_block_swap s_single MoveCtx.empty 0 ⟨2, 0, 0⟩
        = (e_block_move_result.ABORT, MoveCtx.empty) :=
  ⟨record_single_block_swap_abort s_single MoveCtx.empty 2 ⟨3, 0, 0⟩ (Or.inl (by decide)),
    record_single_block_swap_abort s_single MoveCtx.empty 0 ⟨2, 0, 0⟩
      (Or.inr ⟨⟨by decide, by decide⟩, Or.inl (by decide)⟩)⟩

/-! ## record_macro_macro_swaps: shapes -/

theorem record_block_move_fst (s : PlacementState) (st : MoveCtx) (blk : ClusterBlockId)
    (to_loc : t_pl_loc) : (record_block_move s st blk to_loc).1 = e_block_move_result.VALID := rfl

theorem record_single_block_swap_valid_or_abort (s : PlacementState) (st : MoveCtx)
    (b_from : ClusterBlockId) (to_loc : t_pl_loc) :
    (record_single_block_swap s st b_from to_loc).1 = e_block_move_result.VALID
      ∨ (record_single_block_swap s st b_from to_loc).1 = e_block_move_result.ABORT := by
  unfold record_single_block_swap
  split
  · exact Or.inr rfl
  · simp only []
    split
    · exact Or.inl rfl
    · split
      · split
        · exact Or.inr rfl
        · simp only [record_block_move_fst, ne_eq, not_true_eq_false, if_false]
          exact Or.inl trivial
      · exact Or.inl rfl

theorem member_at_some_lt {ms : List t_pl_macro_member} {i : Int} {m : t_pl_macro_member}
    (h : member_at ms i = some m) : 0 ≤ i ∧ i < (ms.length : Int) := by
  unfold member_at at h
  split at h
  · rename_i h0
    have hlt := (List.get?_eq_some.mp h).1
    exact ⟨h0, by omega⟩
  · cases h

theorem member_at_of_lt {ms : List t_pl_macro_member} {i : Int} (h0 : 0 ≤ i)
    (h : i < (ms.length : Int)) : ∃ m, member_at ms i = some m := by
  unfold member_at
  rw [if_pos h0]
  have hlt : i.toNat < ms.length := by omega
  exact ⟨ms.get ⟨i.toNat, hlt⟩, List.get?_eq_get hlt⟩

theorem lock_step_loop_mismatch (s : PlacementState) (from_members : List t_pl_macro_member)
    (fto swap_offset : t_pl_offset) :
    ∀ (ts : List t_pl_macro_member) (st : MoveCtx) (j jt : Int) (k : Nat)
      (mf mt : t_pl_macro_member), 0 ≤ j →
      member_at from_members (j + (k : Int)) = some mf → ts.get? k = some mt →
      mf.offset ≠ mt.offset.add fto →
      ∃ st1 i1, lock_step_loop s from_members fto swap_offset ts st j jt
        = LockStep.returned e_block_move_result.ABORT st1 i1 := by
  intro ts
  induction ts with
  | nil => intro st j jt k mf mt _ _ hk; simp at hk
  | cons t rest ih =>
    intro st j jt k mf mt hj hmf hmt hne
    have hlt : j < (from_members.length : Int) := by
      have := (member_at_some_lt hmf).2
      omega
    obtain ⟨fm, hfm⟩ := member_at_of_lt hj hlt
    unfold lock_step_loop
    rw [if_pos hlt, hfm]
    simp only []
    by_cases hshape : fm.offset ≠ t.offset.add fto
    · rw [if_pos hshape]
      exact ⟨_, _, rfl⟩
    · rw [if_neg hshape]
      split
      · exact ⟨_, _, rfl⟩
      · split
        · exact ⟨_, _, rfl⟩
        · split
          · rename_i hr
            rcases record_single_block_swap_valid_or_abort s st fm.blk_index
                ((s.block_locs fm.blk_index).loc.add swap_offset) with h | h
            · exact absurd h hr
            · rw [h]
              exact ⟨_, _, rfl⟩
          · cases k with
            | zero =>
              simp only [List.get?_cons_zero, Option.some.injEq] at hmt
              simp only [Nat.cast_zero, add_zero] at hmf
              rw [hfm] at hmf
              simp only [Option.some.injEq] at hmf
              subst hmt hmf
              exact absurd hne hshape
            | succ k1 =>
              simp only [List.get?_cons_succ] at hmt
              have hmf1 : member_at from_members (j + 1 + (k1 : Int)) = some mf := by
                have : j + 1 + (k1 : Int) = j + ((k1 + 1 : Nat) : Int) := by push_cast; ring
                rw [this]; exact hmf
              exact ih _ (j + 1) (jt + 1) k1 mf mt (by omega) hmf1 hmt hne

/-- C6: in `record_macro_macro_swaps` called with `blk_to` the first member of
the to macro, if for some `k` inside both member lists the offset of from
member `imember_from + k` differs from the offset of to member `k` plus the
offset of from member `imember_from`, the call returns ABORT. -/
theorem record_macro_macro_swaps_shape_mismatch (s : PlacementState) (fuel : Nat) (st : MoveCtx)
    (imacro_from imember_from imacro_to : Int) (blk_to : ClusterBlockId)
    (swap_offset : t_pl_offset) (k : Nat) (first_to mi mf mt : t_pl_macro_member)
    (hfirst : member_at (macro_members s imacro_to) 0 = some first_to)
    (hblk : first_to.blk_index = blk_to)
    (hi : member_at (macro_members s imacro_from) imember_from = some mi)
    (hmf : member_at (macro_members s imacro_from) (imember_from + (k : Int)) = some mf)
    (hmt : member_at (macro_members s imacro_to) (k : Int) = some mt)
    (hne : mf.offset ≠ mt.offset.add mi.offset) :
    ∃ st1 i1, record_macro_macro_swaps s (fuel + 1) st imacro_from imember_from imacro_to blk_to
        swap_offset = Except.ok (e_block_move_result.ABORT, st1, i1) := by
  have hmt1 : (macro_members s imacro_to).get? k = some mt := by
    unfold member_at at hmt
    simpa using hmt
  obtain ⟨st1, i1, hloop⟩ := lock_step_loop_mismatch s (macro_members s imacro_from) mi.offset
    swap_offset (macro_members s imacro_to) st imember_from 0 k mf mt
    (member_at_some_lt hi).1 hmf hmt1 hne
  refine ⟨st1, i1, ?_⟩
  rw [record_macro_macro_swaps, hfirst]
  simp only [hblk, ne_eq, not_true_eq_false, if_false, hi, hloop]

/-- Witness of C6 on `s_shapes`: moving macro 0 onto macro 1, the second members
disagree. -/
theorem record_macro_macro_swaps_shape_mismatch_witness :
    ∃ st1 i1, record_macro_macro_swaps s_shapes 1 MoveCtx.empty 0 0 1 2 ⟨1, 0, 0⟩
      = Except.ok (e_block_move_result.ABORT, st1, i1) :=
  record_macro_macro_swaps_shape_mismatch s_shapes 0 MoveCtx.empty 0 0 1 2 ⟨1, 0, 0⟩ 1
    ⟨2, ⟨0, 0, 0⟩⟩ ⟨0, ⟨0, 0, 0⟩⟩ ⟨1, ⟨0, 1, 0⟩⟩ ⟨3, ⟨0, 2, 0⟩⟩
    (by decide) (by decide) (by decide) (by decide) (by decide) (by decide)

/-! ## create_move -/

theorem classify_outcome_snd (r : e_block_move_result × MoveCtx) :
    (classify_outcome r).2 = r.2 := by
  unfold classify_outcome
  split <;> rfl

theorem classify_outcome_valid_iff (r : e_block_move_result × MoveCtx) :
    (classify_outcome r).1 = e_create_move.VALID
      ↔ (r.1 = e_block_move_result.VALID ∨ r.1 = e_block_move_result.INVERT_VALID) := by
  unfold classify_outcome
  split
  · rename_i h; simp [h]
  · rename_i h; simp [h]

/-- C9: `create_move` (its body `create_move_with`, for any behaviour `fab` of
the callee `find_affected_blocks`) invokes the callee at most twice, and when
the first call and the retry on the occupant of `to` both return INVERT the
result is ABORT. -/
theorem create_move_no_double_invert
    (fab : MoveCtx → ClusterBlockId → t_pl_loc → Except Fault (e_block_move_result × MoveCtx))
    (s : PlacementState) (st : MoveCtx) (b_from : ClusterBlockId) (to_loc : t_pl_loc) :
    (create_move_with fab s st b_from to_loc).2 ≤ 2
    ∧ (∀ st1 st2 : MoveCtx,
        fab st b_from to_loc = Except.ok (e_block_move_result.INVERT, st1) →
        fab st1 (s.grid_blocks to_loc) (s.block_locs b_from).loc
          = Except.ok (e_block_move_result.INVERT, st2) →
        ∃ st3, (create_move_with fab s st b_from to_loc).1
          = Except.ok (e_create_move.ABORT, st3)) := by
  constructor
  · unfold create_move_with
    cases h1 : fab st b_from to_loc with
    | error e => simp
    | ok r =>
      obtain ⟨outcome, st1⟩ := r
      simp only []
      by_cases ho : outcome = e_block_move_result.INVERT
      · simp only [ho, if_true]
        by_cases hb : (s.grid_blocks to_loc).toBool = false
        · simp [hb]
        · simp only [hb, if_false]
          cases h2 : fab st1 (s.grid_blocks to_loc) (s.block_locs b_from).loc with
          | error e => simp
          | ok r2 =>
            obtain ⟨o2, st2⟩ := r2
            by_cases h3 : o2 = e_block_move_result.INVERT <;> simp [h3]
      · simp [ho]
  · intro st1 st2 h1 h2
    unfold create_move_with
    rw [h1]
    simp only [if_true]
    split
    · exact ⟨_, rfl⟩
    · simp only [h2, if_true]
      exact ⟨_, rfl⟩

/-- Witness of C9: with a callee that always returns INVERT, the move of block 0
of `s_single` onto block 1 is aborted after two invocations. -/
theorem create_move_no_double_invert_witness :
    (create_move_with fab_always_invert s_single MoveCtx.empty 0 ⟨1, 0, 0⟩).2 ≤ 2
    ∧ ∃ st3, (create_move_with fab_always_invert s_single MoveCtx.empty 0 ⟨1, 0, 0⟩).1
        = Except.ok (e_create_move.ABORT, st3) :=
  ⟨(create_move_no_double_invert fab_always_invert s_single MoveCtx.empty 0 ⟨1, 0, 0⟩).1,
    (create_move_no_double_invert fab_always_invert s_single MoveCtx.empty 0 ⟨1, 0, 0⟩).2
      MoveCtx.empty MoveCtx.empty rfl rfl⟩

theorem find_imacro_ge (blk : ClusterBlockId) :
    ∀ (macros : List t_pl_macro) (i : Int), find_imacro blk macros i = -1
      ∨ i ≤ find_imacro blk macros i := by
  intro macros
  induction macros with
  | nil => intro i; exact Or.inl rfl
  | cons m ms ih =>
    intro i
    unfold find_imacro
    split
    · exact Or.inr (le_refl _)
    · rcases ih (i + 1) with h | h
      · exact Or.inl h
      · exact Or.inr (by omega)

theorem get_imacro_from_iblk_nonneg {blk : ClusterBlockId} {macros : List t_pl_macro}
    (h : get_imacro_from_iblk blk macros ≠ -1) : 0 ≤ blk := by
  unfold get_imacro_from_iblk at h
  split at h
  · assumption
  · exact absurd rfl h

/-- C10: when `b_from` is in no macro and the occupant `b_to` of `to` is in a
macro, `find_affected_blocks b_from to` returns INVERT and leaves the state
untouched, and `create_move b_from to` follows the reversed call
`find_affected_blocks b_to (loc b_from)`: it faults when that call faults, and
otherwise it returns VALID exactly when that call returns VALID or
INVERT_VALID, with the proposal record of that call. -/
theorem create_move_invert_retry (s : PlacementState) (fuel : Nat) (st : MoveCtx)
    (b_from : ClusterBlockId) (to_loc : t_pl_loc)
    (hfrom : get_imacro_from_iblk b_from s.pl_macros = -1)
    (hto : get_imacro_from_iblk (s.grid_blocks to_loc) s.pl_macros ≠ -1) :
    find_affected_blocks s fuel st b_from to_loc = Except.ok (e_block_move_result.INVERT, st)
    ∧ (∀ e, find_affected_blocks s fuel st (s.grid_blocks to_loc) (s.block_locs b_from).loc
          = Except.error e → create_move s fuel st b_from to_loc = Except.error e)
    ∧ (∀ o2 st2, find_affected_blocks s fuel st (s.grid_blocks to_loc) (s.block_locs b_from).loc
          = Except.ok (o2, st2) →
        ∃ r st3, create_move s fuel st b_from to_loc = Except.ok (r, st3)
          ∧ st3.moved_blocks = st2.moved_blocks
          ∧ (r = e_create_move.VALID
              ↔ (o2 = e_block_move_result.VALID ∨ o2 = e_block_move_result.INVERT_VALID))) := by
  have h1 : find_affected_blocks s fuel st b_from to_loc
      = Except.ok (e_block_move_result.INVERT, st) := by
    unfold find_affected_blocks
    simp only [hfrom, ne_eq, not_true_eq_false, if_false, hto, not_false_eq_true, if_true]
  have hb : (s.grid_blocks to_loc).toBool = true := by
    have := get_imacro_from_iblk_nonneg hto
    have hne : s.grid_blocks to_loc ≠ EMPTY_BLOCK_ID := by
      intro heq
      rw [heq] at this
      exact absurd this (by decide)
    simp only [ClusterBlockId.toBool, ne_eq, hne, not_false_eq_true, decide_True]
  refine ⟨h1, ?_, ?_⟩
  · intro e he
    unfold create_move create_move_with
    rw [h1]
    simp only [if_true, hb, Bool.true_eq_false, if_false, he]
  · intro o2 st2 h2
    unfold create_move create_move_with
    rw [h1]
    simp only [if_true, hb, Bool.true_eq_false, if_false, h2]
    by_cases ho : o2 = e_block_move_result.INVERT
    · refine ⟨e_create_move.ABORT, log_move_abort st2 "inverted move recurrsion", ?_, rfl, ?_⟩
      · rw [if_pos ho]; rfl
      · subst ho; simp
    · rw [if_neg ho]
      refine ⟨(classify_outcome (o2, st2)).1, (classify_outcome (o2, st2)).2, rfl, ?_, ?_⟩
      · rw [classify_outcome_snd]
      · exact classify_outcome_valid_iff (o2, st2)

/-- Witness of C10 on `s_invert`: block 0 moved onto the first member of the
macro; the reversed call moves the macro one column to the left. -/
theorem create_move_invert_retry_witness :
    find_affected_blocks s_invert 5 MoveCtx.empty 0 ⟨1, 0, 0⟩
      = Except.ok (e_block_move_result.INVERT, MoveCtx.empty)
    ∧ ∃ r st3, create_move s_invert 5 MoveCtx.empty 0 ⟨1, 0, 0⟩ = Except.ok (r, st3)
        ∧ st3.moved_blocks
            = [⟨1, ⟨1, 0, 0⟩, ⟨0, 0, 0⟩⟩, ⟨0, ⟨0, 0, 0⟩, ⟨1, 0, 0⟩⟩, ⟨2, ⟨1, 1, 0⟩, ⟨0, 1, 0⟩⟩]
        ∧ (r = e_create_move.VALID
            ↔ (e_block_move_result.VALID = e_block_move_result.VALID
                ∨ e_block_move_result.VALID = e_block_move_result.INVERT_VALID)) :=
  ⟨(create_move_invert_retry s_invert 5 MoveCtx.empty 0 ⟨1, 0, 0⟩ (by decide) (by decide)).1,
    (create_move_invert_retry s_invert 5 MoveCtx.empty 0 ⟨1, 0, 0⟩ (by decide) (by decide)).2.2
      e_block_move_result.VALID
      ⟨[⟨1, ⟨1, 0, 0⟩, ⟨0, 0, 0⟩⟩, ⟨0, ⟨0, 0, 0⟩, ⟨1, 0, 0⟩⟩, ⟨2, ⟨1, 1, 0⟩, ⟨0, 1, 0⟩⟩], []⟩
      rfl⟩

/-! ## Two defects of the macro paths -/

/-- C2 (evaluation at the failing input): on `s_stacked`, `create_move` of block
0 (first member of macro 0, at y = 2) to y = 3 returns VALID, but the record
moves block 0 to y = 1: the inversion onto macro 1 ended in a self-swap, which
moved both macros by the negated offset. No entry of block 0 has the requested
offset. -/
theorem create_move_inverted_self_swap_negates_offset :
    get_imacro_from_iblk 0 s_stacked.pl_macros = 0
    ∧ create_move s_stacked 9 MoveCtx.empty 0 ⟨0, 3, 0⟩
        = Except.ok (e_create_move.VALID,
            ⟨[⟨2, ⟨0, 4, 0⟩, ⟨0, 3, 0⟩⟩, ⟨3, ⟨0, 3, 0⟩, ⟨0, 2, 0⟩⟩,
              ⟨0, ⟨0, 2, 0⟩, ⟨0, 1, 0⟩⟩, ⟨1, ⟨0, 1, 0⟩, ⟨0, 0, 0⟩⟩], []⟩)
    ∧ ¬ ∃ e ∈ [(⟨2, ⟨0, 4, 0⟩, ⟨0, 3, 0⟩⟩ : t_pl_moved_block), ⟨3, ⟨0, 3, 0⟩, ⟨0, 2, 0⟩⟩,
              ⟨0, ⟨0, 2, 0⟩, ⟨0, 1, 0⟩⟩, ⟨1, ⟨0, 1, 0⟩, ⟨0, 0, 0⟩⟩],
          e.block_num = 0
            ∧ e.new_loc.sub e.old_loc = (⟨0, 3, 0⟩ : t_pl_loc).sub (s_stacked.block_locs 0).loc :=
  ⟨by decide, rfl, by decide⟩

/-- C4 (evaluation at the failing input): on `s_fixed_head`, block 0 is fixed and
`create_move` of block 0 onto its own macro (a self-swap) returns VALID with an
entry that moves block 0. -/
theorem create_move_fixed_member_self_swap_valid :
    (s_fixed_head.block_locs 0).is_fixed = true
    ∧ create_move s_fixed_head 5 MoveCtx.empty 0 ⟨0, 1, 0⟩
        = Except.ok (e_create_move.VALID,
            ⟨[⟨0, ⟨0, 0, 0⟩, ⟨0, 1, 0⟩⟩, ⟨1, ⟨0, 1, 0⟩, ⟨0, 2, 0⟩⟩], []⟩) :=
  ⟨by decide, rfl⟩

/-! ## The location sets of determine_locations_emptied_by_move -/

theorem t_pl_loc.lt_iff (a b : t_pl_loc) :
    a.lt b = true ↔ (a.x < b.x ∨ (a.x = b.x ∧ (a.y < b.y ∨ (a.y = b.y ∧ a.sub_tile < b.sub_tile)))) := by
  simp [t_pl_loc.lt]

theorem t_pl_loc.eq_of_not_lt {a b : t_pl_loc} (h1 : ¬ a.lt b = true) (h2 : ¬ b.lt a = true) :
    a = b := by
  rw [t_pl_loc.lt_iff] at h1 h2
  cases a; cases b
  simp only [t_pl_loc.mk.injEq] at *
  omega

theorem t_pl_loc.lt_trans {a b c : t_pl_loc} (h1 : a.lt b = true) (h2 : b.lt c = true) :
    a.lt c = true := by
  rw [t_pl_loc.lt_iff] at *
  omega

theorem t_pl_loc.ne_of_lt {a b : t_pl_loc} (h : a.lt b = true) : a ≠ b := by
  intro he
  subst he
  rw [t_pl_loc.lt_iff] at h
  omega

theorem mem_set_emplace (l x : t_pl_loc) : ∀ xs : List t_pl_loc,
    x ∈ set_emplace l xs ↔ x = l ∨ x ∈ xs := by
  intro xs
  induction xs with
  | nil => simp [set_emplace]
  | cons h t ih =>
    unfold set_emplace
    split
    · simp
    · split
      · simp only [List.mem_cons, ih]
        tauto
      · rename_i h1 h2
        have : l = h := t_pl_loc.eq_of_not_lt h1 h2
        subst this
        simp

/-- Strictly increasing list: the representation of a `std::set<t_pl_loc>`. -/
theorem set_emplace_sorted (l : t_pl_loc) : ∀ xs : List t_pl_loc,
    xs.Pairwise (fun a b => a.lt b = true) →
    (set_emplace l xs).Pairwise (fun a b => a.lt b = true) := by
  intro xs
  induction xs with
  | nil => intro _; simp [set_emplace]
  | cons h t ih =>
    intro hs
    rw [List.pairwise_cons] at hs
    unfold set_emplace
    split
    · rename_i hlt
      refine List.Pairwise.cons ?_ (List.Pairwise.cons hs.1 hs.2)
      intro y hy
      rcases List.mem_cons.mp hy with rfl | hy
      · exact hlt
      · exact t_pl_loc.lt_trans hlt (hs.1 y hy)
    · split
      · rename_i _ hlt
        refine List.Pairwise.cons ?_ (ih hs.2)
        intro y hy
        rcases (mem_set_emplace l y t).mp hy with rfl | hy
        · exact hlt
        · exact hs.1 y hy
      · exact List.Pairwise.cons hs.1 hs.2

theorem sorted_nodup {xs : List t_pl_loc} (h : xs.Pairwise (fun a b => a.lt b = true)) :
    xs.Nodup :=
  h.imp (fun hab => t_pl_loc.ne_of_lt hab)

theorem foldl_set_emplace_spec (f : t_pl_moved_block → t_pl_loc) :
    ∀ (mb : List t_pl_moved_block) (acc : List t_pl_loc),
      acc.Pairwise (fun a b => a.lt b = true) →
      (mb.foldl (fun acc e => set_emplace (f e) acc) acc).Pairwise (fun a b => a.lt b = true)
      ∧ ∀ x, x ∈ mb.foldl (fun acc e => set_emplace (f e) acc) acc ↔ (x ∈ acc ∨ x ∈ mb.map f) := by
  intro mb
  induction mb with
  | nil => intro acc h; simp [h]
  | cons e rest ih =>
    intro acc h
    simp only [List.foldl_cons]
    obtain ⟨h1, h2⟩ := ih (set_emplace (f e) acc) (set_emplace_sorted _ _ h)
    refine ⟨h1, fun x => ?_⟩
    rw [h2, mem_set_emplace]
    simp only [List.map_cons, List.mem_cons]
    tauto

theorem mem_moved_from_set (mb : List t_pl_moved_block) (x : t_pl_loc) :
    x ∈ moved_from_set mb ↔ x ∈ mb.map (fun e => e.old_loc) := by
  have := (foldl_set_emplace_spec (fun e => e.old_loc) mb [] List.Pairwise.nil).2 x
  simpa [moved_from_set] using this

theorem mem_moved_to_set (mb : List t_pl_moved_block) (x : t_pl_loc) :
    x ∈ moved_to_set mb ↔ x ∈ mb.map (fun e => e.new_loc) := by
  have := (foldl_set_emplace_spec (fun e => e.new_loc) mb [] List.Pairwise.nil).2 x
  simpa [moved_to_set] using this

theorem moved_from_set_nodup (mb : List t_pl_moved_block) : (moved_from_set mb).Nodup :=
  sorted_nodup (foldl_set_emplace_spec (fun e => e.old_loc) mb [] List.Pairwise.nil).1

theorem mem_determine_locations_emptied_by_move (st : MoveCtx) (x : t_pl_loc) :
    x ∈ determine_locations_emptied_by_move st
      ↔ (x ∈ st.moved_blocks.map (fun e => e.old_loc)
          ∧ x ∉ st.moved_blocks.map (fun e => e.new_loc)) := by
  unfold determine_locations_emptied_by_move set_difference
  rw [List.mem_filter, mem_moved_from_set]
  simp [mem_moved_to_set]

theorem determine_locations_emptied_by_move_nodup (st : MoveCtx) :
    (determine_locations_emptied_by_move st).Nodup :=
  (moved_from_set_nodup st.moved_blocks).sublist (List.filter_sublist _)

/-! ## record_macro_move and the loop over the affected macros -/

theorem record_macro_move_loop_valid (s : PlacementState) (a : Int) (swap_offset : t_pl_offset) :
    ∀ (ms : List t_pl_macro_member) (st : MoveCtx) (disp : List ClusterBlockId),
      (record_macro_move_loop s a swap_offset ms st disp).1 = e_block_move_result.VALID →
      (record_macro_move_loop s a swap_offset ms st disp).2.1
          = ⟨st.moved_blocks ++ ms.map (member_entry s swap_offset), st.f_move_abort_reasons⟩
      ∧ (record_macro_move_loop s a swap_offset ms st disp).2.2
          = disp ++ (ms.map (dest_occupant s swap_offset)).filter
              (fun b => b.toBool && decide (get_imacro_from_iblk b s.pl_macros ≠ a)) := by
  intro ms
  induction ms with
  | nil => intro st disp _; simp [record_macro_move_loop]
  | cons m rest ih =>
    intro st disp hv
    unfold record_macro_move_loop at hv ⊢
    by_cases hleg : is_legal_swap_to_location s m.blk_index
        ((s.block_locs m.blk_index).loc.add swap_offset) = false
    · simp only [hleg, if_true] at hv
      cases hv
    · dsimp only at hv ⊢
      rw [if_neg hleg] at hv ⊢
      obtain ⟨h1, h2⟩ := ih _ _ hv
      rw [h1, h2]
      constructor
      · simp [record_block_move, member_entry]
      · simp only [List.map_cons, List.filter_cons, dest_occupant]
        split <;> simp

theorem move_affected_macros_valid (s : PlacementState) (swap_offset : t_pl_offset) :
    ∀ (A : List Int) (st : MoveCtx) (disp : List ClusterBlockId),
      (move_affected_macros s swap_offset A st disp).1 = e_block_move_result.VALID →
      (move_affected_macros s swap_offset A st disp).2.1
          = ⟨st.moved_blocks ++ (affected_members s A).map (member_entry s swap_offset),
              st.f_move_abort_reasons⟩
      ∧ (move_affected_macros s swap_offset A st disp).2.2
          = disp ++ A.flatMap (fun a => ((macro_members s a).map (dest_occupant s swap_offset)).filter
              (fun b => b.toBool && decide (get_imacro_from_iblk b s.pl_macros ≠ a))) := by
  intro A
  induction A with
  | nil => intro st disp _; simp [move_affected_macros, affected_members]
  | cons a rest ih =>
    intro st disp hv
    unfold move_affected_macros at hv ⊢
    by_cases hr : (record_macro_move s st disp a swap_offset).1 = e_block_move_result.VALID
    · simp only [hr, ne_eq, not_true_eq_false, if_false] at hv ⊢
      obtain ⟨h1, h2⟩ := ih _ _ hv
      obtain ⟨g1, g2⟩ := record_macro_move_loop_valid s a swap_offset (macro_members s a) st disp hr
      unfold record_macro_move at h1 h2 ⊢
      rw [h1, h2, g1, g2]
      simp [affected_members]
    · simp only [ne_eq, hr, not_false_eq_true, if_true] at hv

theorem filter_non_macro_displaced (s : PlacementState) (swap_offset : t_pl_offset)
    (A : List Int) : ∀ A0 : List Int, (∀ a ∈ A0, a ∈ A) →
    (A0.flatMap (fun a => ((macro_members s a).map (dest_occupant s swap_offset)).filter
        (fun b => b.toBool && decide (get_imacro_from_iblk b s.pl_macros ≠ a)))).filter
        (is_non_macro_block s A)
      = ((affected_members s A0).map (dest_occupant s swap_offset)).filter
          (fun b => b.toBool && is_non_macro_block s A b) := by
  intro A0
  induction A0 with
  | nil => intro _; simp [affected_members]
  | cons a rest ih =>
    intro hsub
    have ha : a ∈ A := hsub a (List.mem_cons_self _ _)
    have hrest : ∀ x ∈ rest, x ∈ A := fun x hx => hsub x (List.mem_cons_of_mem _ hx)
    have ih1 := ih hrest
    simp only [affected_members, List.flatMap_cons, List.filter_append, List.map_append] at ih1 ⊢
    rw [ih1, List.filter_filter]
    congr 1
    apply List.filter_congr
    intro b _
    unfold is_non_macro_block
    by_cases hb : get_imacro_from_iblk b s.pl_macros ∈ A
    · simp [hb]
    · have hne : get_imacro_from_iblk b s.pl_macros ≠ a := fun h => hb (h ▸ ha)
      simp [hb, hne]

/-! ## Consequences of consistency -/

theorem macro_members_mem {s : PlacementState} {a : Int} {m : t_pl_macro_member}
    (h : m ∈ macro_members s a) :
    ∃ mac, (a.toNat, mac) ∈ s.pl_macros.enum ∧ mac ∈ s.pl_macros ∧ m ∈ mac.members
      ∧ ((a.toNat : Nat) : Int) = a := by
  unfold macro_members at h
  split at h
  · rename_i h0
    cases hg : s.pl_macros.get? a.toNat with
    | none =>
      have : s.pl_macros.getD a.toNat ⟨[]⟩ = ⟨[]⟩ := by
        rw [List.getD_eq_getElem?_getD, ← List.get?_eq_getElem?, hg]; rfl
      rw [this] at h
      cases h
    | some mac =>
      have : s.pl_macros.getD a.toNat ⟨[]⟩ = mac := by
        rw [List.getD_eq_getElem?_getD, ← List.get?_eq_getElem?, hg]; rfl
      rw [this] at h
      refine ⟨mac, List.mk_mem_enum_iff_getElem?.mpr (by rw [← List.get?_eq_getElem?]; exact hg),
        List.mem_iff_get?.mpr ⟨_, hg⟩, h, ?_⟩
      exact Int.toNat_of_nonneg h0
  · cases h

theorem member_lookup {s : PlacementState} (hc : Consistent s) {a : Int} {m : t_pl_macro_member}
    (h : m ∈ macro_members s a) : get_imacro_from_iblk m.blk_index s.pl_macros = a := by
  obtain ⟨mac, he, _, hm, ha⟩ := macro_members_mem h
  rw [hc.lookup_agrees _ he m hm]
  exact ha

theorem member_home {s : PlacementState} (hc : Consistent s) {a : Int} {m : t_pl_macro_member}
    (h : m ∈ macro_members s a) :
    s.grid_blocks (s.block_locs m.blk_index).loc = m.blk_index := by
  obtain ⟨mac, _, hmac, hm, _⟩ := macro_members_mem h
  exact hc.members_placed mac hmac m hm

theorem macro_members_blk_nodup {s : PlacementState} (hc : Consistent s) (a : Int) :
    ((macro_members s a).map (fun m => m.blk_index)).Nodup := by
  unfold macro_members
  split
  · cases hg : s.pl_macros.get? a.toNat with
    | none =>
      have : s.pl_macros.getD a.toNat ⟨[]⟩ = ⟨[]⟩ := by
        rw [List.getD_eq_getElem?_getD, ← List.get?_eq_getElem?, hg]; rfl
      rw [this]
      exact List.nodup_nil
    | some mac =>
      have : s.pl_macros.getD a.toNat ⟨[]⟩ = mac := by
        rw [List.getD_eq_getElem?_getD, ← List.get?_eq_getElem?, hg]; rfl
      rw [this]
      exact hc.members_nodup mac (List.mem_iff_get?.mpr ⟨_, hg⟩)
  · exact List.nodup_nil

theorem mem_affected_members {s : PlacementState} {A : List Int} {m : t_pl_macro_member} :
    m ∈ affected_members s A ↔ ∃ a ∈ A, m ∈ macro_members s a := by
  unfold affected_members
  exact List.mem_flatMap

theorem affected_member_lookup {s : PlacementState} (hc : Consistent s) {A : List Int}
    {m : t_pl_macro_member} (h : m ∈ affected_members s A) :
    get_imacro_from_iblk m.blk_index s.pl_macros ∈ A := by
  obtain ⟨a, ha, hm⟩ := mem_affected_members.mp h
  rw [member_lookup hc hm]
  exact ha

theorem affected_member_home {s : PlacementState} (hc : Consistent s) {A : List Int}
    {m : t_pl_macro_member} (h : m ∈ affected_members s A) :
    s.grid_blocks (s.block_locs m.blk_index).loc = m.blk_index := by
  obtain ⟨a, _, hm⟩ := mem_affected_members.mp h
  exact member_home hc hm

theorem affected_blks_nodup {s : PlacementState} (hc : Consistent s) :
    ∀ A : List Int, A.Nodup → ((affected_members s A).map (fun m => m.blk_index)).Nodup := by
  intro A
  induction A with
  | nil => intro _; simp [affected_members]
  | cons a rest ih =>
    intro hnd
    rw [List.nodup_cons] at hnd
    have hsplit : affected_members s (a :: rest) = macro_members s a ++ affected_members s rest := by
      simp [affected_members]
    rw [hsplit, List.map_append]
    refine List.Nodup.append (macro_members_blk_nodup hc a) (ih hnd.2) ?_
    intro b hb1 hb2
    obtain ⟨m1, hm1, rfl⟩ := List.mem_map.mp hb1
    obtain ⟨m2, hm2, hbe⟩ := List.mem_map.mp hb2
    have h1 := member_lookup hc hm1
    have h2 := affected_member_lookup hc hm2
    have hbe1 : m2.blk_index = m1.blk_index := hbe
    rw [hbe1, h1] at h2
    exact hnd.1 h2

theorem affected_olds_nodup {s : PlacementState} (hc : Consistent s) {A : List Int}
    (hnd : A.Nodup) (swap_offset : t_pl_offset) :
    (((affected_members s A).map (member_entry s swap_offset)).map (fun e => e.old_loc)).Nodup := by
  have h := affected_blks_nodup hc A hnd
  have heq : ((affected_members s A).map (member_entry s swap_offset)).map (fun e => e.old_loc)
      = ((affected_members s A).map (fun m => m.blk_index)).map (fun b => (s.block_locs b).loc) := by
    simp [member_entry, List.map_map, Function.comp_def]
  rw [heq]
  refine List.Nodup.map_on ?_ h
  intro b1 hb1 b2 hb2 hl
  obtain ⟨m1, hm1, rfl⟩ := List.mem_map.mp hb1
  obtain ⟨m2, hm2, rfl⟩ := List.mem_map.mp hb2
  have g1 := affected_member_home hc hm1
  have g2 := affected_member_home hc hm2
  have hl1 : (s.block_locs m1.blk_index).loc = (s.block_locs m2.blk_index).loc := hl
  rw [← g1, ← g2, hl1]

theorem t_pl_loc.add_injective (o : t_pl_offset) :
    Function.Injective (fun l : t_pl_loc => l.add o) := by
  intro a b h
  cases a; cases b
  simp only [t_pl_loc.add, t_pl_loc.mk.injEq] at h ⊢
  omega

theorem affected_news_eq (s : PlacementState) (A : List Int) (swap_offset : t_pl_offset) :
    ((affected_members s A).map (member_entry s swap_offset)).map (fun e => e.new_loc)
      = (((affected_members s A).map (member_entry s swap_offset)).map (fun e => e.old_loc)).map
          (fun l => l.add swap_offset) := by
  simp [member_entry, List.map_map, Function.comp_def]

theorem affected_news_nodup {s : PlacementState} (hc : Consistent s) {A : List Int}
    (hnd : A.Nodup) (swap_offset : t_pl_offset) :
    (((affected_members s A).map (member_entry s swap_offset)).map (fun e => e.new_loc)).Nodup := by
  rw [affected_news_eq]
  exact (affected_olds_nodup hc hnd swap_offset).map (t_pl_loc.add_injective swap_offset)

/-! ## identify_macro_self_swap_affected_macros -/

theorem identify_loop_inv (s : PlacementState) (swap_offset : t_pl_offset) :
    ∀ (fuel : Nat) (st : MoveCtx) (macros : List Int) (a : Int) (i : Nat)
      (o : e_block_move_result) (st1 : MoveCtx) (macros1 : List Int),
      identify_loop s swap_offset fuel st macros a i = Except.ok (o, st1, macros1) →
      macros.Nodup → macros1.Nodup ∧ st1.moved_blocks = st.moved_blocks := by
  intro fuel
  induction fuel with
  | zero => intro st macros a i o st1 macros1 h; simp [identify_loop] at h
  | succ fuel ih =>
    intro st macros a i o st1 macros1 h hnd
    unfold identify_loop at h
    split at h
    · simp only [Except.ok.injEq, Prod.mk.injEq] at h
      obtain ⟨_, rfl, rfl⟩ := h
      exact ⟨hnd, rfl⟩
    · dsimp only at h
      split at h
      · simp only [Except.ok.injEq, Prod.mk.injEq] at h
        obtain ⟨_, rfl, rfl⟩ := h
        exact ⟨hnd, rfl⟩
      · split at h
        · rename_i hnew
          split at h
          · cases h
          · rename_i o2 st2 macros2 hrec
            have hnd2 : ∀ x : Int, x ∉ macros → (macros ++ [x]).Nodup := by
              intro x hx
              refine List.Nodup.append hnd (List.nodup_singleton _) ?_
              intro y hy1 hy2
              rw [List.mem_singleton] at hy2
              subst hy2
              exact hx hy1
            obtain ⟨k1, k2⟩ := ih _ _ _ _ _ _ _ hrec (hnd2 _ hnew.2)
            split at h
            · obtain ⟨k3, k4⟩ := ih _ _ _ _ _ _ _ h k1
              exact ⟨k3, by rw [k4, k2]⟩
            · simp only [Except.ok.injEq, Prod.mk.injEq] at h
              obtain ⟨_, rfl, rfl⟩ := h
              exact ⟨k1, k2⟩
        · exact ih _ _ _ _ _ _ _ h hnd

theorem std_unique_sublist : ∀ l : List Int, (std_unique l).Sublist l := by
  intro l
  induction l with
  | nil => exact List.Sublist.refl _
  | cons a t ih =>
    cases t with
    | nil => exact List.Sublist.refl _
    | cons b t2 =>
      unfold std_unique
      split
      · exact List.Sublist.cons _ ih
      · exact List.Sublist.cons₂ _ ih

/-! ## Vacated locations against displaced blocks -/

theorem displaced_dest_not_old {s : PlacementState} (hc : Consistent s) {A : List Int}
    (swap_offset : t_pl_offset) {m : t_pl_macro_member}
    (hP : is_non_macro_block s A (dest_occupant s swap_offset m) = true) :
    (s.block_locs m.blk_index).loc.add swap_offset
      ∉ ((affected_members s A).map (member_entry s swap_offset)).map (fun e => e.old_loc) := by
  intro hmem
  rw [List.map_map] at hmem
  obtain ⟨m2, hm2, hloc⟩ := List.mem_map.mp hmem
  have hloc1 : (s.block_locs m2.blk_index).loc = (s.block_locs m.blk_index).loc.add swap_offset :=
    hloc
  have hocc : dest_occupant s swap_offset m = m2.blk_index := by
    unfold dest_occupant
    rw [← hloc1]
    exact affected_member_home hc hm2
  have hin := affected_member_lookup hc hm2
  rw [← hocc] at hin
  unfold is_non_macro_block at hP
  rw [if_pos hin] at hP
  cases hP

theorem displaced_le_vacated {s : PlacementState} (hc : Consistent s) {A : List Int}
    (hnd : A.Nodup) (swap_offset : t_pl_offset) (log : List String) :
    (((affected_members s A).map (dest_occupant s swap_offset)).filter
        (fun b => b.toBool && is_non_macro_block s A b)).length
      ≤ (determine_locations_emptied_by_move
          ⟨(affected_members s A).map (member_entry s swap_offset), log⟩).length := by
  set M := affected_members s A with hM
  set E := M.map (member_entry s swap_offset) with hE
  set olds := E.map (fun e => e.old_loc) with holds
  set news := E.map (fun e => e.new_loc) with hnews
  have hold_nd : olds.Nodup := affected_olds_nodup hc hnd swap_offset
  have hnew_nd : news.Nodup := affected_news_nodup hc hnd swap_offset
  -- the destinations of the displaced blocks
  set K := M.filter (fun m => (dest_occupant s swap_offset m).toBool
      && is_non_macro_block s A (dest_occupant s swap_offset m)) with hK
  set L := K.map (fun m => (s.block_locs m.blk_index).loc.add swap_offset) with hL
  have hlen1 : ((M.map (dest_occupant s swap_offset)).filter
      (fun b => b.toBool && is_non_macro_block s A b)).length = L.length := by
    rw [List.filter_map, List.length_map, hL, List.length_map]
    rfl
  have hnews_eq : news = M.map (fun m => (s.block_locs m.blk_index).loc.add swap_offset) := by
    rw [hnews, hE, List.map_map]
    rfl
  have hLsub : L.Sublist news := by
    rw [hnews_eq, hL]
    exact (List.filter_sublist M).map _
  have hL_nd : L.Nodup := hnew_nd.sublist hLsub
  have hsubset : L.toFinset ⊆ news.toFinset \ olds.toFinset := by
    intro x hx
    rw [List.mem_toFinset] at hx
    rw [Finset.mem_sdiff, List.mem_toFinset, List.mem_toFinset]
    refine ⟨hLsub.subset hx, ?_⟩
    obtain ⟨m, hm, rfl⟩ := List.mem_map.mp hx
    have hp := (List.mem_filter.mp hm).2
    rw [Bool.and_eq_true] at hp
    exact displaced_dest_not_old hc swap_offset hp.2
  have hcard : (news.toFinset \ olds.toFinset).card = (olds.toFinset \ news.toFinset).card := by
    apply Finset.card_sdiff_comm
    rw [List.toFinset_card_of_nodup hnew_nd, List.toFinset_card_of_nodup hold_nd]
    simp only [hnews, holds, List.length_map]
  have hempty : (determine_locations_emptied_by_move ⟨E, log⟩).toFinset
      = olds.toFinset \ news.toFinset := by
    ext x
    rw [List.mem_toFinset, mem_determine_locations_emptied_by_move, Finset.mem_sdiff,
      List.mem_toFinset, List.mem_toFinset]
  rw [hlen1, ← List.toFinset_card_of_nodup hL_nd,
    ← List.toFinset_card_of_nodup (determine_locations_emptied_by_move_nodup ⟨E, log⟩), hempty,
    ← hcard]
  exact Finset.card_le_card hsubset

/-! ## record_macro_self_swaps -/

theorem reseat_displaced_ok (s : PlacementState) :
    ∀ (nm : List ClusterBlockId) (locs : List t_pl_loc) (o : e_block_move_result) (st : MoveCtx),
      nm.length ≤ locs.length →
      ∃ o1, reseat_displaced s nm locs (o, st)
          = Except.ok (o1, ⟨st.moved_blocks
              ++ List.zipWith (fun b l => (⟨b, (s.block_locs b).loc, l⟩ : t_pl_moved_block)) nm locs,
              st.f_move_abort_reasons⟩)
        ∧ (o = e_block_move_result.VALID → o1 = e_block_move_result.VALID) := by
  intro nm
  induction nm with
  | nil => intro locs o st _; exact ⟨o, by simp [reseat_displaced], id⟩
  | cons b rest ih =>
    intro locs o st hlen
    cases locs with
    | nil => simp at hlen
    | cons l locs1 =>
      simp only [List.length_cons, Nat.add_le_add_iff_right] at hlen
      obtain ⟨o1, h1, h2⟩ := ih locs1 e_block_move_result.VALID
        (record_block_move s st b l).2 hlen
      refine ⟨o1, ?_, fun _ => h2 rfl⟩
      unfold reseat_displaced
      have hr : record_block_move s st b l
          = (e_block_move_result.VALID, (record_block_move s st b l).2) := rfl
      rw [hr, h1]
      simp [record_block_move]

theorem self_swap_after_moves {s : PlacementState} {fuel : Nat}
    {st st1 : MoveCtx} {imacro_cur : Int} {swap_offset : t_pl_offset} {macros : List Int}
    (hid : identify_macro_self_swap_affected_macros s fuel (clear_move_blocks st) [] imacro_cur
        swap_offset = Except.ok (e_block_move_result.VALID, st1, macros))
    (hmv : (move_affected_macros s swap_offset (std_unique macros) st1 []).1
        = e_block_move_result.VALID) :
    (std_unique macros).Nodup
    ∧ (move_affected_macros s swap_offset (std_unique macros) st1 []).2.1
        = ⟨(affected_members s (std_unique macros)).map (member_entry s swap_offset),
            st1.f_move_abort_reasons⟩
    ∧ (move_affected_macros s swap_offset (std_unique macros) st1 []).2.2.filter
          (is_non_macro_block s (std_unique macros))
        = ((affected_members s (std_unique macros)).map (dest_occupant s swap_offset)).filter
            (fun b => b.toBool && is_non_macro_block s (std_unique macros) b) := by
  obtain ⟨hnd0, hmb⟩ := identify_loop_inv s swap_offset fuel _ _ _ _ _ _ _ hid List.nodup_nil
  have hnd : (std_unique macros).Nodup := hnd0.sublist (std_unique_sublist macros)
  obtain ⟨h1, h2⟩ := move_affected_macros_valid s swap_offset _ _ _ hmv
  have hmb1 : st1.moved_blocks = [] := by rw [hmb]; rfl
  refine ⟨hnd, ?_, ?_⟩
  · rw [h1, hmb1, List.nil_append]
  · rw [h2, List.nil_append]
    exact filter_non_macro_displaced s swap_offset _ _ (fun a ha => ha)

/-- C8: on a consistent state, once `record_macro_self_swaps` has identified the
affected macros and moved all of them successfully, the set returned by
`determine_locations_emptied_by_move` has at least as many locations as there
are displaced blocks outside the affected macros; hence the re-seating loop
never reads the end iterator and the call returns VALID. -/
theorem record_macro_self_swaps_vacated_ge_displaced (s : PlacementState) (hc : Consistent s)
    (fuel : Nat) (st st1 : MoveCtx) (imacro_cur : Int) (swap_offset : t_pl_offset)
    (macros : List Int)
    (hid : identify_macro_self_swap_affected_macros s fuel (clear_move_blocks st) [] imacro_cur
        swap_offset = Except.ok (e_block_move_result.VALID, st1, macros))
    (hmv : (move_affected_macros s swap_offset (std_unique macros) st1 []).1
        = e_block_move_result.VALID) :
    ((move_affected_macros s swap_offset (std_unique macros) st1 []).2.2.filter
        (is_non_macro_block s (std_unique macros))).length
      ≤ (determine_locations_emptied_by_move
          (move_affected_macros s swap_offset (std_unique macros) st1 []).2.1).length
    ∧ ∃ st2, record_macro_self_swaps s fuel st imacro_cur swap_offset
        = Except.ok (e_block_move_result.VALID, st2) := by
  obtain ⟨hnd, hE, hD⟩ := self_swap_after_moves hid hmv
  have hle : ((move_affected_macros s swap_offset (std_unique macros) st1 []).2.2.filter
        (is_non_macro_block s (std_unique macros))).length
      ≤ (determine_locations_emptied_by_move
          (move_affected_macros s swap_offset (std_unique macros) st1 []).2.1).length := by
    rw [hE, hD]
    exact displaced_le_vacated hc hnd swap_offset _
  refine ⟨hle, ?_⟩
  obtain ⟨o1, h1, h2⟩ := reseat_displaced_ok s _ _
    (move_affected_macros s swap_offset (std_unique macros) st1 []).1
    (move_affected_macros s swap_offset (std_unique macros) st1 []).2.1 hle
  have key : record_macro_self_swaps s fuel st imacro_cur swap_offset
      = reseat_displaced s
          ((move_affected_macros s swap_offset (std_unique macros) st1 []).2.2.filter
            (is_non_macro_block s (std_unique macros)))
          (determine_locations_emptied_by_move
            (move_affected_macros s swap_offset (std_unique macros) st1 []).2.1)
          (e_block_move_result.VALID,
            (move_affected_macros s swap_offset (std_unique macros) st1 []).2.1) := by
    unfold record_macro_self_swaps
    simp only [hid, ne_eq, not_true_eq_false, if_false, hmv]
  rw [hmv] at h1
  rw [key, h1, h2 hmv]
  exact ⟨_, rfl⟩

theorem s_self_swap_consistent : Consistent s_self_swap where
  lookup_agrees := by decide
  members_nodup := by decide
  members_placed := by decide
  grid_agrees := mk_state_grid_agrees _ _ _ _ _

/-- Witness of C8 on `s_self_swap`: the macro moved up by one displaces block 2
and vacates the site y = 0. -/
theorem record_macro_self_swaps_vacated_ge_displaced_witness :
    ((move_affected_macros s_self_swap ⟨0, 1, 0⟩ (std_unique [0]) ⟨[], []⟩ []).2.2.filter
        (is_non_macro_block s_self_swap (std_unique [0]))).length
      ≤ (determine_locations_emptied_by_move
          (move_affected_macros s_self_swap ⟨0, 1, 0⟩ (std_unique [0]) ⟨[], []⟩ []).2.1).length
    ∧ ∃ st2, record_macro_self_swaps s_self_swap 5 MoveCtx.empty 0 ⟨0, 1, 0⟩
        = Except.ok (e_block_move_result.VALID, st2) :=
  record_macro_self_swaps_vacated_ge_displaced s_self_swap s_self_swap_consistent 5
    MoveCtx.empty ⟨[], []⟩ 0 ⟨0, 1, 0⟩ [0] rfl (by decide)

theorem reseat_entries_blocks (s : PlacementState) :
    ∀ (nm : List ClusterBlockId) (locs : List t_pl_loc), nm.length ≤ locs.length →
      (List.zipWith (fun b l => (⟨b, (s.block_locs b).loc, l⟩ : t_pl_moved_block)) nm locs).map
          (fun e => e.block_num) = nm := by
  intro nm
  induction nm with
  | nil => intro locs _; simp
  | cons b rest ih =>
    intro locs hlen
    cases locs with
    | nil => simp at hlen
    | cons l locs1 =>
      simp only [List.length_cons, Nat.add_le_add_iff_right] at hlen
      simp [ih locs1 hlen]

theorem reseat_entries_locs (s : PlacementState) :
    ∀ (nm : List ClusterBlockId) (locs : List t_pl_loc),
      ((List.zipWith (fun b l => (⟨b, (s.block_locs b).loc, l⟩ : t_pl_moved_block)) nm locs).map
          (fun e => e.new_loc)).Sublist locs := by
  intro nm
  induction nm with
  | nil => intro locs; simp
  | cons b rest ih =>
    intro locs
    cases locs with
    | nil => simp
    | cons l locs1 =>
      simp only [List.zipWith_cons_cons, List.map_cons]
      exact (ih locs1).cons₂ l

theorem self_swap_moves_valid {s : PlacementState} {fuel : Nat} {st st1 st2 : MoveCtx}
    {imacro_cur : Int} {swap_offset : t_pl_offset} {macros : List Int}
    (hid : identify_macro_self_swap_affected_macros s fuel (clear_move_blocks st) [] imacro_cur
        swap_offset = Except.ok (e_block_move_result.VALID, st1, macros))
    (hres : record_macro_self_swaps s fuel st imacro_cur swap_offset
        = Except.ok (e_block_move_result.VALID, st2)) :
    (move_affected_macros s swap_offset (std_unique macros) st1 []).1
      = e_block_move_result.VALID := by
  by_contra hne
  unfold record_macro_self_swaps at hres
  simp only [hid, ne_eq, not_true_eq_false, if_false, hne, not_false_eq_true, if_true,
    Except.ok.injEq, Prod.mk.injEq] at hres
  exact hres.1

theorem self_swap_record {s : PlacementState} (hc : Consistent s) {fuel : Nat}
    {st st1 st2 : MoveCtx} {imacro_cur : Int} {swap_offset : t_pl_offset} {macros : List Int}
    (hid : identify_macro_self_swap_affected_macros s fuel (clear_move_blocks st) [] imacro_cur
        swap_offset = Except.ok (e_block_move_result.VALID, st1, macros))
    (hres : record_macro_self_swaps s fuel st imacro_cur swap_offset
        = Except.ok (e_block_move_result.VALID, st2)) :
    ∃ (nm : List ClusterBlockId) (locs : List t_pl_loc),
      nm = ((affected_members s (std_unique macros)).map (dest_occupant s swap_offset)).filter
            (fun b => b.toBool && is_non_macro_block s (std_unique macros) b)
      ∧ locs = determine_locations_emptied_by_move
            ⟨(affected_members s (std_unique macros)).map (member_entry s swap_offset),
              st1.f_move_abort_reasons⟩
      ∧ nm.length ≤ locs.length
      ∧ st2.moved_blocks = (affected_members s (std_unique macros)).map (member_entry s swap_offset)
          ++ List.zipWith (fun b l => (⟨b, (s.block_locs b).loc, l⟩ : t_pl_moved_block)) nm locs := by
  have hmv := self_swap_moves_valid hid hres
  obtain ⟨hnd, hE, hD⟩ := self_swap_after_moves hid hmv
  have hle := displaced_le_vacated hc hnd swap_offset st1.f_move_abort_reasons
  refine ⟨_, _, rfl, rfl, hle, ?_⟩
  obtain ⟨o1, h1, _⟩ := reseat_displaced_ok s _ _ e_block_move_result.VALID
    (⟨(affected_members s (std_unique macros)).map (member_entry s swap_offset),
      st1.f_move_abort_reasons⟩ : MoveCtx) hle
  unfold record_macro_self_swaps at hres
  simp only [hid, ne_eq, not_true_eq_false, if_false, hmv, hE, hD, h1, Except.ok.injEq,
    Prod.mk.injEq] at hres
  rw [← hres.2]

theorem displaced_count_one {s : PlacementState} (hc : Consistent s) {A : List Int}
    (hnd : A.Nodup) (swap_offset : t_pl_offset) {b : ClusterBlockId}
    (hb : Displaced s A swap_offset b) :
    List.count b (((affected_members s A).map (dest_occupant s swap_offset)).filter
        (fun b => b.toBool && is_non_macro_block s A b)) = 1 := by
  obtain ⟨hE, hI, hA, m, hm, hocc⟩ := hb
  have hP : (fun b => b.toBool && is_non_macro_block s A b) b = true := by
    simp [ClusterBlockId.toBool, is_non_macro_block, hE, hA]
  rw [show List.count b (((affected_members s A).map (dest_occupant s swap_offset)).filter
        (fun b => b.toBool && is_non_macro_block s A b))
      = List.count b ((affected_members s A).map (dest_occupant s swap_offset))
    from List.count_filter hP]
  have hnews := affected_news_nodup hc hnd swap_offset
  rw [List.map_map] at hnews
  have hmap : (affected_members s A).map (dest_occupant s swap_offset)
      = ((affected_members s A).map ((fun e => e.new_loc) ∘ member_entry s swap_offset)).map
          s.grid_blocks := by
    rw [List.map_map]
    rfl
  have hlocb : (s.block_locs b).loc = (s.block_locs m.blk_index).loc.add swap_offset := by
    have := hc.grid_agrees ((s.block_locs m.blk_index).loc.add swap_offset)
      (by change dest_occupant s swap_offset m ≠ _; rw [hocc]; exact hE)
      (by change dest_occupant s swap_offset m ≠ _; rw [hocc]; exact hI)
    change (s.block_locs (dest_occupant s swap_offset m)).loc = _ at this
    rwa [hocc] at this
  have hmem : (s.block_locs b).loc
      ∈ (affected_members s A).map ((fun e => e.new_loc) ∘ member_entry s swap_offset) := by
    rw [hlocb]
    exact List.mem_map.mpr ⟨m, hm, rfl⟩
  rw [hmap, List.count_eq_countP, List.countP_map,
    ← List.count_eq_one_of_mem hnews hmem, List.count_eq_countP]
  apply List.countP_congr
  intro l _
  simp only [Function.comp_apply, beq_iff_eq]
  constructor
  · intro hg
    have := hc.grid_agrees l (by rw [hg]; exact hE) (by rw [hg]; exact hI)
    rw [hg] at this
    exact this.symm
  · intro hl
    rw [hl, hlocb]
    exact hocc

/-- C7: on a consistent state, when `record_macro_self_swaps` returns VALID,
every real block outside the affected macros that occupied the destination of a
moved member has exactly one entry in the record, the new location of that entry
is vacated by the macro moves (an old location of a moved member and the new
location of none), and two entries of displaced blocks with the same new
location are entries of the same block. -/
theorem record_macro_self_swaps_reseats_displaced (s : PlacementState) (hc : Consistent s)
    (fuel : Nat) (st st1 st2 : MoveCtx) (imacro_cur : Int) (swap_offset : t_pl_offset)
    (macros : List Int)
    (hid : identify_macro_self_swap_affected_macros s fuel (clear_move_blocks st) [] imacro_cur
        swap_offset = Except.ok (e_block_move_result.VALID, st1, macros))
    (hres : record_macro_self_swaps s fuel st imacro_cur swap_offset
        = Except.ok (e_block_move_result.VALID, st2)) :
    ∀ b, Displaced s (std_unique macros) swap_offset b →
      (st2.moved_blocks.filter (fun e => decide (e.block_num = b))).length = 1
      ∧ (∀ e ∈ st2.moved_blocks, e.block_num = b →
          e.old_loc = (s.block_locs b).loc ∧ Vacated s (std_unique macros) swap_offset e.new_loc)
      ∧ (∀ b2, Displaced s (std_unique macros) swap_offset b2 →
          ∀ e1 ∈ st2.moved_blocks, ∀ e2 ∈ st2.moved_blocks,
            e1.block_num = b → e2.block_num = b2 → e1.new_loc = e2.new_loc → b = b2) := by
  obtain ⟨nm, locs, hnm, hlocs, hle, hrec⟩ := self_swap_record hc hid hres
  obtain ⟨hnd, _, _⟩ := self_swap_after_moves hid (self_swap_moves_valid hid hres)
  -- entries of the moved members never belong to a displaced block
  have hE : ∀ b, Displaced s (std_unique macros) swap_offset b →
      ∀ e ∈ (affected_members s (std_unique macros)).map (member_entry s swap_offset),
        e.block_num ≠ b := by
    intro b hb e he heq
    obtain ⟨m, hm, rfl⟩ := List.mem_map.mp he
    have := affected_member_lookup hc hm
    have hbm : m.blk_index = b := heq
    rw [hbm] at this
    exact hb.2.2.1 this
  have hZmem : ∀ b, Displaced s (std_unique macros) swap_offset b → ∀ e ∈ st2.moved_blocks,
      e.block_num = b →
      e ∈ List.zipWith (fun b l => (⟨b, (s.block_locs b).loc, l⟩ : t_pl_moved_block)) nm locs := by
    intro b hb e he heq
    rw [hrec] at he
    rcases List.mem_append.mp he with h | h
    · exact absurd heq (hE b hb e h)
    · exact h
  have hlocs_nd : locs.Nodup := by
    rw [hlocs]
    exact determine_locations_emptied_by_move_nodup _
  have hZnd : ((List.zipWith (fun b l => (⟨b, (s.block_locs b).loc, l⟩ : t_pl_moved_block))
      nm locs).map (fun e => e.new_loc)).Nodup := hlocs_nd.sublist (reseat_entries_locs s nm locs)
  intro b hb
  refine ⟨?_, ?_, ?_⟩
  · rw [← List.countP_eq_length_filter, hrec, List.countP_append]
    have h0 : List.countP (fun e => decide (e.block_num = b))
        ((affected_members s (std_unique macros)).map (member_entry s swap_offset)) = 0 := by
      rw [List.countP_eq_zero]
      intro e he
      simpa using hE b hb e he
    have h1 : List.countP (fun e => decide (e.block_num = b))
        (List.zipWith (fun b l => (⟨b, (s.block_locs b).loc, l⟩ : t_pl_moved_block)) nm locs)
        = List.count b nm := by
      conv_rhs => rw [← reseat_entries_blocks s nm locs hle]
      rw [List.count_eq_countP, List.countP_map]
      apply List.countP_congr
      intro e _
      simp
    rw [h0, h1, hnm, Nat.zero_add]
    exact displaced_count_one hc hnd swap_offset hb
  · intro e he heq
    have hz := hZmem b hb e he heq
    constructor
    · obtain ⟨i, hi, rfl⟩ := List.mem_iff_getElem.mp hz
      simp only [List.getElem_zipWith] at heq ⊢
      rw [heq]
    · have hin : e.new_loc ∈ locs :=
        (reseat_entries_locs s nm locs).subset (List.mem_map.mpr ⟨e, hz, rfl⟩)
      rw [hlocs, mem_determine_locations_emptied_by_move] at hin
      obtain ⟨ho, hn⟩ := hin
      constructor
      · simp only [List.map_map] at ho
        obtain ⟨m, hm, hl⟩ := List.mem_map.mp ho
        exact ⟨m, hm, hl⟩
      · rintro ⟨m, hm, hl⟩
        apply hn
        simp only [List.map_map]
        exact List.mem_map.mpr ⟨m, hm, hl⟩
  · intro b2 hb2 e1 he1 e2 he2 h1 h2 hloc
    have hz1 := hZmem b hb e1 he1 h1
    have hz2 := hZmem b2 hb2 e2 he2 h2
    have := List.inj_on_of_nodup_map hZnd hz1 hz2 hloc
    rw [← h1, ← h2, this]

theorem s_self_swap_displaced : Displaced s_self_swap (std_unique [0]) ⟨0, 1, 0⟩ 2 :=
  ⟨by decide, by decide, by decide, ⟨1, ⟨0, 1, 0⟩⟩, by decide, by decide⟩

/-- Witness of C7 on `s_self_swap`: the macro moved up by one displaces block 2,
which gets the single entry (2, y = 2, y = 0). -/
theorem record_macro_self_swaps_reseats_displaced_witness :
    record_macro_self_swaps s_self_swap 5 MoveCtx.empty 0 ⟨0, 1, 0⟩
        = Except.ok (e_block_move_result.VALID,
            ⟨[⟨0, ⟨0, 0, 0⟩, ⟨0, 1, 0⟩⟩, ⟨1, ⟨0, 1, 0⟩, ⟨0, 2, 0⟩⟩, ⟨2, ⟨0, 2, 0⟩, ⟨0, 0, 0⟩⟩], []⟩)
    ∧ (([⟨0, ⟨0, 0, 0⟩, ⟨0, 1, 0⟩⟩, ⟨1, ⟨0, 1, 0⟩, ⟨0, 2, 0⟩⟩, ⟨2, ⟨0, 2, 0⟩, ⟨0, 0, 0⟩⟩] :
          List t_pl_moved_block).filter (fun e => decide (e.block_num = 2))).length = 1
    ∧ Vacated s_self_swap (std_unique [0]) ⟨0, 1, 0⟩ ⟨0, 0, 0⟩ :=
  ⟨rfl,
    (record_macro_self_swaps_reseats_displaced s_self_swap s_self_swap_consistent 5
      MoveCtx.empty ⟨[], []⟩
      ⟨[⟨0, ⟨0, 0, 0⟩, ⟨0, 1, 0⟩⟩, ⟨1, ⟨0, 1, 0⟩, ⟨0, 2, 0⟩⟩, ⟨2, ⟨0, 2, 0⟩, ⟨0, 0, 0⟩⟩], []⟩
      0 ⟨0, 1, 0⟩ [0] rfl rfl 2 s_self_swap_displaced).1,
    ((record_macro_self_swaps_reseats_displaced s_self_swap s_self_swap_consistent 5
      MoveCtx.empty ⟨[], []⟩
      ⟨[⟨0, ⟨0, 0, 0⟩, ⟨0, 1, 0⟩⟩, ⟨1, ⟨0, 1, 0⟩, ⟨0, 2, 0⟩⟩, ⟨2, ⟨0, 2, 0⟩, ⟨0, 0, 0⟩⟩], []⟩
      0 ⟨0, 1, 0⟩ [0] rfl rfl 2 s_self_swap_displaced).2.1
        ⟨2, ⟨0, 2, 0⟩, ⟨0, 0, 0⟩⟩ (by decide) rfl).2⟩

/-! ## find_compatible_compressed_loc_in_range: what a success means -/

theorem row_search_loop_legal (rng : Nat → Nat) (keys : List Int) (y_lower : Nat) (y_range : Int)
    (min_cy max_cy cx_from cy_from cx_to : Int) :
    ∀ (fuel : Nat) (tried_dy : List Int) (cy_to : Int) (n : Nat) (cy1 : Int) (n1 : Nat)
      (tried1 : List Int),
      row_search_loop rng keys y_lower y_range min_cy max_cy cx_from cy_from cx_to fuel tried_dy
        cy_to n = Except.ok (true, cy1, n1, tried1) →
      ¬ (cx_from = cx_to ∧ cy_from = cy1) ∧ min_cy ≤ cy1 ∧ cy1 ≤ max_cy := by
  intro fuel
  induction fuel with
  | zero => intro tried_dy cy_to n cy1 n1 tried1 h; simp [row_search_loop] at h
  | succ fuel ih =>
    intro tried_dy cy_to n cy1 n1 tried1 h
    unfold row_search_loop at h
    by_cases hlt : (tried_dy.length : Int) < y_range
    · rw [if_pos hlt] at h
      dsimp only at h
      by_cases hmem : irand rng n (y_range - 1) ∈ tried_dy
      · rw [if_pos hmem] at h
        exact ih _ _ _ _ _ _ h
      · rw [if_neg hmem] at h
        cases hk : keys.get? (y_lower + (irand rng n (y_range - 1)).toNat) with
        | none => simp only [hk] at h; cases h
        | some cy =>
          simp only [hk] at h
          by_cases hassert : cy < min_cy ∨ max_cy < cy
          · rw [if_pos hassert] at h; cases h
          · rw [if_neg hassert] at h
            by_cases hsame : cx_from = cx_to ∧ cy_from = cy
            · rw [if_pos hsame] at h
              exact ih _ _ _ _ _ _ h
            · rw [if_neg hsame] at h
              simp only [Except.ok.injEq, Prod.mk.injEq, true_and] at h
              obtain ⟨rfl, _, _⟩ := h
              exact ⟨hsame, by omega, by omega⟩
    · rw [if_neg hlt] at h
      simp at h

theorem column_window_no_fall_back {type_index : Int} {keys : List Int} {min_cy max_cy : Int}
    {w : Nat × Nat × Int × Int} (ht : type_index ≠ 1)
    (h : column_window type_index keys min_cy max_cy = some w) :
    w = (lower_bound keys min_cy, upper_bound keys max_cy, min_cy, max_cy) := by
  unfold column_window at h
  dsimp only at h
  by_cases h1 : lower_bound keys min_cy = keys.length
  · rw [if_pos h1] at h; cases h
  · rw [if_neg h1] at h
    by_cases h2 : min_cy < keys.getD (lower_bound keys min_cy) 0
    · rw [if_pos h2, if_pos ht] at h; cases h
    · rw [if_neg h2] at h
      simp only [Option.some.injEq] at h
      exact h.symm

theorem column_search_loop_legal (env : SearchEnv) (rng : Nat → Nat)
    (min_cx max_cx delta_cx cx_from cy_from possibilities : Int) :
    ∀ (fuel : Nat) (tried : List Int) (min_cy max_cy cx_to cy_to : Int) (n rows : Nat)
      (res : KernelResult),
      column_search_loop env rng min_cx max_cx delta_cx cx_from cy_from possibilities fuel tried
        min_cy max_cy cx_to cy_to n rows = Except.ok res →
      res.legal = true →
      ¬ (res.cx_to = cx_from ∧ res.cy_to = cy_from)
        ∧ (min_cx ≤ res.cx_to ∧ res.cx_to ≤ max_cx)
        ∧ (env.type_index ≠ 1 → min_cy ≤ res.cy_to ∧ res.cy_to ≤ max_cy) := by
  intro fuel
  induction fuel with
  | zero => intro tried min_cy max_cy cx_to cy_to n rows res h; simp [column_search_loop] at h
  | succ fuel ih =>
    intro tried min_cy max_cy cx_to cy_to n rows res h hl
    unfold column_search_loop at h
    by_cases hpos : (tried.length : Int) < possibilities
    · rw [if_pos hpos] at h
      dsimp only at h
      by_cases hassert : min_cx + irand rng n delta_cx < min_cx
          ∨ max_cx < min_cx + irand rng n delta_cx
      · rw [if_pos hassert] at h; cases h
      · rw [if_neg hassert] at h
        by_cases hmem : min_cx + irand rng n delta_cx ∈ tried
        · rw [if_pos hmem] at h
          exact ih _ _ _ _ _ _ _ _ h hl
        · rw [if_neg hmem] at h
          cases hk : column_at env (min_cx + irand rng n delta_cx) with
          | none => simp only [hk] at h; cases h
          | some keys =>
            simp only [hk] at h
            cases hw : column_window env.type_index keys min_cy max_cy with
            | none =>
              simp only [hw] at h
              exact ih _ _ _ _ _ _ _ _ h hl
            | some w =>
              obtain ⟨y_lower, y_upper, min_cy1, max_cy1⟩ := w
              simp only [hw] at h
              have hsame : env.type_index ≠ 1 → min_cy1 = min_cy ∧ max_cy1 = max_cy := by
                intro ht
                have := column_window_no_fall_back ht hw
                simp only [Prod.mk.injEq] at this
                exact ⟨this.2.2.1, this.2.2.2⟩
              by_cases hneg : (y_upper : Int) - (y_lower : Int) < 0
              · rw [if_pos hneg] at h; cases h
              · rw [if_neg hneg] at h
                cases hr : row_search_loop rng keys y_lower ((y_upper : Int) - (y_lower : Int))
                    min_cy1 max_cy1 cx_from cy_from (min_cx + irand rng n delta_cx) fuel [] cy_to
                    (n + 1) with
                | error e => simp only [hr] at h; cases h
                | ok r =>
                  obtain ⟨legal, cy1, n1, tried_dy⟩ := r
                  simp only [hr] at h
                  cases legal with
                  | true =>
                    simp only [if_true, Except.ok.injEq] at h
                    subst h
                    obtain ⟨h1, h2, h3⟩ :=
                      row_search_loop_legal _ _ _ _ _ _ _ _ _ _ _ _ _ _ _ _ hr
                    dsimp only
                    refine ⟨fun hh => h1 ⟨hh.1.symm, hh.2.symm⟩, ⟨by omega, by omega⟩, ?_⟩
                    intro ht
                    obtain ⟨e1, e2⟩ := hsame ht
                    omega
                  | false =>
                    simp only [Bool.false_eq_true, if_false] at h
                    obtain ⟨g1, g2, g3⟩ := ih _ _ _ _ _ _ _ _ h hl
                    refine ⟨g1, g2, ?_⟩
                    intro ht
                    obtain ⟨e1, e2⟩ := hsame ht
                    have := g3 ht
                    omega
    · rw [if_neg hpos] at h
      simp only [Except.ok.injEq] at h
      subst h
      cases hl

/-- C11: whenever `find_compatible_compressed_loc_in_range` returns true, for
every input and every random source, the chosen compressed coordinates are not
the compressed coordinates of the source. -/
theorem find_compatible_compressed_loc_in_range_not_from (env : SearchEnv) (rng : Nat → Nat)
    (fuel n : Nat) (min_cx max_cx min_cy max_cy delta_cx cx_from cy_from cx_to cy_to : Int)
    (is_median : Bool) (res : KernelResult)
    (h : find_compatible_compressed_loc_in_range env rng fuel n min_cx max_cx min_cy max_cy
        delta_cx cx_from cy_from cx_to cy_to is_median = Except.ok res)
    (hlegal : res.legal = true) :
    (res.cx_to, res.cy_to) ≠ (cx_from, cy_from) := by
  unfold find_compatible_compressed_loc_in_range at h
  have := (column_search_loop_legal env rng _ _ _ _ _ _ _ _ _ _ _ _ _ _ _ h hlegal).1
  intro heq
  simp only [Prod.mk.injEq] at heq
  exact this heq

/-- Witness of C11 on `env_full5`: the search around (2, 2) with half-width 1
returns (2, 3). -/
theorem find_compatible_compressed_loc_in_range_not_from_witness :
    find_compatible_compressed_loc_in_range env_full5 rng_succ 5 0 1 3 1 3 2 2 2 (-1) (-1) false
        = Except.ok ⟨true, 2, 3, 2, [2], 1⟩
    ∧ ((2 : Int), (3 : Int)) ≠ (2, 2) :=
  ⟨rfl, find_compatible_compressed_loc_in_range_not_from env_full5 rng_succ 5 0 1 3 1 3 2 2 2
    (-1) (-1) false ⟨true, 2, 3, 2, [2], 1⟩ rfl rfl⟩

/-! ## Two defects of the search kernel -/

/-- C12 (evaluation at the failing input): on `env_sparse_column` (type index
2), with the window of the single column 0 and the rows 0 to 2 and the source at
(3, 3), the kernel picks the untried column 0, whose rows 1 and 2 are inside the
window, and leaves it by `continue` because its lowest row in the window is
greater than `min_cy`: it returns false without trying a row. -/
theorem find_compatible_compressed_loc_in_range_skips_sparse_column :
    column_at env_sparse_column 0 = some [1, 2]
    ∧ ∀ fuel : Nat,
        find_compatible_compressed_loc_in_range env_sparse_column rng_zero (fuel + 2) 0
          0 0 0 2 0 3 3 (-1) (-1) true
          = Except.ok ⟨false, 0, -1, 1, [0], 0⟩ :=
  ⟨rfl, fun _ => rfl⟩

/-- C13 (evaluation at the failing input): on `env_one_column` the uniform
search from (0, 0) with range limit 1 has the window of the single column 0
(`delta_cx = 0`); the kernel without `is_median` is allowed 0 columns and
returns failure without a draw, although the same call with `is_median` finds
the free candidate (0, 1). -/
theorem find_compatible_compressed_loc_in_range_tries_no_column :
    (∀ (rng : Nat → Nat) (fuel : Nat),
        find_compatible_compressed_loc_in_range env_one_column rng (fuel + 1) 0
          0 0 0 1 0 0 0 (-1) (-1) false
          = Except.ok ⟨false, -1, -1, 0, [], 0⟩)
    ∧ (∀ (rng : Nat → Nat) (fuel : Nat),
        find_to_loc_uniform env_one_column rng (fuel + 1) 1 ⟨0, 0, 0⟩ ⟨0, 0, 0⟩ 0
          = Except.ok ⟨false, ⟨0, 0, 0⟩, -1, -1⟩)
    ∧ find_compatible_compressed_loc_in_range env_one_column rng_succ 4 0
          0 0 0 1 0 0 0 (-1) (-1) true
          = Except.ok ⟨true, 0, 1, 3, [0], 2⟩ :=
  ⟨fun _ _ => rfl, fun _ _ => rfl, rfl⟩

/-! ## intersect_range_limit_with_floorplan_constraints -/

theorem coord_at_of_lt {coords : List Int} {i : Int} (h0 : 0 ≤ i)
    (h : i < (coords.length : Int)) : ∃ v, coord_at coords i = some v := by
  unfold coord_at
  rw [if_pos h0]
  have hlt : i.toNat < coords.length := by omega
  exact ⟨coords.get ⟨i.toNat, hlt⟩, List.get?_eq_get hlt⟩

/-- C16: for a block whose constraint is empty or has two or more rectangles,
`intersect_range_limit_with_floorplan_constraints` returns true and leaves the
five bounds as they were, for every search rectangle whose corners index the
coordinate tables. -/
theorem intersect_range_limit_no_op (env : SearchEnv) (b_from : ClusterBlockId)
    (b : SearchBounds) (min_x max_x min_y max_y : Int)
    (hregions : (env.cluster_constraints b_from).length ≠ 1)
    (hx0 : coord_at env.compressed_block_grid.compressed_to_grid_x b.min_cx = some min_x)
    (hx1 : coord_at env.compressed_block_grid.compressed_to_grid_x b.max_cx = some max_x)
    (hy0 : coord_at env.compressed_block_grid.compressed_to_grid_y b.min_cy = some min_y)
    (hy1 : coord_at env.compressed_block_grid.compressed_to_grid_y b.max_cy = some max_y) :
    intersect_range_limit_with_floorplan_constraints env b_from b = Except.ok (true, b) := by
  unfold intersect_range_limit_with_floorplan_constraints
  simp only [hx0, hx1, hy0, hy1]
  cases hr : env.cluster_constraints b_from with
  | nil => rfl
  | cons r0 rest =>
    cases rest with
    | nil => rw [hr] at hregions; simp at hregions
    | cons r1 rest2 => rfl

/-- Witness of C16 on `env_full5_two`: the search rectangle from (1, 1) to
(3, 3) meets neither of the two cells of the constraint. -/
theorem intersect_range_limit_no_op_witness :
    intersect_range_limit_with_floorplan_constraints env_full5_two 0 ⟨1, 1, 3, 3, 2⟩
      = Except.ok (true, ⟨1, 1, 3, 3, 2⟩) :=
  intersect_range_limit_no_op env_full5_two 0 ⟨1, 1, 3, 3, 2⟩ 1 3 1 3 (by decide) rfl rfl rfl rfl

theorem intersection_empty_iff (r q : Region) :
    (intersection r q).empty = true ↔ ¬ ∃ x y : Int, r.contains x y ∧ q.contains x y := by
  unfold Region.empty intersection Region.contains
  simp only [Bool.or_eq_true, decide_eq_true_eq]
  constructor
  · rintro h ⟨x, y, ⟨h1, h2, h3, h4⟩, ⟨h5, h6, h7, h8⟩⟩
    omega
  · intro h
    by_contra hne
    apply h
    refine ⟨max r.xmin q.xmin, max r.ymin q.ymin, ?_, ?_⟩ <;> omega

/-- C17: for a block whose constraint is exactly one rectangle `R`,
`intersect_range_limit_with_floorplan_constraints` returns false exactly when
no cell lies both in `R` and in the rectangle of real coordinates of the search
bounds, and then leaves the bounds unchanged; otherwise it returns true with the
bounds set to the approximate compressed indices of the corners of the
intersection and `delta_cx = max_cx - min_cx`. -/
theorem intersect_range_limit_single_rectangle (env : SearchEnv) (b_from : ClusterBlockId)
    (b : SearchBounds) (R : Region) (min_x max_x min_y max_y : Int)
    (hregions : env.cluster_constraints b_from = [R])
    (hx0 : coord_at env.compressed_block_grid.compressed_to_grid_x b.min_cx = some min_x)
    (hx1 : coord_at env.compressed_block_grid.compressed_to_grid_x b.max_cx = some max_x)
    (hy0 : coord_at env.compressed_block_grid.compressed_to_grid_y b.min_cy = some min_y)
    (hy1 : coord_at env.compressed_block_grid.compressed_to_grid_y b.max_cy = some max_y) :
    ∃ (flag : Bool) (b1 : SearchBounds),
      intersect_range_limit_with_floorplan_constraints env b_from b = Except.ok (flag, b1)
      ∧ (flag = false ↔ ¬ ∃ x y : Int,
            R.contains x y ∧ (⟨min_x, min_y, max_x, max_y⟩ : Region).contains x y)
      ∧ (flag = false → b1 = b)
      ∧ (flag = true →
          b1.min_cx = env.grid_to_compressed_approx env.compressed_block_grid.compressed_to_grid_x
              (intersection R ⟨min_x, min_y, max_x, max_y⟩).xmin
          ∧ b1.max_cx = env.grid_to_compressed_approx env.compressed_block_grid.compressed_to_grid_x
              (intersection R ⟨min_x, min_y, max_x, max_y⟩).xmax
          ∧ b1.min_cy = env.grid_to_compressed_approx env.compressed_block_grid.compressed_to_grid_y
              (intersection R ⟨min_x, min_y, max_x, max_y⟩).ymin
          ∧ b1.max_cy = env.grid_to_compressed_approx env.compressed_block_grid.compressed_to_grid_y
              (intersection R ⟨min_x, min_y, max_x, max_y⟩).ymax
          ∧ b1.delta_cx = b1.max_cx - b1.min_cx) := by
  unfold intersect_range_limit_with_floorplan_constraints
  simp only [hx0, hx1, hy0, hy1, hregions]
  cases he : (intersection R ⟨min_x, min_y, max_x, max_y⟩).empty with
  | true =>
    refine ⟨false, b, by simp, ?_, fun _ => rfl, fun h => (by cases h)⟩
    simp only [true_iff]
    exact (intersection_empty_iff R _).mp he
  | false =>
    refine ⟨true,
      ⟨env.grid_to_compressed_approx env.compressed_block_grid.compressed_to_grid_x
          (intersection R ⟨min_x, min_y, max_x, max_y⟩).xmin,
        env.grid_to_compressed_approx env.compressed_block_grid.compressed_to_grid_y
          (intersection R ⟨min_x, min_y, max_x, max_y⟩).ymin,
        env.grid_to_compressed_approx env.compressed_block_grid.compressed_to_grid_x
          (intersection R ⟨min_x, min_y, max_x, max_y⟩).xmax,
        env.grid_to_compressed_approx env.compressed_block_grid.compressed_to_grid_y
          (intersection R ⟨min_x, min_y, max_x, max_y⟩).ymax,
        env.grid_to_compressed_approx env.compressed_block_grid.compressed_to_grid_x
            (intersection R ⟨min_x, min_y, max_x, max_y⟩).xmax
          - env.grid_to_compressed_approx env.compressed_block_grid.compressed_to_grid_x
            (intersection R ⟨min_x, min_y, max_x, max_y⟩).xmin⟩,
      by simp, ?_, fun h => (by cases h), fun _ => ⟨rfl, rfl, rfl, rfl, rfl⟩⟩
    simp only [Bool.true_eq_false, false_iff, not_not]
    by_contra hne
    have := (intersection_empty_iff R _).mpr hne
    rw [he] at this
    cases this

/-- Witness of C17 on `env_full5_rect`: the search rectangle from (1, 1) to
(3, 3) is clipped to the rectangle from (1, 1) to (2, 1). -/
theorem intersect_range_limit_single_rectangle_witness :
    ∃ (flag : Bool) (b1 : SearchBounds),
      intersect_range_limit_with_floorplan_constraints env_full5_rect 0 ⟨1, 1, 3, 3, 2⟩
        = Except.ok (flag, b1)
      ∧ (flag = false ↔ ¬ ∃ x y : Int,
            (⟨0, 0, 2, 1⟩ : Region).contains x y ∧ (⟨1, 1, 3, 3⟩ : Region).contains x y)
      ∧ (flag = false → b1 = ⟨1, 1, 3, 3, 2⟩)
      ∧ (flag = true →
          b1.min_cx = 1 ∧ b1.max_cx = 2 ∧ b1.min_cy = 1 ∧ b1.max_cy = 1
          ∧ b1.delta_cx = b1.max_cx - b1.min_cx) :=
  intersect_range_limit_single_rectangle env_full5_rect 0 ⟨1, 1, 3, 3, 2⟩ ⟨0, 0, 2, 1⟩ 1 3 1 3
    rfl rfl rfl rfl rfl

/-! ## find_to_loc_uniform -/

theorem column_search_loop_no_possibility (env : SearchEnv) (rng : Nat → Nat)
    (min_cx max_cx delta_cx cx_from cy_from possibilities : Int) (hp : possibilities ≤ 0)
    (fuel : Nat) (min_cy max_cy cx_to cy_to : Int) (n rows : Nat) :
    column_search_loop env rng min_cx max_cx delta_cx cx_from cy_from possibilities (fuel + 1) []
      min_cy max_cy cx_to cy_to n rows = Except.ok ⟨false, cx_to, cy_to, n, [], rows⟩ := by
  unfold column_search_loop
  have : ¬ (((([] : List Int).length : Nat) : Int) < possibilities) := by
    simp only [List.length_nil, Nat.cast_zero]
    omega
  rw [if_neg this]

/-- C14: for a block whose floorplan constraint is the single rectangle made of
its own grid cell, and every range limit `rlim >= 0`, `find_to_loc_uniform`
returns failure (with `to` untouched), provided the exact coordinate mapping
sends the location of the block to indices of the compressed tables. -/
theorem find_to_loc_uniform_own_cell_fails (env : SearchEnv) (rng : Nat → Nat) (fuel : Nat)
    (rlim : Int) (from_loc to_loc : t_pl_loc) (b_from : ClusterBlockId)
    (hrlim : 0 ≤ rlim)
    (hcons : env.cluster_constraints b_from = [⟨from_loc.x, from_loc.y, from_loc.x, from_loc.y⟩])
    (hcx : 0 ≤ env.grid_to_compressed env.compressed_block_grid.compressed_to_grid_x from_loc.x
      ∧ env.grid_to_compressed env.compressed_block_grid.compressed_to_grid_x from_loc.x
          < (env.compressed_block_grid.compressed_to_grid_x.length : Int))
    (hcy : 0 ≤ env.grid_to_compressed env.compressed_block_grid.compressed_to_grid_y from_loc.y
      ∧ env.grid_to_compressed env.compressed_block_grid.compressed_to_grid_y from_loc.y
          < (env.compressed_block_grid.compressed_to_grid_y.length : Int)) :
    find_to_loc_uniform env rng (fuel + 1) rlim from_loc to_loc b_from
      = Except.ok ⟨false, to_loc, -1, -1⟩ := by
  obtain ⟨min_x, hx0⟩ := @coord_at_of_lt env.compressed_block_grid.compressed_to_grid_x
    (max 0 (env.grid_to_compressed env.compressed_block_grid.compressed_to_grid_x from_loc.x
      - min (env.compressed_block_grid.compressed_to_grid_x.length : Int) rlim))
    (by omega) (by omega)
  obtain ⟨max_x, hx1⟩ := @coord_at_of_lt env.compressed_block_grid.compressed_to_grid_x
    (min ((env.compressed_block_grid.compressed_to_grid_x.length : Int) - 1)
      (env.grid_to_compressed env.compressed_block_grid.compressed_to_grid_x from_loc.x
        + min (env.compressed_block_grid.compressed_to_grid_x.length : Int) rlim))
    (by omega) (by omega)
  obtain ⟨min_y, hy0⟩ := @coord_at_of_lt env.compressed_block_grid.compressed_to_grid_y
    (max 0 (env.grid_to_compressed env.compressed_block_grid.compressed_to_grid_y from_loc.y
      - min (env.compressed_block_grid.compressed_to_grid_y.length : Int) rlim))
    (by omega) (by omega)
  obtain ⟨max_y, hy1⟩ := @coord_at_of_lt env.compressed_block_grid.compressed_to_grid_y
    (min ((env.compressed_block_grid.compressed_to_grid_y.length : Int) - 1)
      (env.grid_to_compressed env.compressed_block_grid.compressed_to_grid_y from_loc.y
        + min (env.compressed_block_grid.compressed_to_grid_y.length : Int) rlim))
    (by omega) (by omega)
  have hconstr : is_cluster_constrained env b_from = true := by
    simp [is_cluster_constrained, hcons]
  unfold find_to_loc_uniform
  simp only [hconstr, if_true]
  unfold intersect_range_limit_with_floorplan_constraints
  simp only [hx0, hx1, hy0, hy1, hcons]
  cases he : (intersection ⟨from_loc.x, from_loc.y, from_loc.x, from_loc.y⟩
      ⟨min_x, min_y, max_x, max_y⟩).empty with
  | true => simp
  | false =>
    simp only [Bool.false_eq_true, if_false]
    have hxeq : (intersection ⟨from_loc.x, from_loc.y, from_loc.x, from_loc.y⟩
        ⟨min_x, min_y, max_x, max_y⟩).xmin
        = (intersection ⟨from_loc.x, from_loc.y, from_loc.x, from_loc.y⟩
        ⟨min_x, min_y, max_x, max_y⟩).xmax := by
      simp only [Region.empty, intersection, Bool.or_eq_false_iff, decide_eq_false_iff_not] at he ⊢
      omega
    unfold find_compatible_compressed_loc_in_range
    simp only [Bool.false_eq_true, if_false]
    rw [column_search_loop_no_possibility _ _ _ _ _ _ _ _ (by rw [hxeq]; omega)]
    simp

/-- Witness of C14 on `env_full5_cell`: five compressed columns, the block at
the compressed location (2, 2) constrained to its own cell, `rlim = 1`. -/
theorem find_to_loc_uniform_own_cell_fails_witness :
    find_to_loc_uniform env_full5_cell rng_succ 1 1 ⟨2, 2, 0⟩ ⟨2, 2, 0⟩ 0
      = Except.ok ⟨false, ⟨2, 2, 0⟩, -1, -1⟩ :=
  find_to_loc_uniform_own_cell_fails env_full5_cell rng_succ 0 1 ⟨2, 2, 0⟩ ⟨2, 2, 0⟩ 0
    (by decide) rfl (by decide) (by decide)

/-- C15: for a block without a floorplan constraint, of a type other than type
index 1, and an integer range limit `rlim` (non-negative or not): whenever
`find_to_loc_uniform` returns true, the chosen compressed coordinates are within
`min(rlim, number of columns)` and `min(rlim, number of rows)` of the compressed
coordinates of the source and lie inside the compressed tables. -/
theorem find_to_loc_uniform_within_range (env : SearchEnv) (rng : Nat → Nat) (fuel : Nat)
    (rlim : Int) (from_loc to_loc : t_pl_loc) (b_from : ClusterBlockId) (res : ToLocResult)
    (hcons : env.cluster_constraints b_from = [])
    (htype : env.type_index ≠ 1)
    (h : find_to_loc_uniform env rng fuel rlim from_loc to_loc b_from = Except.ok res)
    (hfound : res.found = true) :
    |res.cx_to - env.grid_to_compressed env.compressed_block_grid.compressed_to_grid_x from_loc.x|
        ≤ min rlim (env.compressed_block_grid.compressed_to_grid_x.length : Int)
    ∧ |res.cy_to - env.grid_to_compressed env.compressed_block_grid.compressed_to_grid_y from_loc.y|
        ≤ min rlim (env.compressed_block_grid.compressed_to_grid_y.length : Int)
    ∧ (0 ≤ res.cx_to
        ∧ res.cx_to < (env.compressed_block_grid.compressed_to_grid_x.length : Int))
    ∧ (0 ≤ res.cy_to
        ∧ res.cy_to < (env.compressed_block_grid.compressed_to_grid_y.length : Int)) := by
  have hconstr : is_cluster_constrained env b_from = false := by
    simp [is_cluster_constrained, hcons]
  unfold find_to_loc_uniform at h
  simp only [hconstr, Bool.false_eq_true, if_false] at h
  cases hk : find_compatible_compressed_loc_in_range env rng fuel 0
      (max 0 (env.grid_to_compressed env.compressed_block_grid.compressed_to_grid_x from_loc.x
        - min (env.compressed_block_grid.compressed_to_grid_x.length : Int) rlim))
      (min ((env.compressed_block_grid.compressed_to_grid_x.length : Int) - 1)
        (env.grid_to_compressed env.compressed_block_grid.compressed_to_grid_x from_loc.x
          + min (env.compressed_block_grid.compressed_to_grid_x.length : Int) rlim))
      (max 0 (env.grid_to_compressed env.compressed_block_grid.compressed_to_grid_y from_loc.y
        - min (env.compressed_block_grid.compressed_to_grid_y.length : Int) rlim))
      (min ((env.compressed_block_grid.compressed_to_grid_y.length : Int) - 1)
        (env.grid_to_compressed env.compressed_block_grid.compressed_to_grid_y from_loc.y
          + min (env.compressed_block_grid.compressed_to_grid_y.length : Int) rlim))
      (min ((env.compressed_block_grid.compressed_to_grid_x.length : Int) - 1)
          (env.grid_to_compressed env.compressed_block_grid.compressed_to_grid_x from_loc.x
            + min (env.compressed_block_grid.compressed_to_grid_x.length : Int) rlim)
        - max 0 (env.grid_to_compressed env.compressed_block_grid.compressed_to_grid_x from_loc.x
          - min (env.compressed_block_grid.compressed_to_grid_x.length : Int) rlim))
      (env.grid_to_compressed env.compressed_block_grid.compressed_to_grid_x from_loc.x)
      (env.grid_to_compressed env.compressed_block_grid.compressed_to_grid_y from_loc.y)
      (-1) (-1) false with
  | error e => simp only [hk] at h; cases h
  | ok kres =>
    simp only [hk] at h
    have hshape : res.found = true → res.cx_to = kres.cx_to ∧ res.cy_to = kres.cy_to
        ∧ kres.legal = true := by
      intro hf
      cases hl : kres.legal with
      | false =>
        simp only [hl, if_true, Except.ok.injEq] at h
        rw [← h] at hf
        cases hf
      | true =>
        simp only [hl, Bool.true_eq_false, if_false] at h
        split at h
        · cases h
        · split at h
          · cases h
          · split at h
            · cases h
            · simp only [Except.ok.injEq] at h
              rw [← h]
              exact ⟨rfl, rfl, rfl⟩
    obtain ⟨e1, e2, hl⟩ := hshape hfound
    unfold find_compatible_compressed_loc_in_range at hk
    obtain ⟨_, ⟨g1, g2⟩, g3⟩ := column_search_loop_legal env rng _ _ _ _ _ _ _ _ _ _ _ _ _ _ _ hk hl
    obtain ⟨g4, g5⟩ := g3 htype
    rw [e1, e2]
    refine ⟨abs_le.mpr ⟨by omega, by omega⟩, abs_le.mpr ⟨by omega, by omega⟩,
      ⟨by omega, by omega⟩, ⟨by omega, by omega⟩⟩

/-- Witness of C15 on `env_full5`: the search from (2, 2) with `rlim = 1`
returns the compressed coordinates (2, 3). -/
theorem find_to_loc_uniform_within_range_witness :
    find_to_loc_uniform env_full5 rng_succ 5 1 ⟨2, 2, 0⟩ ⟨2, 2, 0⟩ 0
        = Except.ok ⟨true, ⟨2, 3, 0⟩, 2, 3⟩
    ∧ |(2 : Int) - 2| ≤ min 1 5 ∧ |(3 : Int) - 2| ≤ min 1 5
    ∧ ((0 : Int) ≤ 2 ∧ (2 : Int) < 5) ∧ ((0 : Int) ≤ 3 ∧ (3 : Int) < 5) :=
  ⟨rfl, find_to_loc_uniform_within_range env_full5 rng_succ 5 1 ⟨2, 2, 0⟩ ⟨2, 2, 0⟩ 0
    ⟨true, ⟨2, 3, 0⟩, 2, 3⟩ rfl (by decide) rfl rfl⟩

/-! ## find_compatible_compressed_loc_in_range: picks and termination -/

theorem column_search_loop_stuck :
    ∀ (fuel : Nat) (cx_to cy_to : Int) (n rows : Nat),
      column_search_loop env_three_columns rng_zero 0 2 2 0 0 2 fuel [0] 0 0 cx_to cy_to n rows
        = Except.error SearchFault.out_of_fuel := by
  intro fuel
  induction fuel with
  | zero => intro cx_to cy_to n rows; rfl
  | succ fuel ih =>
    intro cx_to cy_to n rows
    unfold column_search_loop
    have h1 : (((([0] : List Int).length : Nat) : Int) < 2) := by decide
    have h2 : (0 : Int) + irand rng_zero n 2 = 0 := by
      simp [irand, rng_zero]
    rw [if_pos h1]
    dsimp only
    rw [h2]
    have h3 : ¬ ((0 : Int) < 0 ∨ (2 : Int) < 0) := by decide
    have h4 : (0 : Int) ∈ ([0] : List Int) := by decide
    rw [if_neg h3, if_pos h4]
    exact ih _ _ _ _

theorem kernel_constant_source_out_of_fuel :
    ∀ fuel : Nat,
      find_compatible_compressed_loc_in_range env_three_columns rng_zero fuel 0
        0 2 0 0 2 0 0 (-1) (-1) false = Except.error SearchFault.out_of_fuel := by
  intro fuel
  unfold find_compatible_compressed_loc_in_range
  simp only [Bool.false_eq_true, if_false]
  cases fuel with
  | zero => rfl
  | succ f1 =>
    cases f1 with
    | zero => rfl
    | succ f2 =>
      cases f2 with
      | zero => rfl
      | succ f3 =>
        have hstep : column_search_loop env_three_columns rng_zero 0 2 2 0 0 2 (f3 + 1 + 1 + 1) []
            0 0 (-1) (-1) 0 0
            = column_search_loop env_three_columns rng_zero 0 2 2 0 0 2 (f3 + 1 + 1) [0]
                0 0 0 0 2 1 := rfl
        rw [hstep]
        exact column_search_loop_stuck _ _ _ _ _

theorem row_search_loop_count (rng : Nat → Nat) (keys : List Int) (y_lower : Nat) (y_range : Int)
    (min_cy max_cy cx_from cy_from cx_to : Int) :
    ∀ (fuel : Nat) (tried_dy : List Int) (cy_to : Int) (n : Nat) (legal : Bool) (cy1 : Int)
      (n1 : Nat) (tried1 : List Int),
      row_search_loop rng keys y_lower y_range min_cy max_cy cx_from cy_from cx_to fuel tried_dy
        cy_to n = Except.ok (legal, cy1, n1, tried1) →
      (tried_dy.length : Int) ≤ max 0 y_range → (tried1.length : Int) ≤ max 0 y_range := by
  intro fuel
  induction fuel with
  | zero => intro tried_dy cy_to n legal cy1 n1 tried1 h; simp [row_search_loop] at h
  | succ fuel ih =>
    intro tried_dy cy_to n legal cy1 n1 tried1 h hlen
    unfold row_search_loop at h
    by_cases hlt : (tried_dy.length : Int) < y_range
    · rw [if_pos hlt] at h
      dsimp only at h
      have hnew : (((tried_dy ++ [irand rng n (y_range - 1)]).length : Nat) : Int)
          ≤ max 0 y_range := by
        simp only [List.length_append, List.length_singleton, Nat.cast_add, Nat.cast_one]
        omega
      by_cases hmem : irand rng n (y_range - 1) ∈ tried_dy
      · rw [if_pos hmem] at h
        exact ih _ _ _ _ _ _ _ h hlen
      · rw [if_neg hmem] at h
        cases hk : keys.get? (y_lower + (irand rng n (y_range - 1)).toNat) with
        | none => simp only [hk] at h; cases h
        | some cy =>
          simp only [hk] at h
          by_cases hassert : cy < min_cy ∨ max_cy < cy
          · rw [if_pos hassert] at h; cases h
          · rw [if_neg hassert] at h
            by_cases hsame : cx_from = cx_to ∧ cy_from = cy
            · rw [if_pos hsame] at h
              exact ih _ _ _ _ _ _ _ h hnew
            · rw [if_neg hsame] at h
              simp only [Except.ok.injEq, Prod.mk.injEq] at h
              obtain ⟨_, _, _, rfl⟩ := h
              exact hnew
    · rw [if_neg hlt] at h
      simp only [Except.ok.injEq, Prod.mk.injEq] at h
      obtain ⟨_, _, _, rfl⟩ := h
      exact hlen

theorem column_window_range {type_index : Int} {keys : List Int} {min_cy max_cy : Int}
    {y_lower y_upper : Nat} {min_cy1 max_cy1 : Int}
    (h : column_window type_index keys min_cy max_cy = some (y_lower, y_upper, min_cy1, max_cy1)) :
    (y_upper : Int) - (y_lower : Int) ≤ (keys.length : Int) := by
  unfold column_window at h
  dsimp only at h
  by_cases h1 : lower_bound keys min_cy = keys.length
  · rw [if_pos h1] at h; cases h
  · rw [if_neg h1] at h
    by_cases h2 : min_cy < keys.getD (lower_bound keys min_cy) 0
    · rw [if_pos h2] at h
      by_cases h3 : type_index ≠ 1
      · rw [if_pos h3] at h; cases h
      · rw [if_neg h3] at h
        simp only [Option.some.injEq, Prod.mk.injEq] at h
        obtain ⟨rfl, rfl, _, _⟩ := h
        simp
    · rw [if_neg h2] at h
      simp only [Option.some.injEq, Prod.mk.injEq] at h
      obtain ⟨rfl, rfl, _, _⟩ := h
      have : upper_bound keys max_cy ≤ keys.length := List.findIdx_le_length _
      omega

theorem column_at_mem {env : SearchEnv} {cx : Int} {keys : List Int}
    (h : column_at env cx = some keys) : keys ∈ env.compressed_block_grid.grid := by
  unfold column_at at h
  split at h
  · exact List.get?_mem h
  · cases h

theorem column_search_loop_counts (env : SearchEnv) (rng : Nat → Nat)
    (min_cx max_cx delta_cx cx_from cy_from possibilities : Int) (R : Nat)
    (hrows : ∀ keys ∈ env.compressed_block_grid.grid, keys.length ≤ R) :
    ∀ (fuel : Nat) (tried : List Int) (min_cy max_cy cx_to cy_to : Int) (n rows : Nat)
      (res : KernelResult),
      column_search_loop env rng min_cx max_cx delta_cx cx_from cy_from possibilities fuel tried
        min_cy max_cy cx_to cy_to n rows = Except.ok res →
      tried.Nodup → (∀ c ∈ tried, min_cx ≤ c ∧ c ≤ max_cx) →
      (tried.length : Int) ≤ max 0 possibilities → rows ≤ tried.length * R →
      res.tried_cx_to.Nodup ∧ (∀ c ∈ res.tried_cx_to, min_cx ≤ c ∧ c ≤ max_cx)
        ∧ (res.tried_cx_to.length : Int) ≤ max 0 possibilities
        ∧ res.n_rows_tried ≤ res.tried_cx_to.length * R := by
  intro fuel
  induction fuel with
  | zero => intro tried min_cy max_cy cx_to cy_to n rows res h; simp [column_search_loop] at h
  | succ fuel ih =>
    intro tried min_cy max_cy cx_to cy_to n rows res h hnd hin hlen hrw
    unfold column_search_loop at h
    by_cases hpos : (tried.length : Int) < possibilities
    · rw [if_pos hpos] at h
      dsimp only at h
      by_cases hassert : min_cx + irand rng n delta_cx < min_cx
          ∨ max_cx < min_cx + irand rng n delta_cx
      · rw [if_pos hassert] at h; cases h
      · rw [if_neg hassert] at h
        by_cases hmem : min_cx + irand rng n delta_cx ∈ tried
        · rw [if_pos hmem] at h
          exact ih _ _ _ _ _ _ _ _ h hnd hin hlen hrw
        · rw [if_neg hmem] at h
          have hnd1 : (tried ++ [min_cx + irand rng n delta_cx]).Nodup := by
            refine List.Nodup.append hnd (List.nodup_singleton _) ?_
            intro y hy1 hy2
            rw [List.mem_singleton] at hy2
            subst hy2
            exact hmem hy1
          have hin1 : ∀ c ∈ tried ++ [min_cx + irand rng n delta_cx],
              min_cx ≤ c ∧ c ≤ max_cx := by
            intro c hc
            rcases List.mem_append.mp hc with hc | hc
            · exact hin c hc
            · rw [List.mem_singleton] at hc
              subst hc
              omega
          have hlen1 : (((tried ++ [min_cx + irand rng n delta_cx]).length : Nat) : Int)
              ≤ max 0 possibilities := by
            simp only [List.length_append, List.length_singleton, Nat.cast_add, Nat.cast_one]
            omega
          have hrw0 : rows ≤ (tried ++ [min_cx + irand rng n delta_cx]).length * R := by
            simp only [List.length_append, List.length_singleton]
            calc rows ≤ tried.length * R := hrw
              _ ≤ (tried.length + 1) * R := Nat.mul_le_mul_right R (Nat.le_succ _)
          cases hk : column_at env (min_cx + irand rng n delta_cx) with
          | none => simp only [hk] at h; cases h
          | some keys =>
            simp only [hk] at h
            cases hw : column_window env.type_index keys min_cy max_cy with
            | none =>
              simp only [hw] at h
              exact ih _ _ _ _ _ _ _ _ h hnd1 hin1 hlen1 hrw0
            | some w =>
              obtain ⟨y_lower, y_upper, min_cy1, max_cy1⟩ := w
              simp only [hw] at h
              by_cases hneg : (y_upper : Int) - (y_lower : Int) < 0
              · rw [if_pos hneg] at h; cases h
              · rw [if_neg hneg] at h
                cases hr : row_search_loop rng keys y_lower ((y_upper : Int) - (y_lower : Int))
                    min_cy1 max_cy1 cx_from cy_from (min_cx + irand rng n delta_cx) fuel [] cy_to
                    (n + 1) with
                | error e => simp only [hr] at h; cases h
                | ok r =>
                  obtain ⟨legal, cy1, n1, tried_dy⟩ := r
                  simp only [hr] at h
                  have hcount := row_search_loop_count _ _ _ _ _ _ _ _ _ _ _ _ _ _ _ _ _ hr
                    (by simp)
                  have hkeys : keys.length ≤ R := hrows keys (column_at_mem hk)
                  have hrange := column_window_range hw
                  have hdy : tried_dy.length ≤ R := by omega
                  have hrw1 : rows + tried_dy.length
                      ≤ (tried ++ [min_cx + irand rng n delta_cx]).length * R := by
                    simp only [List.length_append, List.length_singleton]
                    calc rows + tried_dy.length ≤ tried.length * R + R := Nat.add_le_add hrw hdy
                      _ = (tried.length + 1) * R := by ring
                  cases legal with
                  | true =>
                    simp only [if_true, Except.ok.injEq] at h
                    subst h
                    exact ⟨hnd1, hin1, hlen1, hrw1⟩
                  | false =>
                    simp only [Bool.false_eq_true, if_false] at h
                    exact ih _ _ _ _ _ _ _ _ h hnd1 hin1 hlen1 hrw1
    · rw [if_neg hpos] at h
      simp only [Except.ok.injEq] at h
      subst h
      exact ⟨hnd, hin, hlen, hrw⟩

/-! ## find_compatible_compressed_loc_in_range: the fall-back of type index 1 -/

/-- C19 (counterexample): on `env_type1_low` (type index 1) the window is the
column 0 and the rows 2 to 3; the column 0 is not empty and its only row 0 lies
below `min_cy`. The kernel picks the column and leaves it by `continue` (the
`lower_bound` is the end iterator): it returns false without trying a row. -/
theorem find_compatible_compressed_loc_in_range_rejects_low_column :
    column_at env_type1_low 0 = some [0]
    ∧ ∀ fuel : Nat,
        find_compatible_compressed_loc_in_range env_type1_low rng_zero (fuel + 2) 0
          0 0 2 3 0 7 7 (-1) (-1) true
          = Except.ok ⟨false, 0, -1, 1, [0], 0⟩ :=
  ⟨rfl, fun _ => rfl⟩

theorem irand_range (rng : Nat → Nat) (n : Nat) (imax : Int) (h : 0 ≤ imax) :
    0 ≤ irand rng n imax ∧ irand rng n imax ≤ imax := by
  unfold irand
  have h1 := Int.emod_nonneg ((rng n : Nat) : Int) (show imax + 1 ≠ 0 by omega)
  have h2 := Int.emod_lt_of_pos ((rng n : Nat) : Int) (show 0 < imax + 1 by omega)
  omega

theorem sorted_getD_le {keys : List Int} (hs : keys.Pairwise (fun a b => a < b)) {i j : Nat}
    (hij : i ≤ j) (hj : j < keys.length) : keys.getD i 0 ≤ keys.getD j 0 := by
  rw [List.getD_eq_getElem _ _ (by omega), List.getD_eq_getElem _ _ hj]
  rcases Nat.lt_or_eq_of_le hij with h | h
  · exact le_of_lt (List.pairwise_iff_getElem.mp hs i j (by omega) hj h)
  · subst h; exact le_refl _

theorem column_window_fall_back {keys : List Int} {min_cy max_cy : Int}
    (hwin : min_cy ≤ max_cy) (hsome : ∃ k ∈ keys, min_cy ≤ k)
    (hnone : ∀ k ∈ keys, ¬ (min_cy ≤ k ∧ k ≤ max_cy)) :
    column_window 1 keys min_cy max_cy
      = some (0, keys.length, keys.getD 0 0, keys.getD (keys.length - 1) 0) := by
  have hex : ∃ x ∈ keys, (fun k => decide (min_cy ≤ k)) x = true := by
    obtain ⟨k, hk, hge⟩ := hsome
    exact ⟨k, hk, by simpa using hge⟩
  have hlt : lower_bound keys min_cy < keys.length := List.findIdx_lt_length_of_exists hex
  have hge : min_cy ≤ keys[lower_bound keys min_cy] := by
    have := @List.findIdx_getElem _ (fun k => decide (min_cy ≤ k)) keys hlt
    simpa using this
  have hmem : keys[lower_bound keys min_cy] ∈ keys := List.getElem_mem _
  have hgt : min_cy < keys.getD (lower_bound keys min_cy) 0 := by
    rw [List.getD_eq_getElem _ _ hlt]
    have := hnone _ hmem
    omega
  unfold column_window
  dsimp only
  rw [if_neg (by omega), if_pos hgt]
  simp

/-- C19 (amended): for the designated block type (type index 1), when the kernel
picks an untried column of the window whose rows are increasing, none of them
inside `[min_cy, max_cy]` and at least one of them not below `min_cy` (the rows
lie all above `max_cy`, or on both sides), the column is not rejected: the next
draw picks a row among all the rows of the column, and unless that row is the
source itself the kernel returns true with this column and this row. -/
theorem find_compatible_compressed_loc_in_range_fall_back (env : SearchEnv) (rng : Nat → Nat)
    (min_cx max_cx delta_cx cx_from cy_from possibilities : Int) (fuel : Nat)
    (tried : List Int) (min_cy max_cy cx_to cy_to : Int) (n rows : Nat) (keys : List Int)
    (htype : env.type_index = 1)
    (hpos : (tried.length : Int) < possibilities)
    (hcx : min_cx ≤ min_cx + irand rng n delta_cx ∧ min_cx + irand rng n delta_cx ≤ max_cx)
    (hnew : min_cx + irand rng n delta_cx ∉ tried)
    (hcol : column_at env (min_cx + irand rng n delta_cx) = some keys)
    (hsorted : keys.Pairwise (fun a b => a < b))
    (hwin : min_cy ≤ max_cy)
    (hsome : ∃ k ∈ keys, min_cy ≤ k)
    (hnone : ∀ k ∈ keys, ¬ (min_cy ≤ k ∧ k ≤ max_cy))
    (hpick : ¬ (cx_from = min_cx + irand rng n delta_cx
      ∧ cy_from = keys.getD (irand rng (n + 1) ((keys.length : Int) - 1)).toNat 0)) :
    (irand rng (n + 1) ((keys.length : Int) - 1)).toNat < keys.length
    ∧ column_search_loop env rng min_cx max_cx delta_cx cx_from cy_from possibilities (fuel + 2)
        tried min_cy max_cy cx_to cy_to n rows
      = Except.ok ⟨true, min_cx + irand rng n delta_cx,
          keys.getD (irand rng (n + 1) ((keys.length : Int) - 1)).toNat 0, n + 2,
          tried ++ [min_cx + irand rng n delta_cx], rows + 1⟩ := by
  have hne : 0 < keys.length := by
    obtain ⟨k, hk, _⟩ := hsome
    exact List.length_pos_of_mem hk
  obtain ⟨hd0, hd1⟩ := irand_range rng (n + 1) ((keys.length : Int) - 1) (by omega)
  have hdy : (irand rng (n + 1) ((keys.length : Int) - 1)).toNat < keys.length := by omega
  refine ⟨hdy, ?_⟩
  have hw := column_window_fall_back hwin hsome hnone
  have hget : keys.get? (0 + (irand rng (n + 1) ((keys.length : Int) - 1)).toNat)
      = some (keys.getD (irand rng (n + 1) ((keys.length : Int) - 1)).toNat 0) := by
    rw [Nat.zero_add, List.getD_eq_getElem _ _ hdy]
    exact List.get?_eq_get hdy
  have hlo := sorted_getD_le hsorted (Nat.zero_le _) hdy
  have hhi := sorted_getD_le hsorted (show (irand rng (n + 1) ((keys.length : Int) - 1)).toNat
    ≤ keys.length - 1 by omega) (show keys.length - 1 < keys.length by omega)
  unfold column_search_loop
  rw [if_pos hpos]
  dsimp only
  rw [if_neg (by omega), if_neg hnew]
  simp only [hcol, htype, hw]
  rw [if_neg (by omega)]
  unfold row_search_loop
  have hr : ((([] : List Int).length : Nat) : Int) < (keys.length : Int) - ((0 : Nat) : Int) := by
    simp only [List.length_nil, Nat.cast_zero]
    omega
  rw [if_pos hr]
  dsimp only
  have hsub : ((keys.length : Int) - ((0 : Nat) : Int) - 1) = (keys.length : Int) - 1 := by
    simp
  rw [hsub, if_neg (List.not_mem_nil _)]
  simp only [hget]
  rw [if_neg (by omega), if_neg hpick]
  simp

/-- Witness of C19 (amended) on `env_type1_split`: the window is the column 0
and the rows 2 to 3, the rows 0 and 5 of the column lie on both sides; the
kernel searches both rows and returns the row 0. -/
theorem find_compatible_compressed_loc_in_range_fall_back_witness :
    (irand rng_zero (0 + 1) ((([0, 5] : List Int).length : Int) - 1)).toNat
        < ([0, 5] : List Int).length
    ∧ column_search_loop env_type1_split rng_zero 0 0 0 7 7 1 (0 + 2) [] 2 3 (-1) (-1) 0 0
      = Except.ok ⟨true, 0 + irand rng_zero 0 0,
          ([0, 5] : List Int).getD
            (irand rng_zero (0 + 1) ((([0, 5] : List Int).length : Int) - 1)).toNat 0,
          0 + 2, [] ++ [0 + irand rng_zero 0 0], 0 + 1⟩ :=
  find_compatible_compressed_loc_in_range_fall_back env_type1_split rng_zero 0 0 0 7 7 1 0 []
    2 3 (-1) (-1) 0 0 [0, 5] rfl (by decide) (by decide) (by decide) rfl (by decide) (by decide)
    ⟨5, by decide, by decide⟩ (by decide) (by decide)

/-! ## Blocks of the proposal record -/

theorem record_single_block_swap_blocks (s : PlacementState) (st : MoveCtx)
    (b_from : ClusterBlockId) (to_loc : t_pl_loc) :
    ∃ E : List t_pl_moved_block,
      (record_single_block_swap s st b_from to_loc).2.moved_blocks = st.moved_blocks ++ E
      ∧ (E.map (fun e => e.block_num)).Sublist
          (b_from :: (if s.grid_blocks to_loc ≠ EMPTY_BLOCK_ID
              ∧ s.grid_blocks to_loc ≠ INVALID_BLOCK_ID then [s.grid_blocks to_loc] else [])) := by
  unfold record_single_block_swap
  by_cases hfix : (s.block_locs b_from).is_fixed = true
  · rw [if_pos hfix]
    exact ⟨[], by simp, by simp⟩
  · rw [if_neg hfix]
    dsimp only
    by_cases hE : s.grid_blocks to_loc = EMPTY_BLOCK_ID
    · rw [if_pos hE]
      refine ⟨[⟨b_from, (s.block_locs b_from).loc, to_loc⟩], rfl, ?_⟩
      simp [hE]
    · rw [if_neg hE]
      by_cases hI : s.grid_blocks to_loc ≠ INVALID_BLOCK_ID
      · rw [if_pos hI]
        split
        · exact ⟨[], by simp, by simp⟩
        · refine ⟨[⟨b_from, (s.block_locs b_from).loc, to_loc⟩,
            ⟨s.grid_blocks to_loc, (s.block_locs (s.grid_blocks to_loc)).loc,
              (s.block_locs b_from).loc⟩], ?_, ?_⟩
          · simp [record_block_move]
          · simp [hE, hI]
      · rw [if_neg hI]
        exact ⟨[], by simp, by simp⟩

theorem swap_blocks_nodup {s : PlacementState} (hc : Consistent s) {imacro_from : Int}
    (swap_offset : t_pl_offset)
    (hdest : ∀ m ∈ macro_members s imacro_from,
      get_imacro_from_iblk (dest_occupant s swap_offset m) s.pl_macros = -1) :
    ((macro_members s imacro_from).flatMap (swap_blocks s swap_offset)).Nodup := by
  have hmac : ∀ m ∈ macro_members s imacro_from,
      get_imacro_from_iblk m.blk_index s.pl_macros ≠ -1 := by
    intro m hm
    obtain ⟨_, _, _, _, ha⟩ := macro_members_mem hm
    rw [member_lookup hc hm]
    omega
  have hne : ∀ m1 ∈ macro_members s imacro_from, ∀ m2 ∈ macro_members s imacro_from,
      m1.blk_index ≠ dest_occupant s swap_offset m2 := by
    intro m1 h1 m2 h2 heq
    have := hmac m1 h1
    rw [heq] at this
    exact this (hdest m2 h2)
  rw [List.nodup_flatMap]
  constructor
  · intro m hm
    unfold swap_blocks
    split
    · simp only [List.nodup_cons, List.mem_singleton, List.not_mem_nil, not_false_eq_true,
        List.nodup_nil, and_self, and_true]
      exact hne m hm m hm
    · simp
  · have hpw : (macro_members s imacro_from).Pairwise
        (fun a b => a.blk_index ≠ b.blk_index) := by
      have := macro_members_blk_nodup hc imacro_from
      rw [List.Nodup, List.pairwise_map] at this
      exact this
    refine hpw.imp_of_mem ?_
    intro a b ha hb hab
    have hocc : (dest_occupant s swap_offset a ≠ EMPTY_BLOCK_ID
        ∧ dest_occupant s swap_offset a ≠ INVALID_BLOCK_ID) →
        dest_occupant s swap_offset a ≠ dest_occupant s swap_offset b := by
      intro hreal heq
      have h1 := hc.grid_agrees ((s.block_locs a.blk_index).loc.add swap_offset) hreal.1 hreal.2
      have h2 := hc.grid_agrees ((s.block_locs b.blk_index).loc.add swap_offset)
        (by change dest_occupant s swap_offset b ≠ _; rw [← heq]; exact hreal.1)
        (by change dest_occupant s swap_offset b ≠ _; rw [← heq]; exact hreal.2)
      change (s.block_locs (dest_occupant s swap_offset a)).loc = _ at h1
      change (s.block_locs (dest_occupant s swap_offset b)).loc = _ at h2
      rw [heq, h2] at h1
      have hloc := t_pl_loc.add_injective swap_offset h1
      have g1 := member_home hc ha
      have g2 := member_home hc hb
      have hloc1 : (s.block_locs b.blk_index).loc = (s.block_locs a.blk_index).loc := hloc
      rw [hloc1, g1] at g2
      exact hab g2
    intro x hx1 hx2
    unfold swap_blocks at hx1 hx2
    rw [List.mem_cons] at hx1 hx2
    rcases hx1 with rfl | hx1 <;> rcases hx2 with h2 | hx2
    · exact hab h2
    · split at hx2
      · rw [List.mem_singleton] at hx2
        exact hne a ha b hb hx2
      · cases hx2
    · split at hx1
      · rw [List.mem_singleton] at hx1
        subst hx1
        exact hne b hb a ha h2.symm
      · cases hx1
    · split at hx1
      · rename_i hreal
        rw [List.mem_singleton] at hx1
        subst hx1
        split at hx2
        · rw [List.mem_singleton] at hx2
          exact hocc hreal hx2
        · cases hx2
      · cases hx1

theorem drop_of_get? {α : Type} {l : List α} {i : Nat} {x : α} (h : l.get? i = some x) :
    l.drop i = x :: l.drop (i + 1) := by
  have hlt := (List.get?_eq_some.mp h).1
  have hx := (List.get?_eq_some.mp h).2
  rw [List.drop_eq_getElem_cons hlt]
  congr 1

theorem record_macro_swaps_onto_singles (s : PlacementState) (imacro_from : Int)
    (swap_offset : t_pl_offset)
    (hdest : ∀ m ∈ macro_members s imacro_from,
      get_imacro_from_iblk (dest_occupant s swap_offset m) s.pl_macros = -1) :
    ∀ (fuel : Nat) (st : MoveCtx) (i : Nat) (res : e_block_move_result × MoveCtx × Int),
      record_macro_swaps s fuel st imacro_from (i : Int) swap_offset = Except.ok res →
      (res.1 = e_block_move_result.VALID ∨ res.1 = e_block_move_result.ABORT)
      ∧ ∃ X : List ClusterBlockId,
          res.2.1.moved_blocks.map (fun e => e.block_num)
            = st.moved_blocks.map (fun e => e.block_num) ++ X
          ∧ X.Sublist (((macro_members s imacro_from).drop i).flatMap
              (swap_blocks s swap_offset)) := by
  intro fuel
  induction fuel with
  | zero => intro st i res h; simp [record_macro_swaps] at h
  | succ fuel ih =>
    intro st i res h
    rw [record_macro_swaps] at h
    by_cases hlt : (i : Int) < ((macro_members s imacro_from).length : Int)
    · rw [if_pos hlt] at h
      cases hm : member_at (macro_members s imacro_from) (i : Int) with
      | none => simp only [hm] at h; cases h
      | some mem =>
        simp only [hm] at h
        have hget : (macro_members s imacro_from).get? i = some mem := by
          unfold member_at at hm
          simpa using hm
        have hmem : mem ∈ macro_members s imacro_from := List.get?_mem hget
        have hdrop := drop_of_get? hget
        by_cases hleg : is_legal_swap_to_location s mem.blk_index
            ((s.block_locs mem.blk_index).loc.add swap_offset) = false
        · rw [if_pos hleg] at h
          simp only [Except.ok.injEq] at h
          subst h
          exact ⟨Or.inr rfl, [], by simp [log_move_abort], List.nil_sublist _⟩
        · rw [if_neg hleg] at h
          have hocc := hdest mem hmem
          unfold dest_occupant at hocc
          simp only [hocc, ne_eq, not_true_eq_false, if_false] at h
          obtain ⟨E, hE1, hE2⟩ := record_single_block_swap_blocks s st mem.blk_index
            ((s.block_locs mem.blk_index).loc.add swap_offset)
          have hE3 : (E.map (fun e => e.block_num)).Sublist (swap_blocks s swap_offset mem) := hE2
          by_cases hv : (record_single_block_swap s st mem.blk_index
              ((s.block_locs mem.blk_index).loc.add swap_offset)).1 = e_block_move_result.VALID
          · rw [if_pos hv] at h
            have hcast : (i : Int) + 1 = ((i + 1 : Nat) : Int) := by push_cast; ring
            rw [hcast] at h
            obtain ⟨ho, X, hX1, hX2⟩ := ih _ _ _ h
            refine ⟨ho, E.map (fun e => e.block_num) ++ X, ?_, ?_⟩
            · rw [hX1, hE1, List.map_append, List.append_assoc]
            · rw [hdrop, List.flatMap_cons]
              exact hE3.append hX2
          · rw [if_neg hv] at h
            simp only [Except.ok.injEq] at h
            subst h
            refine ⟨?_, E.map (fun e => e.block_num), ?_, ?_⟩
            · rcases record_single_block_swap_valid_or_abort s st mem.blk_index
                ((s.block_locs mem.blk_index).loc.add swap_offset) with h1 | h1
              · exact absurd h1 hv
              · exact Or.inr h1
            · dsimp only
              rw [hE1, List.map_append]
            · rw [hdrop, List.flatMap_cons]
              exact List.sublist_append_of_sublist_left hE3
    · rw [if_neg hlt] at h
      simp only [Except.ok.injEq] at h
      subst h
      exact ⟨Or.inl rfl, [], by simp, List.nil_sublist _⟩

theorem s_tail_consistent : Consistent s_tail where
  lookup_agrees := by decide
  members_nodup := by decide
  members_placed := by decide
  grid_agrees := mk_state_grid_agrees _ _ _ _ _

theorem s_single_consistent : Consistent s_single where
  lookup_agrees := by decide
  members_nodup := by decide
  members_placed := by decide
  grid_agrees := mk_state_grid_agrees _ _ _ _ _

/-- C22 (evaluation at the failing inputs): `create_move` returns ABORT with an
empty abort-reason log when the fixed block 2 of `s_single` is moved (the abort
is decided in `record_single_block_swap`), and when the macro 0 of
`s_fixed_pair` is moved onto the macro 1 (the abort is decided by the first test
of the lock-step loop of `record_macro_macro_swaps`). -/
theorem create_move_abort_without_reason :
    (∀ fuel : Nat, create_move s_single fuel MoveCtx.empty 2 ⟨3, 0, 0⟩
        = Except.ok (e_create_move.ABORT, ⟨[], []⟩))
    ∧ (∀ fuel : Nat, create_move s_fixed_pair (fuel + 2) MoveCtx.empty 0 ⟨1, 0, 0⟩
        = Except.ok (e_create_move.ABORT, ⟨[], []⟩)) :=
  ⟨fun _ => rfl, fun _ => rfl⟩

/-- C28: for a non-fixed block and a destination inside the grid whose occupant
is the INVALID sentinel, `record_single_block_swap` returns VALID and leaves the
state as it was (no entry is appended), and `is_legal_swap_to_location` accepts
the destination whenever the sub-tile is compatible. Hence, when the macro
lookup reports no macro for the block and for the sentinel, `find_affected_blocks`
and `create_move` report VALID with the record untouched. -/
theorem record_single_block_swap_invalid_destination (s : PlacementState) (st : MoveCtx)
    (b_from : ClusterBlockId) (to_loc : t_pl_loc)
    (hgrid : in_grid s to_loc)
    (hfix : (s.block_locs b_from).is_fixed = false)
    (hinv : s.grid_blocks to_loc = INVALID_BLOCK_ID) :
    record_single_block_swap s st b_from to_loc = (e_block_move_result.VALID, st)
    ∧ is_legal_swap_to_location s b_from to_loc
        = s.is_sub_tile_compatible (s.get_physical_type to_loc.x to_loc.y) (s.block_type b_from)
            to_loc.sub_tile
    ∧ (get_imacro_from_iblk b_from s.pl_macros = -1 →
        get_imacro_from_iblk (s.grid_blocks to_loc) s.pl_macros = -1 →
        ∀ fuel : Nat,
          find_affected_blocks s fuel st b_from to_loc = Except.ok (e_block_move_result.VALID, st)
          ∧ create_move s fuel st b_from to_loc = Except.ok (e_create_move.VALID, st)) := by
  have h1 : record_single_block_swap s st b_from to_loc = (e_block_move_result.VALID, st) := by
    unfold record_single_block_swap
    have hne : INVALID_BLOCK_ID ≠ EMPTY_BLOCK_ID := by decide
    simp [hfix, hinv, hne]
  refine ⟨h1, ?_, fun hmac hto fuel => ?_⟩
  · obtain ⟨hx0, hx1, hy0, hy1, hs0, hs1⟩ := hgrid
    unfold is_legal_swap_to_location
    have hg : ¬ (to_loc.x < 0 ∨ to_loc.x ≥ (s.grid_width : Int) ∨ to_loc.y < 0
        ∨ to_loc.y ≥ (s.grid_height : Int)) := by omega
    rw [if_neg hg]
    dsimp only
    cases hcomp : s.is_sub_tile_compatible (s.get_physical_type to_loc.x to_loc.y)
        (s.block_type b_from) to_loc.sub_tile with
    | false => simp
    | true =>
      have hc : ¬ (to_loc.sub_tile < 0
          ∨ to_loc.sub_tile ≥ s.capacity (s.get_physical_type to_loc.x to_loc.y)
          ∨ true = false) := by
        intro h
        rcases h with h | h | h
        · omega
        · omega
        · cases h
      rw [if_neg hc, hinv]
      simp
  · have h2 : find_affected_blocks s fuel st b_from to_loc
        = Except.ok (e_block_move_result.VALID, st) := by
      unfold find_affected_blocks
      simp only [hmac, hto, ne_eq, not_true_eq_false, if_false, h1]
    refine ⟨h2, ?_⟩
    unfold create_move create_move_with
    rw [h2]
    rfl

/-- Witness of C28 on `s_blocked`: block 0 moved to the site (2,0,0), a site of
the grid that holds the INVALID sentinel. -/
theorem record_single_block_swap_invalid_destination_witness :
    in_grid s_blocked ⟨2, 0, 0⟩
    ∧ s_blocked.grid_blocks ⟨2, 0, 0⟩ = INVALID_BLOCK_ID
    ∧ record_single_block_swap s_blocked MoveCtx.empty 0 ⟨2, 0, 0⟩
        = (e_block_move_result.VALID, MoveCtx.empty)
    ∧ is_legal_swap_to_location s_blocked 0 ⟨2, 0, 0⟩ = true
    ∧ (∀ fuel : Nat,
        find_affected_blocks s_blocked fuel MoveCtx.empty 0 ⟨2, 0, 0⟩
          = Except.ok (e_block_move_result.VALID, MoveCtx.empty)
        ∧ create_move s_blocked fuel MoveCtx.empty 0 ⟨2, 0, 0⟩
          = Except.ok (e_create_move.VALID, MoveCtx.empty)) :=
  ⟨by unfold in_grid; decide, by decide,
    (record_single_block_swap_invalid_destination s_blocked MoveCtx.empty 0 ⟨2, 0, 0⟩
      (by unfold in_grid; decide) (by decide) (by decide)).1,
    by decide,
    (record_single_block_swap_invalid_destination s_blocked MoveCtx.empty 0 ⟨2, 0, 0⟩
      (by unfold in_grid; decide) (by decide) (by decide)).2.2 (by decide) (by decide)⟩

/-- C29: `determine_locations_emptied_by_move` returns, without repetition, the
locations that are the old location of at least one entry of the record and the
new location of no entry. The function only reads the record. -/
theorem determine_locations_emptied_by_move_spec (st : MoveCtx) :
    (∀ x : t_pl_loc, x ∈ determine_locations_emptied_by_move st
      ↔ ((∃ e ∈ st.moved_blocks, e.old_loc = x) ∧ ¬ ∃ e ∈ st.moved_blocks, e.new_loc = x))
    ∧ (determine_locations_emptied_by_move st).Nodup := by
  refine ⟨fun x => ?_, determine_locations_emptied_by_move_nodup st⟩
  rw [mem_determine_locations_emptied_by_move]
  simp only [List.mem_map]

/-- C24 (evaluation at the failing input): on the consistent state `s_stacked`,
from the empty record, `create_move` of block 0 to (0,3,0), a site held by block
3, returns VALID, and the record has no entry (0, (0,2,0), (0,3,0)): block 0 is
sent to (0,1,0). -/
theorem create_move_valid_without_requested_entry :
    s_stacked.grid_blocks ⟨0, 3, 0⟩ = 3
    ∧ create_move s_stacked 9 MoveCtx.empty 0 ⟨0, 3, 0⟩
        = Except.ok (e_create_move.VALID,
            ⟨[⟨2, ⟨0, 4, 0⟩, ⟨0, 3, 0⟩⟩, ⟨3, ⟨0, 3, 0⟩, ⟨0, 2, 0⟩⟩,
              ⟨0, ⟨0, 2, 0⟩, ⟨0, 1, 0⟩⟩, ⟨1, ⟨0, 1, 0⟩, ⟨0, 0, 0⟩⟩], []⟩)
    ∧ (⟨0, (s_stacked.block_locs 0).loc, ⟨0, 3, 0⟩⟩ : t_pl_moved_block)
        ∉ [(⟨2, ⟨0, 4, 0⟩, ⟨0, 3, 0⟩⟩ : t_pl_moved_block), ⟨3, ⟨0, 3, 0⟩, ⟨0, 2, 0⟩⟩,
              ⟨0, ⟨0, 2, 0⟩, ⟨0, 1, 0⟩⟩, ⟨1, ⟨0, 1, 0⟩, ⟨0, 0, 0⟩⟩] :=
  ⟨by decide, rfl, by decide⟩

/-! ## Termination of the engine -/

/-- On `s_cross` the four calls of the cycle macro 0 onto macro 1 onto macro 0
run out of fuel whatever the fuel: each one reaches the next with the record
unchanged. -/
theorem s_cross_cycle_out_of_fuel : ∀ fuel : Nat,
    record_macro_swaps s_cross fuel MoveCtx.empty 0 0 ⟨1, 0, 0⟩
        = Except.error Fault.out_of_fuel
    ∧ record_macro_macro_swaps s_cross fuel MoveCtx.empty 0 0 1 3 ⟨1, 0, 0⟩
        = Except.error Fault.out_of_fuel
    ∧ record_macro_swaps s_cross fuel MoveCtx.empty 1 0 ⟨-1, 0, 0⟩
        = Except.error Fault.out_of_fuel
    ∧ record_macro_macro_swaps s_cross fuel MoveCtx.empty 1 0 0 1 ⟨-1, 0, 0⟩
        = Except.error Fault.out_of_fuel
  | 0 => ⟨rfl, rfl, rfl, rfl⟩
  | fuel + 1 => by
    obtain ⟨h1, h2, h3, h4⟩ := s_cross_cycle_out_of_fuel fuel
    have e1 : record_macro_swaps s_cross (fuel + 1) MoveCtx.empty 0 0 ⟨1, 0, 0⟩
        = (match record_macro_macro_swaps s_cross fuel MoveCtx.empty 0 0 1 3 ⟨1, 0, 0⟩ with
          | Except.error e => Except.error e
          | Except.ok (outcome, st1, imember1) =>
            if outcome = e_block_move_result.INVERT_VALID then
              Except.ok (outcome, st1, imember1)
            else if outcome = e_block_move_result.VALID then
              record_macro_swaps s_cross fuel st1 0 (imember1 - 1 + 1) ⟨1, 0, 0⟩
            else
              Except.ok (outcome, st1, imember1 - 1 + 1)) := by
      rw [record_macro_swaps]
      rfl
    have e2 : record_macro_macro_swaps s_cross (fuel + 1) MoveCtx.empty 0 0 1 3 ⟨1, 0, 0⟩
        = (match record_macro_swaps s_cross fuel MoveCtx.empty 1 0 ⟨-1, 0, 0⟩ with
          | Except.error e => Except.error e
          | Except.ok (outcome, st1, _) =>
            if outcome = e_block_move_result.INVERT then
              Except.ok (e_block_move_result.ABORT, log_move_abort st1 "invert recursion2", 0)
            else if outcome = e_block_move_result.VALID then
              Except.ok (e_block_move_result.INVERT_VALID, st1, 0)
            else
              Except.ok (outcome, st1, 0)) := by
      rw [record_macro_macro_swaps]
      rfl
    have e3 : record_macro_swaps s_cross (fuel + 1) MoveCtx.empty 1 0 ⟨-1, 0, 0⟩
        = (match record_macro_macro_swaps s_cross fuel MoveCtx.empty 1 0 0 1 ⟨-1, 0, 0⟩ with
          | Except.error e => Except.error e
          | Except.ok (outcome, st1, imember1) =>
            if outcome = e_block_move_result.INVERT_VALID then
              Except.ok (outcome, st1, imember1)
            else if outcome = e_block_move_result.VALID then
              record_macro_swaps s_cross fuel st1 1 (imember1 - 1 + 1) ⟨-1, 0, 0⟩
            else
              Except.ok (outcome, st1, imember1 - 1 + 1)) := by
      rw [record_macro_swaps]
      rfl
    have e4 : record_macro_macro_swaps s_cross (fuel + 1) MoveCtx.empty 1 0 0 1 ⟨-1, 0, 0⟩
        = (match record_macro_swaps s_cross fuel MoveCtx.empty 0 0 ⟨1, 0, 0⟩ with
          | Except.error e => Except.error e
          | Except.ok (outcome, st1, _) =>
            if outcome = e_block_move_result.INVERT then
              Except.ok (e_block_move_result.ABORT, log_move_abort st1 "invert recursion2", 0)
            else if outcome = e_block_move_result.VALID then
              Except.ok (e_block_move_result.INVERT_VALID, st1, 0)
            else
              Except.ok (outcome, st1, 0)) := by
      rw [record_macro_macro_swaps]
      rfl
    rw [e1, e2, e3, e4, h1, h2, h3, h4]
    exact ⟨rfl, rfl, rfl, rfl⟩

end MoveUtils

namespace MoveUtils

theorem s_cross_consistent : Consistent s_cross where
  lookup_agrees := by decide
  members_nodup := by decide
  members_placed := by decide
  grid_agrees := mk_state_grid_agrees _ _ _ _ _

/-- C23 (evaluation at the failing input): on the consistent state `s_cross`
(two macros of two members, one built upwards and one built downwards),
`find_affected_blocks` and `create_move` of block 0 to (1,0,0) return for no
amount of fuel: the first member of each macro lands on the second member of the
other one, and each inversion starts the other macro again from its first member
with the record unchanged. -/
theorem create_move_macro_cycle_diverges :
    Consistent s_cross
    ∧ (¬ ∃ (fuel : Nat) (r : e_block_move_result × MoveCtx),
        find_affected_blocks s_cross fuel MoveCtx.empty 0 ⟨1, 0, 0⟩ = Except.ok r)
    ∧ (¬ ∃ (fuel : Nat) (r : e_create_move × MoveCtx),
        create_move s_cross fuel MoveCtx.empty 0 ⟨1, 0, 0⟩ = Except.ok r) := by
  have hfab : ∀ fuel : Nat, find_affected_blocks s_cross fuel MoveCtx.empty 0 ⟨1, 0, 0⟩
      = Except.error Fault.out_of_fuel := by
    intro fuel
    have e : find_affected_blocks s_cross fuel MoveCtx.empty 0 ⟨1, 0, 0⟩
        = (match record_macro_swaps s_cross fuel MoveCtx.empty 0 0 ⟨1, 0, 0⟩ with
          | Except.error e => Except.error e
          | Except.ok (outcome, st1, _) => Except.ok (outcome, st1)) := rfl
    rw [e, (s_cross_cycle_out_of_fuel fuel).1]
  refine ⟨s_cross_consistent, ?_, ?_⟩
  · rintro ⟨fuel, r, h⟩
    rw [hfab fuel] at h
    cases h
  · rintro ⟨fuel, r, h⟩
    unfold create_move create_move_with at h
    rw [hfab fuel] at h
    cases h

/-! ## The outcomes of the macro paths -/

theorem identify_loop_outcome (s : PlacementState) (swap_offset : t_pl_offset) :
    ∀ (fuel : Nat) (st : MoveCtx) (macros : List Int) (a : Int) (i : Nat)
      (o : e_block_move_result) (st1 : MoveCtx) (macros1 : List Int),
      identify_loop s swap_offset fuel st macros a i = Except.ok (o, st1, macros1) →
      o = e_block_move_result.VALID ∨ o = e_block_move_result.ABORT := by
  intro fuel
  induction fuel with
  | zero => intro st macros a i o st1 macros1 h; simp [identify_loop] at h
  | succ fuel ih =>
    intro st macros a i o st1 macros1 h
    unfold identify_loop at h
    split at h
    · simp only [Except.ok.injEq, Prod.mk.injEq] at h
      exact Or.inl h.1.symm
    · dsimp only at h
      split at h
      · simp only [Except.ok.injEq, Prod.mk.injEq] at h
        exact Or.inr h.1.symm
      · split at h
        · split at h
          · cases h
          · split at h
            · exact ih _ _ _ _ _ _ _ h
            · simp only [Except.ok.injEq, Prod.mk.injEq] at h
              exact Or.inl h.1.symm
        · exact ih _ _ _ _ _ _ _ h

theorem record_macro_move_loop_outcome (s : PlacementState) (a : Int)
    (swap_offset : t_pl_offset) :
    ∀ (ms : List t_pl_macro_member) (st : MoveCtx) (disp : List ClusterBlockId),
      (record_macro_move_loop s a swap_offset ms st disp).1 = e_block_move_result.VALID
      ∨ (record_macro_move_loop s a swap_offset ms st disp).1 = e_block_move_result.ABORT := by
  intro ms
  induction ms with
  | nil => intro st disp; exact Or.inl rfl
  | cons m rest ih =>
    intro st disp
    unfold record_macro_move_loop
    dsimp only
    split
    · exact Or.inr rfl
    · exact ih _ _

theorem move_affected_macros_outcome (s : PlacementState) (swap_offset : t_pl_offset) :
    ∀ (A : List Int) (st : MoveCtx) (disp : List ClusterBlockId),
      (move_affected_macros s swap_offset A st disp).1 = e_block_move_result.VALID
      ∨ (move_affected_macros s swap_offset A st disp).1 = e_block_move_result.ABORT := by
  intro A
  induction A with
  | nil => intro st disp; exact Or.inl rfl
  | cons a rest ih =>
    intro st disp
    unfold move_affected_macros
    dsimp only
    split
    · exact record_macro_move_loop_outcome s a swap_offset _ _ _
    · exact ih _ _

theorem reseat_displaced_outcome (s : PlacementState) :
    ∀ (nm : List ClusterBlockId) (locs : List t_pl_loc) (r res : e_block_move_result × MoveCtx),
      reseat_displaced s nm locs r = Except.ok res → r.1 = e_block_move_result.VALID →
      res.1 = e_block_move_result.VALID := by
  intro nm
  induction nm with
  | nil =>
    intro locs r res h hv
    unfold reseat_displaced at h
    simp only [Except.ok.injEq] at h
    rw [← h]
    exact hv
  | cons b rest ih =>
    intro locs r res h hv
    cases locs with
    | nil => unfold reseat_displaced at h; cases h
    | cons l ls =>
      unfold reseat_displaced at h
      exact ih _ _ _ h (record_block_move_fst _ _ _ _)

theorem record_macro_self_swaps_outcome (s : PlacementState) (fuel : Nat) (st : MoveCtx)
    (imacro_cur : Int) (swap_offset : t_pl_offset) (o : e_block_move_result) (st1 : MoveCtx)
    (h : record_macro_self_swaps s fuel st imacro_cur swap_offset = Except.ok (o, st1)) :
    o = e_block_move_result.VALID ∨ o = e_block_move_result.ABORT := by
  unfold record_macro_self_swaps identify_macro_self_swap_affected_macros at h
  dsimp only at h
  cases hid : identify_loop s swap_offset fuel (clear_move_blocks st) [] imacro_cur 0 with
  | error e => simp only [hid] at h; cases h
  | ok r =>
    obtain ⟨o1, st2, macros⟩ := r
    simp only [hid] at h
    have ho1 := identify_loop_outcome s swap_offset _ _ _ _ _ _ _ _ hid
    by_cases hv : o1 ≠ e_block_move_result.VALID
    · rw [if_pos hv] at h
      simp only [Except.ok.injEq, Prod.mk.injEq] at h
      rw [← h.1]
      exact ho1
    · rw [if_neg hv] at h
      by_cases hm : (move_affected_macros s swap_offset (std_unique macros) st2 []).1
          ≠ e_block_move_result.VALID
      · rw [if_pos hm] at h
        simp only [Except.ok.injEq, Prod.mk.injEq] at h
        rw [← h.1]
        exact move_affected_macros_outcome s swap_offset _ _ _
      · rw [if_neg hm] at h
        exact Or.inl (reseat_displaced_outcome s _ _ _ _ h (not_not.mp hm))

theorem lock_step_loop_returned (s : PlacementState) (from_members : List t_pl_macro_member)
    (fto swap_offset : t_pl_offset) :
    ∀ (ts : List t_pl_macro_member) (st : MoveCtx) (j jt : Int) (o : e_block_move_result)
      (st1 : MoveCtx) (i1 : Int),
      lock_step_loop s from_members fto swap_offset ts st j jt = LockStep.returned o st1 i1 →
      o = e_block_move_result.ABORT := by
  intro ts
  induction ts with
  | nil => intro st j jt o st1 i1 h; unfold lock_step_loop at h; cases h
  | cons t rest ih =>
    intro st j jt o st1 i1 h
    unfold lock_step_loop at h
    by_cases hlt : j < (from_members.length : Int)
    · rw [if_pos hlt] at h
      cases hm : member_at from_members j with
      | none => simp only [hm] at h; cases h
      | some mf =>
        simp only [hm] at h
        split at h
        · cases h; rfl
        · split at h
          · cases h; rfl
          · split at h
            · cases h; rfl
            · split at h
              · rename_i hv
                simp only [LockStep.returned.injEq] at h
                rw [← h.1]
                rcases record_single_block_swap_valid_or_abort s st mf.blk_index
                  ((s.block_locs mf.blk_index).loc.add swap_offset) with h1 | h1
                · exact absurd h1 hv
                · exact h1
              · exact ih _ _ _ _ _ _ h
    · rw [if_neg hlt] at h
      cases h

theorem macro_swaps_not_invert (s : PlacementState) :
    ∀ (fuel : Nat),
      (∀ (st : MoveCtx) (imacro_from imember_from : Int) (swap_offset : t_pl_offset)
          (res : e_block_move_result × MoveCtx × Int),
          record_macro_swaps s fuel st imacro_from imember_from swap_offset = Except.ok res →
          res.1 ≠ e_block_move_result.INVERT)
      ∧ (∀ (st : MoveCtx) (imacro_from imember_from imacro_to : Int) (blk_to : ClusterBlockId)
          (swap_offset : t_pl_offset) (res : e_block_move_result × MoveCtx × Int),
          record_macro_macro_swaps s fuel st imacro_from imember_from imacro_to blk_to swap_offset
            = Except.ok res →
          res.1 ≠ e_block_move_result.INVERT) := by
  intro fuel
  induction fuel with
  | zero =>
    refine ⟨?_, ?_⟩
    · intro st imf im off res h; simp [record_macro_swaps] at h
    · intro st imf im imt bt off res h; simp [record_macro_macro_swaps] at h
  | succ fuel ih =>
    obtain ⟨ih1, ih2⟩ := ih
    refine ⟨?_, ?_⟩
    · intro st imf im off res h
      rw [record_macro_swaps] at h
      by_cases hlt : im < ((macro_members s imf).length : Int)
      · rw [if_pos hlt] at h
        cases hm : member_at (macro_members s imf) im with
        | none => simp only [hm] at h; cases h
        | some mem =>
          simp only [hm] at h
          by_cases hleg : is_legal_swap_to_location s mem.blk_index
              ((s.block_locs mem.blk_index).loc.add off) = false
          · rw [if_pos hleg] at h
            simp only [Except.ok.injEq] at h
            subst h
            exact fun hc => by cases hc
          · rw [if_neg hleg] at h
            by_cases hto : get_imacro_from_iblk
                (s.grid_blocks ((s.block_locs mem.blk_index).loc.add off)) s.pl_macros ≠ -1
            · rw [if_pos hto] at h
              by_cases hself : imf = get_imacro_from_iblk
                  (s.grid_blocks ((s.block_locs mem.blk_index).loc.add off)) s.pl_macros
              · rw [if_pos hself] at h
                cases hs : record_macro_self_swaps s fuel st imf off with
                | error e => simp only [hs] at h; cases h
                | ok r =>
                  obtain ⟨o, st1⟩ := r
                  simp only [hs, Except.ok.injEq] at h
                  subst h
                  rcases record_macro_self_swaps_outcome s fuel st imf off o st1 hs with h1 | h1
                  · rw [h1]; exact fun hc => by cases hc
                  · rw [h1]; exact fun hc => by cases hc
              · rw [if_neg hself] at h
                cases hr : record_macro_macro_swaps s fuel st imf im
                    (get_imacro_from_iblk
                      (s.grid_blocks ((s.block_locs mem.blk_index).loc.add off)) s.pl_macros)
                    (s.grid_blocks ((s.block_locs mem.blk_index).loc.add off)) off with
                | error e => simp only [hr] at h; cases h
                | ok r =>
                  obtain ⟨o, st1, c⟩ := r
                  simp only [hr] at h
                  have ho := ih2 _ _ _ _ _ _ _ hr
                  by_cases h1 : o = e_block_move_result.INVERT_VALID
                  · rw [if_pos h1] at h
                    simp only [Except.ok.injEq] at h
                    subst h
                    exact ho
                  · rw [if_neg h1] at h
                    by_cases h2 : o = e_block_move_result.VALID
                    · rw [if_pos h2] at h
                      exact ih1 _ _ _ _ _ h
                    · rw [if_neg h2] at h
                      simp only [Except.ok.injEq] at h
                      subst h
                      exact ho
            · rw [if_neg hto] at h
              by_cases hv : (record_single_block_swap s st mem.blk_index
                  ((s.block_locs mem.blk_index).loc.add off)).1 = e_block_move_result.VALID
              · rw [if_pos hv] at h
                exact ih1 _ _ _ _ _ h
              · rw [if_neg hv] at h
                simp only [Except.ok.injEq] at h
                subst h
                rcases record_single_block_swap_valid_or_abort s st mem.blk_index
                  ((s.block_locs mem.blk_index).loc.add off) with h1 | h1
                · exact absurd h1 hv
                · dsimp only
                  rw [h1]
                  exact fun hc => by cases hc
      · rw [if_neg hlt] at h
        simp only [Except.ok.injEq] at h
        subst h
        exact fun hc => by cases hc
    · intro st imf im imt bt off res h
      rw [record_macro_macro_swaps] at h
      cases hf : member_at (macro_members s imt) 0 with
      | none => simp only [hf] at h; cases h
      | some first_to =>
        simp only [hf] at h
        by_cases hne : first_to.blk_index ≠ bt
        · rw [if_pos hne] at h
          cases hr : record_macro_swaps s fuel st imt 0 off.neg with
          | error e => simp only [hr] at h; cases h
          | ok r =>
            obtain ⟨o, st1, c⟩ := r
            simp only [hr] at h
            have ho := ih1 _ _ _ _ _ hr
            rw [if_neg ho] at h
            by_cases h2 : o = e_block_move_result.VALID
            · rw [if_pos h2] at h
              simp only [Except.ok.injEq] at h
              subst h
              exact fun hc => by cases hc
            · rw [if_neg h2] at h
              simp only [Except.ok.injEq] at h
              subst h
              exact ho
        · rw [if_neg hne] at h
          cases hm : member_at (macro_members s imf) im with
          | none => simp only [hm] at h; cases h
          | some from_first =>
            simp only [hm] at h
            cases hl : lock_step_loop s (macro_members s imf) from_first.offset off
                (macro_members s imt) st im 0 with
            | fault => simp only [hl] at h; cases h
            | returned o st1 i1 =>
              simp only [hl, Except.ok.injEq] at h
              subst h
              rw [lock_step_loop_returned s _ _ _ _ _ _ _ _ _ _ hl]
              exact fun hc => by cases hc
            | finished st1 i1 it =>
              simp only [hl] at h
              by_cases hlt : it < ((macro_members s imt).length : Int)
              · rw [if_pos hlt] at h
                cases hr : record_macro_swaps s fuel st1 imt it off.neg with
                | error e => simp only [hr] at h; cases h
                | ok r =>
                  obtain ⟨o, st2, c⟩ := r
                  simp only [hr, Except.ok.injEq] at h
                  subst h
                  exact ih1 _ _ _ _ (o, st2, c) hr
              · rw [if_neg hlt] at h
                simp only [Except.ok.injEq] at h
                subst h
                exact fun hc => by cases hc

/-- C26: whenever they return, `record_macro_swaps` and
`record_macro_macro_swaps` return VALID, INVERT_VALID or ABORT, never INVERT (so
the test for INVERT in `record_macro_macro_swaps` always fails). When
`find_affected_blocks` returns INVERT, the block moved is in no macro, the
occupant of the destination is in a macro and the state is as it was; the retry
of `create_move`, the call for that occupant and the location of the block,
then never returns INVERT. -/
theorem record_macro_swaps_never_invert (s : PlacementState) (fuel : Nat) (st : MoveCtx) :
    (∀ (imacro_from imember_from : Int) (swap_offset : t_pl_offset)
        (res : e_block_move_result × MoveCtx × Int),
        record_macro_swaps s fuel st imacro_from imember_from swap_offset = Except.ok res →
        res.1 = e_block_move_result.VALID ∨ res.1 = e_block_move_result.INVERT_VALID
          ∨ res.1 = e_block_move_result.ABORT)
    ∧ (∀ (imacro_from imember_from imacro_to : Int) (blk_to : ClusterBlockId)
        (swap_offset : t_pl_offset) (res : e_block_move_result × MoveCtx × Int),
        record_macro_macro_swaps s fuel st imacro_from imember_from imacro_to blk_to swap_offset
          = Except.ok res →
        res.1 = e_block_move_result.VALID ∨ res.1 = e_block_move_result.INVERT_VALID
          ∨ res.1 = e_block_move_result.ABORT)
    ∧ (∀ (b_from : ClusterBlockId) (to_loc : t_pl_loc) (st1 : MoveCtx),
        find_affected_blocks s fuel st b_from to_loc
          = Except.ok (e_block_move_result.INVERT, st1) →
        (get_imacro_from_iblk b_from s.pl_macros = -1
          ∧ get_imacro_from_iblk (s.grid_blocks to_loc) s.pl_macros ≠ -1
          ∧ st1 = st)
        ∧ ∀ (fuel2 : Nat) (r : e_block_move_result × MoveCtx),
            find_affected_blocks s fuel2 st1 (s.grid_blocks to_loc) (s.block_locs b_from).loc
              = Except.ok r →
            r.1 ≠ e_block_move_result.INVERT) := by
  have three : ∀ o : e_block_move_result, o ≠ e_block_move_result.INVERT →
      o = e_block_move_result.VALID ∨ o = e_block_move_result.INVERT_VALID
        ∨ o = e_block_move_result.ABORT := by
    intro o ho
    cases o with
    | VALID => exact Or.inl rfl
    | ABORT => exact Or.inr (Or.inr rfl)
    | INVERT => exact absurd rfl ho
    | INVERT_VALID => exact Or.inr (Or.inl rfl)
  have fab_of_member : ∀ (fuel2 : Nat) (st2 : MoveCtx) (b : ClusterBlockId) (l : t_pl_loc)
      (r : e_block_move_result × MoveCtx),
      get_imacro_from_iblk b s.pl_macros ≠ -1 →
      find_affected_blocks s fuel2 st2 b l = Except.ok r → r.1 ≠ e_block_move_result.INVERT := by
    intro fuel2 st2 b l r hb h
    unfold find_affected_blocks at h
    dsimp only at h
    rw [if_pos hb] at h
    cases hr : record_macro_swaps s fuel2 st2 (get_imacro_from_iblk b s.pl_macros) 0
        (l.sub (s.block_locs b).loc) with
    | error e => simp only [hr] at h; cases h
    | ok r1 =>
      obtain ⟨o, st3, c⟩ := r1
      simp only [hr, Except.ok.injEq] at h
      subst h
      exact (macro_swaps_not_invert s fuel2).1 _ _ _ _ (o, st3, c) hr
  refine ⟨?_, ?_, ?_⟩
  · intro imf im off res h
    exact three _ ((macro_swaps_not_invert s fuel).1 _ _ _ _ _ h)
  · intro imf im imt bt off res h
    exact three _ ((macro_swaps_not_invert s fuel).2 _ _ _ _ _ _ _ h)
  · intro b_from to_loc st1 h
    by_cases hb : get_imacro_from_iblk b_from s.pl_macros ≠ -1
    · exact absurd rfl (fab_of_member fuel st b_from to_loc _ hb h)
    · have hb1 : get_imacro_from_iblk b_from s.pl_macros = -1 := not_not.mp hb
      unfold find_affected_blocks at h
      dsimp only at h
      rw [if_neg hb] at h
      by_cases hto : get_imacro_from_iblk (s.grid_blocks to_loc) s.pl_macros ≠ -1
      · rw [if_pos hto] at h
        simp only [Except.ok.injEq, Prod.mk.injEq, true_and] at h
        subst h
        exact ⟨⟨hb1, hto, rfl⟩, fun fuel2 r hr => fab_of_member fuel2 _ _ _ r hto hr⟩
      · rw [if_neg hto] at h
        simp only [Except.ok.injEq] at h
        have h1 := congrArg Prod.fst h
        rcases record_single_block_swap_valid_or_abort s st b_from to_loc with h2 | h2
        · rw [h2] at h1; cases h1
        · rw [h2] at h1; cases h1

/-- Witness of C26 on `s_invert`: block 0, in no macro, moved onto block 1, the
first member of the macro: `find_affected_blocks` returns INVERT. -/
theorem record_macro_swaps_never_invert_witness :
    find_affected_blocks s_invert 5 MoveCtx.empty 0 ⟨1, 0, 0⟩
        = Except.ok (e_block_move_result.INVERT, MoveCtx.empty)
    ∧ (get_imacro_from_iblk 0 s_invert.pl_macros = -1
      ∧ get_imacro_from_iblk (s_invert.grid_blocks ⟨1, 0, 0⟩) s_invert.pl_macros ≠ -1
      ∧ MoveCtx.empty = MoveCtx.empty) :=
  ⟨rfl, ((record_macro_swaps_never_invert s_invert 5 MoveCtx.empty).2.2 0 ⟨1, 0, 0⟩
    MoveCtx.empty rfl).1⟩

/-! ## The member cursor of record_macro_swaps -/

theorem find_imacro_has_block (blk : ClusterBlockId) :
    ∀ (macros : List t_pl_macro) (i : Int), find_imacro blk macros i ≠ -1 → 0 ≤ i →
      i ≤ find_imacro blk macros i
      ∧ ∃ m, macros.get? ( find_imacro blk macros i - i).toNat = some m
          ∧ macro_has_block blk m = true := by
  intro macros
  induction macros with
  | nil => intro i h _; exact absurd rfl h
  | cons m ms ih =>
    intro i h h0
    unfold find_imacro at h ⊢
    by_cases hb : macro_has_block blk m = true
    · rw [if_pos hb]
      exact ⟨le_refl _, m, by simp, hb⟩
    · rw [if_neg hb] at h ⊢
      obtain ⟨hle, m1, hget, hm1⟩ := ih (i + 1) h (by omega)
      refine ⟨by omega, m1, ?_, hm1⟩
      have e : ( find_imacro blk ms (i + 1) - i).toNat
          = ( find_imacro blk ms (i + 1) - (i + 1)).toNat + 1 := by omega
      rw [e]
      simpa using hget

theorem macro_members_ne_nil_of_lookup (s : PlacementState) (blk : ClusterBlockId)
    (h : get_imacro_from_iblk blk s.pl_macros ≠ -1) :
    macro_members s (get_imacro_from_iblk blk s.pl_macros) ≠ [] := by
  have h0 := get_imacro_from_iblk_nonneg h
  unfold get_imacro_from_iblk at h ⊢
  rw [if_pos h0] at h ⊢
  obtain ⟨hle, m, hget, hm⟩ := find_imacro_has_block blk s.pl_macros 0 h (le_refl _)
  unfold macro_members
  rw [if_pos hle]
  rw [Int.sub_zero] at hget
  have e : s.pl_macros.getD ( find_imacro blk s.pl_macros 0).toNat ⟨[]⟩ = m := by
    rw [List.getD_eq_getElem?_getD, ← List.get?_eq_getElem?, hget]
    rfl
  rw [e]
  intro hnil
  unfold macro_has_block at hm
  rw [hnil] at hm
  cases hm

theorem identify_loop_not_out_of_bounds (s : PlacementState) (swap_offset : t_pl_offset) :
    ∀ (fuel : Nat) (st : MoveCtx) (macros : List Int) (a : Int) (i : Nat),
      identify_loop s swap_offset fuel st macros a i ≠ Except.error Fault.out_of_bounds := by
  intro fuel
  induction fuel with
  | zero => intro st macros a i h; simp [identify_loop] at h
  | succ fuel ih =>
    intro st macros a i h
    unfold identify_loop at h
    split at h
    · cases h
    · dsimp only at h
      split at h
      · cases h
      · split at h
        · split at h
          · rename_i e hrec
            cases h
            exact ih _ _ _ _ hrec
          · split at h
            · exact ih _ _ _ _ h
            · cases h
        · exact ih _ _ _ _ h

theorem record_macro_self_swaps_not_out_of_bounds {s : PlacementState} (hc : Consistent s)
    (fuel : Nat) (st : MoveCtx) (imacro_cur : Int) (swap_offset : t_pl_offset) :
    record_macro_self_swaps s fuel st imacro_cur swap_offset
      ≠ Except.error Fault.out_of_bounds := by
  intro h
  cases hid : identify_macro_self_swap_affected_macros s fuel (clear_move_blocks st) []
      imacro_cur swap_offset with
  | error e =>
    unfold record_macro_self_swaps at h
    simp only [hid] at h
    cases h
    exact identify_loop_not_out_of_bounds s swap_offset _ _ _ _ _ hid
  | ok r =>
    obtain ⟨o, st1, macros⟩ := r
    by_cases hv : o = e_block_move_result.VALID
    · subst hv
      by_cases hmv : (move_affected_macros s swap_offset (std_unique macros) st1 []).1
          = e_block_move_result.VALID
      · obtain ⟨hnd, hE, hD⟩ := self_swap_after_moves hid hmv
        have hle := displaced_le_vacated hc hnd swap_offset st1.f_move_abort_reasons
        obtain ⟨o1, h1, _⟩ := reseat_displaced_ok s _ _ e_block_move_result.VALID
          (⟨(affected_members s (std_unique macros)).map (member_entry s swap_offset),
            st1.f_move_abort_reasons⟩ : MoveCtx) hle
        unfold record_macro_self_swaps at h
        simp only [hid, ne_eq, not_true_eq_false, if_false, hmv, hE, hD, h1] at h
        cases h
      · unfold record_macro_self_swaps at h
        simp only [hid, ne_eq, not_true_eq_false, if_false, hmv, not_false_eq_true,
          if_true] at h
        cases h
    · unfold record_macro_self_swaps at h
      simp only [hid, ne_eq, hv, not_false_eq_true, if_true] at h
      cases h

theorem lock_step_loop_cursor (s : PlacementState) (from_members : List t_pl_macro_member)
    (fto swap_offset : t_pl_offset) :
    ∀ (ts : List t_pl_macro_member) (st : MoveCtx) (j jt : Int), 0 ≤ j → 0 ≤ jt →
      j ≤ (from_members.length : Int) →
      lock_step_loop s from_members fto swap_offset ts st j jt ≠ LockStep.fault
      ∧ ∀ (st1 : MoveCtx) (i1 it : Int),
          lock_step_loop s from_members fto swap_offset ts st j jt
            = LockStep.finished st1 i1 it →
          0 ≤ i1 ∧ i1 ≤ (from_members.length : Int) ∧ 0 ≤ it := by
  intro ts
  induction ts with
  | nil =>
    intro st j jt h0 ht hle
    unfold lock_step_loop
    refine ⟨fun h => (by cases h), fun st1 i1 it h => ?_⟩
    simp only [LockStep.finished.injEq] at h
    obtain ⟨_, rfl, rfl⟩ := h
    exact ⟨h0, hle, ht⟩
  | cons t rest ih =>
    intro st j jt h0 ht hle
    unfold lock_step_loop
    by_cases hlt : j < (from_members.length : Int)
    · rw [if_pos hlt]
      obtain ⟨mf, hm⟩ := member_at_of_lt h0 hlt
      simp only [hm]
      split
      · exact ⟨fun h => (by cases h), fun st1 i1 it h => by cases h⟩
      · split
        · exact ⟨fun h => (by cases h), fun st1 i1 it h => by cases h⟩
        · split
          · exact ⟨fun h => (by cases h), fun st1 i1 it h => by cases h⟩
          · split
            · exact ⟨fun h => (by cases h), fun st1 i1 it h => by cases h⟩
            · exact ih _ _ _ (by omega) (by omega) (by omega)
    · rw [if_neg hlt]
      refine ⟨fun h => (by cases h), fun st1 i1 it h => ?_⟩
      simp only [LockStep.finished.injEq] at h
      obtain ⟨_, rfl, rfl⟩ := h
      exact ⟨h0, hle, ht⟩

theorem macro_swaps_cursor {s : PlacementState} (hc : Consistent s) :
    ∀ (fuel : Nat),
      (∀ (st : MoveCtx) (imf im : Int) (off : t_pl_offset)
          (res : Except Fault (e_block_move_result × MoveCtx × Int)),
          0 ≤ im → im ≤ ((macro_members s imf).length : Int) →
          record_macro_swaps s fuel st imf im off = res →
          res ≠ Except.error Fault.out_of_bounds
          ∧ ∀ (st1 : MoveCtx) (c : Int), res = Except.ok (e_block_move_result.VALID, st1, c) →
              c = ((macro_members s imf).length : Int))
      ∧ (∀ (st : MoveCtx) (imf im imt : Int) (bt : ClusterBlockId) (off : t_pl_offset)
          (res : Except Fault (e_block_move_result × MoveCtx × Int)),
          0 ≤ im → im < ((macro_members s imf).length : Int) → macro_members s imt ≠ [] →
          record_macro_macro_swaps s fuel st imf im imt bt off = res →
          res ≠ Except.error Fault.out_of_bounds
          ∧ ∀ (st1 : MoveCtx) (c : Int), res = Except.ok (e_block_move_result.VALID, st1, c) →
              0 ≤ c ∧ c ≤ ((macro_members s imf).length : Int)) := by
  intro fuel
  induction fuel with
  | zero =>
    refine ⟨?_, ?_⟩
    · intro st imf im off res _ _ h
      rw [record_macro_swaps] at h
      subst h
      exact ⟨fun h => (by cases h), fun st1 c h => by cases h⟩
    · intro st imf im imt bt off res _ _ _ h
      rw [record_macro_macro_swaps] at h
      subst h
      exact ⟨fun h => (by cases h), fun st1 c h => by cases h⟩
  | succ fuel ih =>
    obtain ⟨ih1, ih2⟩ := ih
    refine ⟨?_, ?_⟩
    · intro st imf im off res h0 hle h
      rw [record_macro_swaps] at h
      by_cases hlt : im < ((macro_members s imf).length : Int)
      · rw [if_pos hlt] at h
        obtain ⟨mem, hm⟩ := member_at_of_lt h0 hlt
        simp only [hm] at h
        by_cases hleg : is_legal_swap_to_location s mem.blk_index
            ((s.block_locs mem.blk_index).loc.add off) = false
        · rw [if_pos hleg] at h
          subst h
          exact ⟨fun h => (by cases h), fun st1 c h => by cases h⟩
        · rw [if_neg hleg] at h
          by_cases hto : get_imacro_from_iblk
              (s.grid_blocks ((s.block_locs mem.blk_index).loc.add off)) s.pl_macros ≠ -1
          · rw [if_pos hto] at h
            by_cases hself : imf = get_imacro_from_iblk
                (s.grid_blocks ((s.block_locs mem.blk_index).loc.add off)) s.pl_macros
            · rw [if_pos hself] at h
              cases hs : record_macro_self_swaps s fuel st imf off with
              | error e =>
                simp only [hs] at h
                subst h
                refine ⟨fun h => ?_, fun st1 c h => by cases h⟩
                cases h
                exact record_macro_self_swaps_not_out_of_bounds hc _ _ _ _ hs
              | ok r =>
                obtain ⟨o, st1⟩ := r
                simp only [hs] at h
                subst h
                refine ⟨fun h => (by cases h), fun st2 c h => ?_⟩
                simp only [Except.ok.injEq, Prod.mk.injEq] at h
                exact h.2.2.symm
            · rw [if_neg hself] at h
              have hne := macro_members_ne_nil_of_lookup s _ hto
              cases hr : record_macro_macro_swaps s fuel st imf im
                  (get_imacro_from_iblk
                    (s.grid_blocks ((s.block_locs mem.blk_index).loc.add off)) s.pl_macros)
                  (s.grid_blocks ((s.block_locs mem.blk_index).loc.add off)) off with
              | error e =>
                simp only [hr] at h
                subst h
                exact ⟨(ih2 _ _ _ _ _ _ _ h0 hlt hne hr).1, fun st1 c h => by cases h⟩
              | ok r =>
                obtain ⟨o, st1, c⟩ := r
                simp only [hr] at h
                by_cases h1 : o = e_block_move_result.INVERT_VALID
                · rw [if_pos h1] at h
                  subst h
                  subst h1
                  exact ⟨fun h => (by cases h), fun st1 c h => by cases h⟩
                · rw [if_neg h1] at h
                  by_cases h2 : o = e_block_move_result.VALID
                  · rw [if_pos h2] at h
                    subst h2
                    obtain ⟨hc0, hc1⟩ := (ih2 _ _ _ _ _ _ _ h0 hlt hne hr).2 st1 c rfl
                    exact ih1 _ _ _ _ _ (by omega) (by omega) h
                  · rw [if_neg h2] at h
                    subst h
                    refine ⟨fun h => (by cases h), fun st2 c2 h => ?_⟩
                    simp only [Except.ok.injEq, Prod.mk.injEq] at h
                    exact absurd h.1 h2
          · rw [if_neg hto] at h
            by_cases hv : (record_single_block_swap s st mem.blk_index
                ((s.block_locs mem.blk_index).loc.add off)).1 = e_block_move_result.VALID
            · rw [if_pos hv] at h
              exact ih1 _ _ _ _ _ (by omega) (by omega) h
            · rw [if_neg hv] at h
              subst h
              refine ⟨fun h => (by cases h), fun st2 c2 h => ?_⟩
              simp only [Except.ok.injEq, Prod.mk.injEq] at h
              exact absurd h.1 hv
      · rw [if_neg hlt] at h
        subst h
        refine ⟨fun h => (by cases h), fun st2 c2 h => ?_⟩
        simp only [Except.ok.injEq, Prod.mk.injEq] at h
        omega
    · intro st imf im imt bt off res h0 hlt hne h
      rw [record_macro_macro_swaps] at h
      have hpos : (0 : Int) < ((macro_members s imt).length : Int) := by
        have := List.length_pos.mpr hne
        omega
      obtain ⟨first_to, hf⟩ := member_at_of_lt (le_refl 0) hpos
      simp only [hf] at h
      by_cases hneb : first_to.blk_index ≠ bt
      · rw [if_pos hneb] at h
        cases hr : record_macro_swaps s fuel st imt 0 off.neg with
        | error e =>
          simp only [hr] at h
          subst h
          exact ⟨(ih1 _ _ _ _ _ (le_refl 0) (by omega) hr).1, fun st1 c h => by cases h⟩
        | ok r =>
          obtain ⟨o, st1, c⟩ := r
          simp only [hr] at h
          by_cases h1 : o = e_block_move_result.INVERT
          · rw [if_pos h1] at h
            subst h
            exact ⟨fun h => (by cases h), fun st1 c h => by cases h⟩
          · rw [if_neg h1] at h
            by_cases h2 : o = e_block_move_result.VALID
            · rw [if_pos h2] at h
              subst h
              exact ⟨fun h => (by cases h), fun st1 c h => by cases h⟩
            · rw [if_neg h2] at h
              subst h
              refine ⟨fun h => (by cases h), fun st2 c2 h => ?_⟩
              simp only [Except.ok.injEq, Prod.mk.injEq] at h
              exact absurd h.1 h2
      · rw [if_neg hneb] at h
        obtain ⟨from_first, hm⟩ := member_at_of_lt h0 hlt
        simp only [hm] at h
        obtain ⟨hnf, hfin⟩ := lock_step_loop_cursor s (macro_members s imf) from_first.offset off
          (macro_members s imt) st im 0 h0 (le_refl 0) (le_of_lt hlt)
        cases hl : lock_step_loop s (macro_members s imf) from_first.offset off
            (macro_members s imt) st im 0 with
        | fault => exact absurd hl hnf
        | returned o st1 i1 =>
          simp only [hl] at h
          subst h
          refine ⟨fun h => (by cases h), fun st2 c2 h => ?_⟩
          simp only [Except.ok.injEq, Prod.mk.injEq] at h
          have := lock_step_loop_returned s _ _ _ _ _ _ _ _ _ _ hl
          rw [this] at h
          exact absurd h.1 (by decide)
        | finished st1 i1 it =>
          simp only [hl] at h
          obtain ⟨hi0, hi1, hit⟩ := hfin st1 i1 it hl
          by_cases hlt2 : it < ((macro_members s imt).length : Int)
          · rw [if_pos hlt2] at h
            cases hr : record_macro_swaps s fuel st1 imt it off.neg with
            | error e =>
              simp only [hr] at h
              subst h
              exact ⟨(ih1 _ _ _ _ _ hit (le_of_lt hlt2) hr).1, fun st1 c h => by cases h⟩
            | ok r =>
              obtain ⟨o, st2, c⟩ := r
              simp only [hr] at h
              subst h
              refine ⟨fun h => (by cases h), fun st3 c3 h => ?_⟩
              simp only [Except.ok.injEq, Prod.mk.injEq] at h
              rw [← h.2.2]
              exact ⟨hi0, hi1⟩
          · rw [if_neg hlt2] at h
            subst h
            refine ⟨fun h => (by cases h), fun st3 c3 h => ?_⟩
            simp only [Except.ok.injEq, Prod.mk.injEq] at h
            rw [← h.2.2]
            exact ⟨hi0, hi1⟩

/-- C30: on a consistent state, `record_macro_swaps` called with member cursor 0
never reads a member list (or the set of vacated locations) out of range, for
any fuel; and when it returns VALID the cursor it hands back is the number of
members of the macro, which is the assertion of `find_affected_blocks`. -/
theorem record_macro_swaps_cursor_at_end (s : PlacementState) (hc : Consistent s) (fuel : Nat)
    (st : MoveCtx) (imacro_from : Int) (swap_offset : t_pl_offset) :
    record_macro_swaps s fuel st imacro_from 0 swap_offset ≠ Except.error Fault.out_of_bounds
    ∧ ∀ (st1 : MoveCtx) (c : Int),
        record_macro_swaps s fuel st imacro_from 0 swap_offset
          = Except.ok (e_block_move_result.VALID, st1, c) →
        c = ((macro_members s imacro_from).length : Int) :=
  (macro_swaps_cursor hc fuel).1 st imacro_from 0 swap_offset _ (le_refl 0)
    (Int.ofNat_nonneg _) rfl

/-- Witness of C30 on `s_tail`: the macro of blocks 0 and 1 moved one column to
the right; the second member lands on the first member of the macro of blocks 3
and 4, the lock-step loop advances the cursor to 2, and the call returns VALID
with cursor 2, the number of members. -/
theorem record_macro_swaps_cursor_at_end_witness :
    Consistent s_tail
    ∧ record_macro_swaps s_tail 5 MoveCtx.empty 0 0 ⟨1, 0, 0⟩
        = Except.ok (e_block_move_result.VALID,
            ⟨[⟨0, ⟨0, 0, 0⟩, ⟨1, 0, 0⟩⟩, ⟨2, ⟨1, 0, 0⟩, ⟨0, 0, 0⟩⟩, ⟨1, ⟨0, 1, 0⟩, ⟨1, 1, 0⟩⟩,
              ⟨3, ⟨1, 1, 0⟩, ⟨0, 1, 0⟩⟩, ⟨4, ⟨2, 0, 0⟩, ⟨1, 0, 0⟩⟩,
              ⟨2, ⟨1, 0, 0⟩, ⟨2, 0, 0⟩⟩], []⟩, 2)
    ∧ (2 : Int) = ((macro_members s_tail 0).length : Int) :=
  ⟨s_tail_consistent, rfl,
    (record_macro_swaps_cursor_at_end s_tail s_tail_consistent 5 MoveCtx.empty 0 ⟨1, 0, 0⟩).2
      _ 2 rfl⟩

/-! ## The record as an append-only list -/

theorem t_pl_offset.neg_neg (o : t_pl_offset) : o.neg.neg = o := by
  cases o
  simp [t_pl_offset.neg]

theorem t_pl_loc.neg_sub (a b : t_pl_loc) : (a.sub b).neg = b.sub a := by
  simp [t_pl_loc.sub, t_pl_offset.neg]

theorem member_at_mem {ms : List t_pl_macro_member} {i : Int} {m : t_pl_macro_member}
    (h : member_at ms i = some m) : m ∈ ms := by
  unfold member_at at h
  split at h
  · exact List.get?_mem h
  · cases h

theorem self_free_member {s : PlacementState} {swap_offset : t_pl_offset}
    (hf : SelfFree s swap_offset) {i : Int} {m : t_pl_macro_member}
    (hm : m ∈ macro_members s i) :
    get_imacro_from_iblk (dest_occupant s swap_offset m) s.pl_macros ≠ i := by
  obtain ⟨mac, hen, _, hmem, hi⟩ := macro_members_mem hm
  have := hf _ hen m hmem
  rwa [hi] at this

theorem record_single_block_swap_keeps_record (s : PlacementState) (st : MoveCtx)
    (b_from : ClusterBlockId) (to_loc : t_pl_loc) :
    st.moved_blocks <+: (record_single_block_swap s st b_from to_loc).2.moved_blocks := by
  obtain ⟨E, hE, _⟩ := record_single_block_swap_blocks s st b_from to_loc
  rw [hE]
  exact List.prefix_append _ _

theorem lock_step_loop_keeps_record (s : PlacementState) (from_members : List t_pl_macro_member)
    (fto swap_offset : t_pl_offset) :
    ∀ (ts : List t_pl_macro_member) (st : MoveCtx) (j jt : Int),
      (∀ (o : e_block_move_result) (st1 : MoveCtx) (i1 : Int),
        lock_step_loop s from_members fto swap_offset ts st j jt = LockStep.returned o st1 i1 →
        st.moved_blocks <+: st1.moved_blocks)
      ∧ (∀ (st1 : MoveCtx) (i1 it : Int),
        lock_step_loop s from_members fto swap_offset ts st j jt = LockStep.finished st1 i1 it →
        st.moved_blocks <+: st1.moved_blocks) := by
  intro ts
  induction ts with
  | nil =>
    intro st j jt
    unfold lock_step_loop
    refine ⟨fun o st1 i1 h => (by cases h), fun st1 i1 it h => ?_⟩
    simp only [LockStep.finished.injEq] at h
    rw [← h.1]
  | cons t rest ih =>
    intro st j jt
    unfold lock_step_loop
    by_cases hlt : j < (from_members.length : Int)
    · rw [if_pos hlt]
      cases hm : member_at from_members j with
      | none => exact ⟨fun o st1 i1 h => (by cases h), fun st1 i1 it h => by cases h⟩
      | some mf =>
        dsimp only
        split
        · refine ⟨fun o st1 i1 h => ?_, fun st1 i1 it h => by cases h⟩
          simp only [LockStep.returned.injEq] at h
          rw [← h.2.1]
          exact List.prefix_refl _
        · split
          · refine ⟨fun o st1 i1 h => ?_, fun st1 i1 it h => by cases h⟩
            simp only [LockStep.returned.injEq] at h
            rw [← h.2.1]
          · split
            · refine ⟨fun o st1 i1 h => ?_, fun st1 i1 it h => by cases h⟩
              simp only [LockStep.returned.injEq] at h
              rw [← h.2.1]
              exact List.prefix_refl _
            · have hp := record_single_block_swap_keeps_record s st mf.blk_index
                ((s.block_locs mf.blk_index).loc.add swap_offset)
              split
              · refine ⟨fun o st1 i1 h => ?_, fun st1 i1 it h => by cases h⟩
                simp only [LockStep.returned.injEq] at h
                rw [← h.2.1]
                exact hp
              · obtain ⟨k1, k2⟩ := ih (record_single_block_swap s st mf.blk_index
                  ((s.block_locs mf.blk_index).loc.add swap_offset)).2 (j + 1) (jt + 1)
                exact ⟨fun o st1 i1 h => hp.trans (k1 o st1 i1 h),
                  fun st1 i1 it h => hp.trans (k2 st1 i1 it h)⟩
    · rw [if_neg hlt]
      refine ⟨fun o st1 i1 h => (by cases h), fun st1 i1 it h => ?_⟩
      simp only [LockStep.finished.injEq] at h
      rw [← h.1]

theorem macro_swaps_keep_record (s : PlacementState) :
    ∀ (fuel : Nat),
      (∀ (st : MoveCtx) (imf im : Int) (off : t_pl_offset)
          (res : e_block_move_result × MoveCtx × Int),
          SelfFree s off → SelfFree s off.neg →
          record_macro_swaps s fuel st imf im off = Except.ok res →
          st.moved_blocks <+: res.2.1.moved_blocks)
      ∧ (∀ (st : MoveCtx) (imf im imt : Int) (bt : ClusterBlockId) (off : t_pl_offset)
          (res : e_block_move_result × MoveCtx × Int),
          SelfFree s off → SelfFree s off.neg →
          record_macro_macro_swaps s fuel st imf im imt bt off = Except.ok res →
          st.moved_blocks <+: res.2.1.moved_blocks) := by
  intro fuel
  induction fuel with
  | zero =>
    refine ⟨?_, ?_⟩
    · intro st imf im off res _ _ h; simp [record_macro_swaps] at h
    · intro st imf im imt bt off res _ _ h; simp [record_macro_macro_swaps] at h
  | succ fuel ih =>
    obtain ⟨ih1, ih2⟩ := ih
    refine ⟨?_, ?_⟩
    · intro st imf im off res hf hfn h
      rw [record_macro_swaps] at h
      by_cases hlt : im < ((macro_members s imf).length : Int)
      · rw [if_pos hlt] at h
        cases hm : member_at (macro_members s imf) im with
        | none => simp only [hm] at h; cases h
        | some mem =>
          simp only [hm] at h
          by_cases hleg : is_legal_swap_to_location s mem.blk_index
              ((s.block_locs mem.blk_index).loc.add off) = false
          · rw [if_pos hleg] at h
            simp only [Except.ok.injEq] at h
            subst h
            exact List.prefix_refl _
          · rw [if_neg hleg] at h
            by_cases hto : get_imacro_from_iblk
                (s.grid_blocks ((s.block_locs mem.blk_index).loc.add off)) s.pl_macros ≠ -1
            · rw [if_pos hto] at h
              have hself : ¬ imf = get_imacro_from_iblk
                  (s.grid_blocks ((s.block_locs mem.blk_index).loc.add off)) s.pl_macros :=
                fun e => self_free_member hf (member_at_mem hm) e.symm
              rw [if_neg hself] at h
              cases hr : record_macro_macro_swaps s fuel st imf im
                  (get_imacro_from_iblk
                    (s.grid_blocks ((s.block_locs mem.blk_index).loc.add off)) s.pl_macros)
                  (s.grid_blocks ((s.block_locs mem.blk_index).loc.add off)) off with
              | error e => simp only [hr] at h; cases h
              | ok r =>
                obtain ⟨o, st1, c⟩ := r
                simp only [hr] at h
                have hp : st.moved_blocks <+: st1.moved_blocks :=
                  ih2 _ _ _ _ _ _ (o, st1, c) hf hfn hr
                by_cases h1 : o = e_block_move_result.INVERT_VALID
                · rw [if_pos h1] at h
                  simp only [Except.ok.injEq] at h
                  subst h
                  exact hp
                · rw [if_neg h1] at h
                  by_cases h2 : o = e_block_move_result.VALID
                  · rw [if_pos h2] at h
                    exact hp.trans (ih1 _ _ _ _ _ hf hfn h)
                  · rw [if_neg h2] at h
                    simp only [Except.ok.injEq] at h
                    subst h
                    exact hp
            · rw [if_neg hto] at h
              have hp := record_single_block_swap_keeps_record s st mem.blk_index
                ((s.block_locs mem.blk_index).loc.add off)
              by_cases hv : (record_single_block_swap s st mem.blk_index
                  ((s.block_locs mem.blk_index).loc.add off)).1 = e_block_move_result.VALID
              · rw [if_pos hv] at h
                exact hp.trans (ih1 _ _ _ _ _ hf hfn h)
              · rw [if_neg hv] at h
                simp only [Except.ok.injEq] at h
                subst h
                exact hp
      · rw [if_neg hlt] at h
        simp only [Except.ok.injEq] at h
        subst h
        exact List.prefix_refl _
    · intro st imf im imt bt off res hf hfn h
      have hfnn : SelfFree s off.neg.neg := by rw [t_pl_offset.neg_neg]; exact hf
      rw [record_macro_macro_swaps] at h
      cases hfst : member_at (macro_members s imt) 0 with
      | none => simp only [hfst] at h; cases h
      | some first_to =>
        simp only [hfst] at h
        by_cases hne : first_to.blk_index ≠ bt
        · rw [if_pos hne] at h
          cases hr : record_macro_swaps s fuel st imt 0 off.neg with
          | error e => simp only [hr] at h; cases h
          | ok r =>
            obtain ⟨o, st1, c⟩ := r
            simp only [hr] at h
            have hp : st.moved_blocks <+: st1.moved_blocks :=
              ih1 _ _ _ _ (o, st1, c) hfn hfnn hr
            by_cases h1 : o = e_block_move_result.INVERT
            · rw [if_pos h1] at h
              simp only [Except.ok.injEq] at h
              subst h
              exact hp
            · rw [if_neg h1] at h
              by_cases h2 : o = e_block_move_result.VALID
              · rw [if_pos h2] at h
                simp only [Except.ok.injEq] at h
                subst h
                exact hp
              · rw [if_neg h2] at h
                simp only [Except.ok.injEq] at h
                subst h
                exact hp
        · rw [if_neg hne] at h
          cases hm : member_at (macro_members s imf) im with
          | none => simp only [hm] at h; cases h
          | some from_first =>
            simp only [hm] at h
            obtain ⟨k1, k2⟩ := lock_step_loop_keeps_record s (macro_members s imf) from_first.offset off
              (macro_members s imt) st im 0
            cases hl : lock_step_loop s (macro_members s imf) from_first.offset off
                (macro_members s imt) st im 0 with
            | fault => simp only [hl] at h; cases h
            | returned o st1 i1 =>
              simp only [hl, Except.ok.injEq] at h
              subst h
              exact k1 _ _ _ hl
            | finished st1 i1 it =>
              simp only [hl] at h
              have hp := k2 _ _ _ hl
              by_cases hlt : it < ((macro_members s imt).length : Int)
              · rw [if_pos hlt] at h
                cases hr : record_macro_swaps s fuel st1 imt it off.neg with
                | error e => simp only [hr] at h; cases h
                | ok r =>
                  obtain ⟨o, st2, c⟩ := r
                  simp only [hr, Except.ok.injEq] at h
                  subst h
                  exact hp.trans (ih1 _ _ _ _ (o, st2, c) hfn hfnn hr)
              · rw [if_neg hlt] at h
                simp only [Except.ok.injEq] at h
                subst h
                exact hp

theorem find_affected_blocks_keeps_record (s : PlacementState) (fuel : Nat) (st : MoveCtx)
    (b_from : ClusterBlockId) (to_loc : t_pl_loc) (r : e_block_move_result × MoveCtx)
    (hfree : get_imacro_from_iblk b_from s.pl_macros ≠ -1 →
      SelfFree s (to_loc.sub (s.block_locs b_from).loc)
        ∧ SelfFree s (to_loc.sub (s.block_locs b_from).loc).neg)
    (h : find_affected_blocks s fuel st b_from to_loc = Except.ok r) :
    st.moved_blocks <+: r.2.moved_blocks := by
  unfold find_affected_blocks at h
  dsimp only at h
  by_cases hb : get_imacro_from_iblk b_from s.pl_macros ≠ -1
  · rw [if_pos hb] at h
    obtain ⟨hf, hfn⟩ := hfree hb
    cases hr : record_macro_swaps s fuel st (get_imacro_from_iblk b_from s.pl_macros) 0
        (to_loc.sub (s.block_locs b_from).loc) with
    | error e => simp only [hr] at h; cases h
    | ok r1 =>
      obtain ⟨o, st1, c⟩ := r1
      simp only [hr, Except.ok.injEq] at h
      subst h
      exact (macro_swaps_keep_record s fuel).1 _ _ _ _ (o, st1, c) hf hfn hr
  · rw [if_neg hb] at h
    by_cases hto : get_imacro_from_iblk (s.grid_blocks to_loc) s.pl_macros ≠ -1
    · rw [if_pos hto] at h
      simp only [Except.ok.injEq] at h
      subst h
      exact List.prefix_refl _
    · rw [if_neg hto] at h
      simp only [Except.ok.injEq] at h
      subst h
      exact record_single_block_swap_keeps_record s st b_from to_loc

end MoveUtils
namespace MoveUtils

/-- C21 (counterexample): on the consistent state `s_reset`, `create_move` of
block 0 to (0,2,0) first swaps block 0 with block 2 (two entries), then calls
`record_macro_self_swaps` with that record; the call returns VALID with a record
that no longer holds the entry sending block 2 to (0,1,0), so the record it was
given is not a prefix of the record it returns. -/
theorem record_macro_self_swaps_drops_entries :
    Consistent s_reset
    ∧ record_single_block_swap s_reset MoveCtx.empty 0 ⟨0, 2, 0⟩
        = (e_block_move_result.VALID,
            ⟨[⟨0, ⟨0, 1, 0⟩, ⟨0, 2, 0⟩⟩, ⟨2, ⟨0, 2, 0⟩, ⟨0, 1, 0⟩⟩], []⟩)
    ∧ record_macro_self_swaps s_reset 7
          ⟨[⟨0, ⟨0, 1, 0⟩, ⟨0, 2, 0⟩⟩, ⟨2, ⟨0, 2, 0⟩, ⟨0, 1, 0⟩⟩], []⟩ 0 ⟨0, 1, 0⟩
        = Except.ok (e_block_move_result.VALID,
            ⟨[⟨0, ⟨0, 1, 0⟩, ⟨0, 2, 0⟩⟩, ⟨1, ⟨0, 0, 0⟩, ⟨0, 1, 0⟩⟩,
              ⟨2, ⟨0, 2, 0⟩, ⟨0, 0, 0⟩⟩], []⟩)
    ∧ create_move s_reset 9 MoveCtx.empty 0 ⟨0, 2, 0⟩
        = Except.ok (e_create_move.VALID,
            ⟨[⟨0, ⟨0, 1, 0⟩, ⟨0, 2, 0⟩⟩, ⟨1, ⟨0, 0, 0⟩, ⟨0, 1, 0⟩⟩,
              ⟨2, ⟨0, 2, 0⟩, ⟨0, 0, 0⟩⟩], []⟩)
    ∧ ¬ ([(⟨0, ⟨0, 1, 0⟩, ⟨0, 2, 0⟩⟩ : t_pl_moved_block), ⟨2, ⟨0, 2, 0⟩, ⟨0, 1, 0⟩⟩]
          <+: [(⟨0, ⟨0, 1, 0⟩, ⟨0, 2, 0⟩⟩ : t_pl_moved_block), ⟨1, ⟨0, 0, 0⟩, ⟨0, 1, 0⟩⟩,
                ⟨2, ⟨0, 2, 0⟩, ⟨0, 0, 0⟩⟩]) :=
  ⟨⟨by decide, by decide, by decide, mk_state_grid_agrees _ _ _ _ _⟩, rfl, rfl, rfl, by decide⟩

/-- C21 (amended): on a state whose grid agrees with the block locations, when
no macro member moved by the requested offset or by its negation lands on a
member of its own macro (no self-swap is started), the record `create_move`
starts from is a prefix of the record it returns, for every outcome; the same
holds for `record_macro_swaps` and `record_macro_macro_swaps`. The function
`record_macro_self_swaps` does not keep the record it is given: it returns what
it returns from the emptied record. -/
theorem create_move_keeps_record (s : PlacementState) (hg : GridAgrees s) (fuel : Nat)
    (st : MoveCtx) (b_from : ClusterBlockId) (to_loc : t_pl_loc)
    (hf : SelfFree s (to_loc.sub (s.block_locs b_from).loc))
    (hfn : SelfFree s (to_loc.sub (s.block_locs b_from).loc).neg) :
    (∀ r : e_create_move × MoveCtx, create_move s fuel st b_from to_loc = Except.ok r →
      st.moved_blocks <+: r.2.moved_blocks)
    ∧ (∀ (imacro_from imember_from : Int) (res : e_block_move_result × MoveCtx × Int),
        record_macro_swaps s fuel st imacro_from imember_from
          (to_loc.sub (s.block_locs b_from).loc) = Except.ok res →
        st.moved_blocks <+: res.2.1.moved_blocks)
    ∧ (∀ (imacro_from imember_from imacro_to : Int) (blk_to : ClusterBlockId)
        (res : e_block_move_result × MoveCtx × Int),
        record_macro_macro_swaps s fuel st imacro_from imember_from imacro_to blk_to
          (to_loc.sub (s.block_locs b_from).loc) = Except.ok res →
        st.moved_blocks <+: res.2.1.moved_blocks)
    ∧ (∀ (imacro_cur : Int) (swap_offset : t_pl_offset),
        record_macro_self_swaps s fuel st imacro_cur swap_offset
          = record_macro_self_swaps s fuel (clear_move_blocks st) imacro_cur swap_offset) := by
  refine ⟨?_, ?_, ?_, fun _ _ => rfl⟩
  · intro r h
    unfold create_move create_move_with at h
    cases hfab : find_affected_blocks s fuel st b_from to_loc with
    | error e => simp only [hfab] at h; cases h
    | ok r1 =>
      obtain ⟨o, st1⟩ := r1
      simp only [hfab] at h
      have hp : st.moved_blocks <+: st1.moved_blocks :=
        find_affected_blocks_keeps_record s fuel st b_from to_loc (o, st1) (fun _ => ⟨hf, hfn⟩) hfab
      by_cases hinv : o = e_block_move_result.INVERT
      · rw [if_pos hinv] at h
        by_cases hb : (s.grid_blocks to_loc).toBool = false
        · rw [if_pos hb] at h
          simp only [Except.ok.injEq] at h
          subst h
          rw [classify_outcome_snd]
          exact hp
        · rw [if_neg hb] at h
          have hfree2 : get_imacro_from_iblk (s.grid_blocks to_loc) s.pl_macros ≠ -1 →
              SelfFree s ((s.block_locs b_from).loc.sub (s.block_locs (s.grid_blocks to_loc)).loc)
                ∧ SelfFree s
                  ((s.block_locs b_from).loc.sub (s.block_locs (s.grid_blocks to_loc)).loc).neg := by
            intro hmac
            have h0 := get_imacro_from_iblk_nonneg hmac
            have hE : s.grid_blocks to_loc ≠ EMPTY_BLOCK_ID := by
              intro heq; rw [heq] at h0; exact absurd h0 (by decide)
            have hI : s.grid_blocks to_loc ≠ INVALID_BLOCK_ID := by
              intro heq; rw [heq] at h0; exact absurd h0 (by decide)
            rw [hg to_loc hE hI, t_pl_loc.neg_sub, ← t_pl_loc.neg_sub to_loc]
            exact ⟨hfn, hf⟩
          cases hfab2 : find_affected_blocks s fuel st1 (s.grid_blocks to_loc)
              (s.block_locs b_from).loc with
          | error e => simp only [hfab2] at h; cases h
          | ok r2 =>
            obtain ⟨o2, st2⟩ := r2
            simp only [hfab2] at h
            have hp2 : st1.moved_blocks <+: st2.moved_blocks :=
              find_affected_blocks_keeps_record s fuel st1 _ _ (o2, st2) hfree2 hfab2
            by_cases hinv2 : o2 = e_block_move_result.INVERT
            · rw [if_pos hinv2] at h
              simp only [Except.ok.injEq] at h
              subst h
              rw [classify_outcome_snd]
              exact hp.trans hp2
            · rw [if_neg hinv2] at h
              simp only [Except.ok.injEq] at h
              subst h
              rw [classify_outcome_snd]
              exact hp.trans hp2
      · rw [if_neg hinv] at h
        simp only [Except.ok.injEq] at h
        subst h
        rw [classify_outcome_snd]
        exact hp
  · intro imf im res h
    exact (macro_swaps_keep_record s fuel).1 _ _ _ _ _ hf hfn h
  · intro imf im imt bt res h
    exact (macro_swaps_keep_record s fuel).2 _ _ _ _ _ _ _ hf hfn h

end MoveUtils

namespace MoveUtils

/-- Witness of C21 (amended) on `s_tail`: from a record that already holds one
entry, the macro of blocks 0 and 1 is moved one column to the right, onto block
2 and onto the macro of blocks 3 and 4; the entry is still the head of the
returned record. -/
theorem create_move_keeps_record_witness :
    GridAgrees s_tail
    ∧ SelfFree s_tail ((⟨1, 0, 0⟩ : t_pl_loc).sub (s_tail.block_locs 0).loc)
    ∧ SelfFree s_tail ((⟨1, 0, 0⟩ : t_pl_loc).sub (s_tail.block_locs 0).loc).neg
    ∧ create_move s_tail 5 ⟨[⟨5, ⟨2, 1, 0⟩, ⟨2, 1, 0⟩⟩], []⟩ 0 ⟨1, 0, 0⟩
        = Except.ok (e_create_move.VALID,
            ⟨[⟨5, ⟨2, 1, 0⟩, ⟨2, 1, 0⟩⟩,
              ⟨0, ⟨0, 0, 0⟩, ⟨1, 0, 0⟩⟩, ⟨2, ⟨1, 0, 0⟩, ⟨0, 0, 0⟩⟩, ⟨1, ⟨0, 1, 0⟩, ⟨1, 1, 0⟩⟩,
              ⟨3, ⟨1, 1, 0⟩, ⟨0, 1, 0⟩⟩, ⟨4, ⟨2, 0, 0⟩, ⟨1, 0, 0⟩⟩,
              ⟨2, ⟨1, 0, 0⟩, ⟨2, 0, 0⟩⟩], []⟩)
    ∧ [(⟨5, ⟨2, 1, 0⟩, ⟨2, 1, 0⟩⟩ : t_pl_moved_block)]
        <+: [(⟨5, ⟨2, 1, 0⟩, ⟨2, 1, 0⟩⟩ : t_pl_moved_block),
              ⟨0, ⟨0, 0, 0⟩, ⟨1, 0, 0⟩⟩, ⟨2, ⟨1, 0, 0⟩, ⟨0, 0, 0⟩⟩, ⟨1, ⟨0, 1, 0⟩, ⟨1, 1, 0⟩⟩,
              ⟨3, ⟨1, 1, 0⟩, ⟨0, 1, 0⟩⟩, ⟨4, ⟨2, 0, 0⟩, ⟨1, 0, 0⟩⟩,
              ⟨2, ⟨1, 0, 0⟩, ⟨2, 0, 0⟩⟩] :=
  ⟨mk_state_grid_agrees _ _ _ _ _, by unfold SelfFree; decide, by unfold SelfFree; decide, rfl,
    (create_move_keeps_record s_tail (mk_state_grid_agrees _ _ _ _ _) 5
      ⟨[⟨5, ⟨2, 1, 0⟩, ⟨2, 1, 0⟩⟩], []⟩ 0 ⟨1, 0, 0⟩ (by unfold SelfFree; decide) (by unfold SelfFree; decide)).1 _ rfl⟩

/-! ## The new locations of a record -/

theorem record_single_block_swap_valid (s : PlacementState) (st : MoveCtx)
    (b_from : ClusterBlockId) (to_loc : t_pl_loc)
    (hv : (record_single_block_swap s st b_from to_loc).1 = e_block_move_result.VALID) :
    (record_single_block_swap s st b_from to_loc).2
      = ⟨st.moved_blocks ++ swap_entries s b_from to_loc, st.f_move_abort_reasons⟩ := by
  unfold record_single_block_swap at hv ⊢
  unfold swap_entries
  by_cases hfix : (s.block_locs b_from).is_fixed = true
  · rw [if_pos hfix] at hv
    cases hv
  · rw [if_neg hfix] at hv ⊢
    dsimp only at hv ⊢
    by_cases hE : s.grid_blocks to_loc = EMPTY_BLOCK_ID
    · rw [if_pos hE, if_pos hE]
      rfl
    · rw [if_neg hE] at hv ⊢
      rw [if_neg hE]
      by_cases hI : s.grid_blocks to_loc ≠ INVALID_BLOCK_ID
      · rw [if_pos hI] at hv ⊢
        rw [if_pos hI]
        split at hv
        · cases hv
        · rename_i hcond
          rw [if_neg hcond]
          simp [record_block_move]
      · rw [if_neg hI, if_neg hI]
        simp

theorem record_macro_swaps_onto_singles_valid (s : PlacementState) (imacro_from : Int)
    (swap_offset : t_pl_offset)
    (hdest : ∀ m ∈ macro_members s imacro_from,
      get_imacro_from_iblk (dest_occupant s swap_offset m) s.pl_macros = -1) :
    ∀ (fuel : Nat) (st : MoveCtx) (i : Nat) (res : e_block_move_result × MoveCtx × Int),
      record_macro_swaps s fuel st imacro_from (i : Int) swap_offset = Except.ok res →
      res.1 = e_block_move_result.VALID →
      res.2.1.moved_blocks = st.moved_blocks ++ ((macro_members s imacro_from).drop i).flatMap
          (fun m => swap_entries s m.blk_index ((s.block_locs m.blk_index).loc.add swap_offset)) := by
  intro fuel
  induction fuel with
  | zero => intro st i res h; simp [record_macro_swaps] at h
  | succ fuel ih =>
    intro st i res h hv
    rw [record_macro_swaps] at h
    by_cases hlt : (i : Int) < ((macro_members s imacro_from).length : Int)
    · rw [if_pos hlt] at h
      cases hm : member_at (macro_members s imacro_from) (i : Int) with
      | none => simp only [hm] at h; cases h
      | some mem =>
        simp only [hm] at h
        have hget : (macro_members s imacro_from).get? i = some mem := by
          unfold member_at at hm
          simpa using hm
        have hmem : mem ∈ macro_members s imacro_from := List.get?_mem hget
        have hdrop := drop_of_get? hget
        by_cases hleg : is_legal_swap_to_location s mem.blk_index
            ((s.block_locs mem.blk_index).loc.add swap_offset) = false
        · rw [if_pos hleg] at h
          simp only [Except.ok.injEq] at h
          subst h
          cases hv
        · rw [if_neg hleg] at h
          have hocc := hdest mem hmem
          unfold dest_occupant at hocc
          simp only [hocc, ne_eq, not_true_eq_false, if_false] at h
          by_cases hv1 : (record_single_block_swap s st mem.blk_index
              ((s.block_locs mem.blk_index).loc.add swap_offset)).1 = e_block_move_result.VALID
          · rw [if_pos hv1] at h
            have hcast : (i : Int) + 1 = ((i + 1 : Nat) : Int) := by push_cast; ring
            rw [hcast] at h
            rw [ih _ _ _ h hv, record_single_block_swap_valid s st _ _ hv1, hdrop,
              List.flatMap_cons, List.append_assoc]
          · rw [if_neg hv1] at h
            simp only [Except.ok.injEq] at h
            subst h
            exact absurd hv hv1
    · rw [if_neg hlt] at h
      simp only [Except.ok.injEq] at h
      subst h
      have : (macro_members s imacro_from).length ≤ i := by omega
      rw [List.drop_eq_nil_of_le this]
      simp

theorem swap_entries_new_loc {s : PlacementState} {b_from : ClusterBlockId} {to_loc : t_pl_loc}
    {e : t_pl_moved_block} (h : e ∈ swap_entries s b_from to_loc) :
    e.new_loc = to_loc ∨ e.new_loc = (s.block_locs b_from).loc := by
  unfold swap_entries at h
  split at h
  · rw [List.mem_singleton] at h
    subst h
    exact Or.inl rfl
  · split at h
    · simp only [List.mem_cons, List.mem_singleton, List.not_mem_nil, or_false] at h
      rcases h with h | h
      · subst h; exact Or.inl rfl
      · subst h; exact Or.inr rfl
    · cases h

theorem swap_entries_closed {s : PlacementState} (hg : GridAgrees s) (b_from : ClusterBlockId)
    (to_loc : t_pl_loc) :
    ∀ e ∈ swap_entries s b_from to_loc,
      s.grid_blocks e.new_loc = EMPTY_BLOCK_ID
        ∨ ∃ e1 ∈ swap_entries s b_from to_loc, e1.old_loc = e.new_loc := by
  intro e h
  unfold swap_entries at h ⊢
  by_cases hE : s.grid_blocks to_loc = EMPTY_BLOCK_ID
  · rw [if_pos hE] at h ⊢
    rw [List.mem_singleton] at h
    subst h
    exact Or.inl hE
  · rw [if_neg hE] at h ⊢
    by_cases hI : s.grid_blocks to_loc ≠ INVALID_BLOCK_ID
    · rw [if_pos hI] at h ⊢
      simp only [List.mem_cons, List.mem_singleton, List.not_mem_nil, or_false] at h
      refine Or.inr ?_
      rcases h with h | h
      · subst h
        exact ⟨_, List.mem_cons_of_mem _ (List.mem_singleton.mpr rfl), hg to_loc hE hI⟩
      · subst h
        exact ⟨_, List.mem_cons_self _ _, rfl⟩
    · rw [if_neg hI] at h
      cases h

theorem swap_entries_new_locs_nodup (s : PlacementState) (b_from : ClusterBlockId)
    (to_loc : t_pl_loc) (hne : to_loc ≠ (s.block_locs b_from).loc) :
    ((swap_entries s b_from to_loc).map (fun e => e.new_loc)).Nodup := by
  unfold swap_entries
  split
  · simp
  · split
    · simp only [List.map_cons, List.map_nil, List.nodup_cons, List.mem_singleton,
        List.not_mem_nil, not_false_eq_true, List.nodup_nil, and_self, and_true]
      exact hne
    · simp

theorem macro_swap_entries_new_locs_nodup {s : PlacementState} (hc : Consistent s)
    {imacro_from : Int} (swap_offset : t_pl_offset)
    (hdest : ∀ m ∈ macro_members s imacro_from,
      get_imacro_from_iblk (dest_occupant s swap_offset m) s.pl_macros = -1) :
    (((macro_members s imacro_from).flatMap
        (fun m => swap_entries s m.blk_index ((s.block_locs m.blk_index).loc.add swap_offset))).map
      (fun e => e.new_loc)).Nodup := by
  have hmac : ∀ m ∈ macro_members s imacro_from,
      get_imacro_from_iblk m.blk_index s.pl_macros ≠ -1 := by
    intro m hm
    obtain ⟨_, _, _, _, ha⟩ := macro_members_mem hm
    rw [member_lookup hc hm]
    omega
  have F1 : ∀ m1 ∈ macro_members s imacro_from, ∀ m2 ∈ macro_members s imacro_from,
      (s.block_locs m1.blk_index).loc.add swap_offset ≠ (s.block_locs m2.blk_index).loc := by
    intro m1 h1 m2 h2 heq
    have hd := hdest m1 h1
    unfold dest_occupant at hd
    rw [heq, member_home hc h2] at hd
    exact hmac m2 h2 hd
  rw [List.map_flatMap, List.nodup_flatMap]
  constructor
  · intro m hm
    exact swap_entries_new_locs_nodup s _ _ (F1 m hm m hm)
  · have hpw : (macro_members s imacro_from).Pairwise
        (fun a b => a.blk_index ≠ b.blk_index) := by
      have := macro_members_blk_nodup hc imacro_from
      rw [List.Nodup, List.pairwise_map] at this
      exact this
    refine hpw.imp_of_mem ?_
    intro a b ha hb hab
    have F2 : (s.block_locs a.blk_index).loc ≠ (s.block_locs b.blk_index).loc := by
      intro heq
      have g1 := member_home hc ha
      rw [heq, member_home hc hb] at g1
      exact hab g1.symm
    have F3 : (s.block_locs a.blk_index).loc.add swap_offset
        ≠ (s.block_locs b.blk_index).loc.add swap_offset :=
      fun heq => F2 (t_pl_loc.add_injective swap_offset heq)
    intro x hx1 hx2
    rw [List.mem_map] at hx1 hx2
    obtain ⟨e1, he1, rfl⟩ := hx1
    obtain ⟨e2, he2, h12⟩ := hx2
    rcases swap_entries_new_loc he1 with k1 | k1 <;> rcases swap_entries_new_loc he2 with k2 | k2
    · rw [k1, k2] at h12; exact F3 h12.symm
    · rw [k1, k2] at h12; exact F1 a ha b hb h12.symm
    · rw [k1, k2] at h12; exact F1 b hb a ha h12
    · rw [k1, k2] at h12; exact F2 h12.symm

theorem macro_swap_entries_closed {s : PlacementState} (hg : GridAgrees s)
    (ms : List t_pl_macro_member) (swap_offset : t_pl_offset) :
    ∀ e ∈ ms.flatMap
        (fun m => swap_entries s m.blk_index ((s.block_locs m.blk_index).loc.add swap_offset)),
      s.grid_blocks e.new_loc = EMPTY_BLOCK_ID
        ∨ ∃ e1 ∈ ms.flatMap
            (fun m => swap_entries s m.blk_index ((s.block_locs m.blk_index).loc.add swap_offset)),
          e1.old_loc = e.new_loc := by
  intro e he
  rw [List.mem_flatMap] at he
  obtain ⟨m, hm, hem⟩ := he
  rcases swap_entries_closed hg _ _ e hem with h | ⟨e1, he1, h1⟩
  · exact Or.inl h
  · exact Or.inr ⟨e1, List.mem_flatMap.mpr ⟨m, hm, he1⟩, h1⟩

/-! ## Illegal destinations in a self-swap -/

theorem mem_std_unique (x : Int) : ∀ l : List Int, x ∈ std_unique l ↔ x ∈ l := by
  intro l
  induction l with
  | nil => exact Iff.rfl
  | cons a t ih =>
    cases t with
    | nil => exact Iff.rfl
    | cons b t2 =>
      unfold std_unique
      by_cases hab : a = b
      · rw [if_pos hab, ih]
        subst hab
        simp
      · rw [if_neg hab, List.mem_cons, ih, List.mem_cons (a := x) (b := a)]

theorem record_macro_move_loop_legal (s : PlacementState) (a : Int) (swap_offset : t_pl_offset) :
    ∀ (ms : List t_pl_macro_member) (st : MoveCtx) (disp : List ClusterBlockId),
      (record_macro_move_loop s a swap_offset ms st disp).1 = e_block_move_result.VALID →
      ∀ m ∈ ms, is_legal_swap_to_location s m.blk_index
        ((s.block_locs m.blk_index).loc.add swap_offset) = true := by
  intro ms
  induction ms with
  | nil => intro st disp _ m hm; cases hm
  | cons m0 rest ih =>
    intro st disp hv m hm
    unfold record_macro_move_loop at hv
    dsimp only at hv
    by_cases hleg : is_legal_swap_to_location s m0.blk_index
        ((s.block_locs m0.blk_index).loc.add swap_offset) = false
    · rw [if_pos hleg] at hv
      cases hv
    · rw [if_neg hleg] at hv
      rw [List.mem_cons] at hm
      rcases hm with rfl | hm
      · simpa using hleg
      · exact ih _ _ hv m hm

theorem move_affected_macros_legal (s : PlacementState) (swap_offset : t_pl_offset) :
    ∀ (A : List Int) (st : MoveCtx) (disp : List ClusterBlockId),
      (move_affected_macros s swap_offset A st disp).1 = e_block_move_result.VALID →
      ∀ a ∈ A, ∀ m ∈ macro_members s a, is_legal_swap_to_location s m.blk_index
        ((s.block_locs m.blk_index).loc.add swap_offset) = true := by
  intro A
  induction A with
  | nil => intro st disp _ a ha; cases ha
  | cons a0 rest ih =>
    intro st disp hv a ha
    unfold move_affected_macros at hv
    dsimp only at hv
    by_cases h1 : (record_macro_move s st disp a0 swap_offset).1 ≠ e_block_move_result.VALID
    · rw [if_pos h1] at hv
      exact absurd hv h1
    · rw [if_neg h1] at hv
      rw [List.mem_cons] at ha
      rcases ha with rfl | ha
      · exact record_macro_move_loop_legal s a swap_offset _ _ _ (not_not.mp h1)
      · exact ih _ _ hv a ha

theorem get_imacro_from_iblk_range (s : PlacementState) (blk : ClusterBlockId)
    (h : get_imacro_from_iblk blk s.pl_macros ≠ -1) :
    0 ≤ get_imacro_from_iblk blk s.pl_macros
      ∧ get_imacro_from_iblk blk s.pl_macros < (s.pl_macros.length : Int) := by
  have h0 := get_imacro_from_iblk_nonneg h
  unfold get_imacro_from_iblk at h ⊢
  rw [if_pos h0] at h ⊢
  obtain ⟨hle, m, hget, _⟩ := find_imacro_has_block blk s.pl_macros 0 h (le_refl _)
  rw [Int.sub_zero] at hget
  have hlt : ( find_imacro blk s.pl_macros 0).toNat < s.pl_macros.length := by
    by_contra hge
    rw [List.get?_eq_none.mpr (not_lt.mp hge)] at hget
    cases hget
  exact ⟨hle, by omega⟩

theorem macro_members_length_le (s : PlacementState) (a : Int) :
    (macro_members s a).length ≤ max_members s := by
  have key : ∀ (l : List t_pl_macro) (mac : t_pl_macro), mac ∈ l →
      mac.members.length ≤ (l.map (fun mac => mac.members.length)).foldr max 0 := by
    intro l
    induction l with
    | nil => intro mac h; cases h
    | cons h t ih =>
      intro mac hm
      rw [List.mem_cons] at hm
      simp only [List.map_cons, List.foldr_cons]
      rcases hm with rfl | hm
      · exact le_max_left _ _
      · exact le_trans (ih mac hm) (le_max_right _ _)
  unfold macro_members
  split
  · by_cases hlt : a.toNat < s.pl_macros.length
    · have hmem : s.pl_macros.getD a.toNat ⟨[]⟩ ∈ s.pl_macros := by
        rw [List.getD_eq_getElem _ _ hlt]
        exact List.getElem_mem _
      exact key _ _ hmem
    · rw [List.getD_eq_default _ _ (not_lt.mp hlt)]
      exact Nat.zero_le _
  · exact Nat.zero_le _

theorem nodup_range_length (N : Nat) :
    ∀ l : List Int, l.Nodup → (∀ x ∈ l, 0 ≤ x ∧ x < (N : Int)) → l.length ≤ N := by
  intro l hnd hr
  have h1 : l.toFinset ⊆ Finset.Ico (0 : Int) (N : Int) := by
    intro x hx
    rw [List.mem_toFinset] at hx
    rw [Finset.mem_Ico]
    exact hr x hx
  have h2 := Finset.card_le_card h1
  rw [List.toFinset_card_of_nodup hnd, Int.card_Ico] at h2
  simpa using h2

theorem identify_loop_grows (s : PlacementState) (swap_offset : t_pl_offset) :
    ∀ (fuel : Nat) (st : MoveCtx) (macros : List Int) (a : Int) (i : Nat)
      (o : e_block_move_result) (st1 : MoveCtx) (macros1 : List Int),
      identify_loop s swap_offset fuel st macros a i = Except.ok (o, st1, macros1) →
      macros <+: macros1
      ∧ ((∀ x ∈ macros, 0 ≤ x ∧ x < (s.pl_macros.length : Int)) →
          ∀ x ∈ macros1, 0 ≤ x ∧ x < (s.pl_macros.length : Int)) := by
  intro fuel
  induction fuel with
  | zero => intro st macros a i o st1 macros1 h; simp [identify_loop] at h
  | succ fuel ih =>
    intro st macros a i o st1 macros1 h
    unfold identify_loop at h
    cases hget : (macro_members s a).get? i with
    | none =>
      simp only [hget, Except.ok.injEq, Prod.mk.injEq] at h
      obtain ⟨_, _, rfl⟩ := h
      exact ⟨List.prefix_refl _, fun hr => hr⟩
    | some mem =>
      simp only [hget] at h
      by_cases hleg : is_legal_swap_to_location s mem.blk_index
          ((s.block_locs mem.blk_index).loc.add swap_offset) = false
      · rw [if_pos hleg] at h
        simp only [Except.ok.injEq, Prod.mk.injEq] at h
        obtain ⟨_, _, rfl⟩ := h
        exact ⟨List.prefix_refl _, fun hr => hr⟩
      · rw [if_neg hleg] at h
        by_cases hnew : get_imacro_from_iblk
              (s.grid_blocks ((s.block_locs mem.blk_index).loc.add swap_offset)) s.pl_macros ≠ -1
            ∧ ¬ (get_imacro_from_iblk
              (s.grid_blocks ((s.block_locs mem.blk_index).loc.add swap_offset)) s.pl_macros
                ∈ macros)
        · rw [if_pos hnew] at h
          cases hrec : identify_loop s swap_offset fuel st
              (macros ++ [get_imacro_from_iblk
                (s.grid_blocks ((s.block_locs mem.blk_index).loc.add swap_offset)) s.pl_macros])
              (get_imacro_from_iblk
                (s.grid_blocks ((s.block_locs mem.blk_index).loc.add swap_offset)) s.pl_macros)
              0 with
          | error e => simp only [hrec] at h; cases h
          | ok r =>
            obtain ⟨o2, st2, macros2⟩ := r
            simp only [hrec] at h
            obtain ⟨k1, k2⟩ := ih _ _ _ _ _ _ _ hrec
            have hp : macros <+: macros2 := (List.prefix_append _ _).trans k1
            have hr2 : (∀ x ∈ macros, 0 ≤ x ∧ x < (s.pl_macros.length : Int)) →
                ∀ x ∈ macros2, 0 ≤ x ∧ x < (s.pl_macros.length : Int) := by
              intro hr
              apply k2
              intro x hx
              rw [List.mem_append, List.mem_singleton] at hx
              rcases hx with hx | rfl
              · exact hr x hx
              · exact get_imacro_from_iblk_range s _ hnew.1
            by_cases hv : o2 = e_block_move_result.VALID
            · rw [if_pos hv] at h
              obtain ⟨k3, k4⟩ := ih _ _ _ _ _ _ _ h
              exact ⟨hp.trans k3, fun hr => k4 (hr2 hr)⟩
            · rw [if_neg hv] at h
              simp only [Except.ok.injEq, Prod.mk.injEq] at h
              obtain ⟨_, _, rfl⟩ := h
              exact ⟨hp, hr2⟩
        · rw [if_neg hnew] at h
          exact ih _ _ _ _ _ _ _ h

theorem identify_loop_returns (s : PlacementState) (swap_offset : t_pl_offset) :
    ∀ (fuel : Nat) (st : MoveCtx) (macros : List Int) (a : Int) (i : Nat),
      macros.Nodup → (∀ x ∈ macros, 0 ≤ x ∧ x < (s.pl_macros.length : Int)) →
      ((macro_members s a).length - i) + 1
          + (s.pl_macros.length - macros.length) * (max_members s + 2) ≤ fuel →
      ∃ res, identify_loop s swap_offset fuel st macros a i = Except.ok res := by
  intro fuel
  induction fuel with
  | zero => intro st macros a i _ _ hf; omega
  | succ fuel ih =>
    intro st macros a i hnd hr hf
    unfold identify_loop
    cases hget : (macro_members s a).get? i with
    | none => exact ⟨_, rfl⟩
    | some mem =>
      dsimp only
      have hi : i < (macro_members s a).length := by
        by_contra hge
        rw [List.get?_eq_none.mpr (not_lt.mp hge)] at hget
        cases hget
      by_cases hleg : is_legal_swap_to_location s mem.blk_index
          ((s.block_locs mem.blk_index).loc.add swap_offset) = false
      · rw [if_pos hleg]
        exact ⟨_, rfl⟩
      · rw [if_neg hleg]
        by_cases hnew : get_imacro_from_iblk
              (s.grid_blocks ((s.block_locs mem.blk_index).loc.add swap_offset)) s.pl_macros ≠ -1
            ∧ ¬ (get_imacro_from_iblk
              (s.grid_blocks ((s.block_locs mem.blk_index).loc.add swap_offset)) s.pl_macros
                ∈ macros)
        · rw [if_pos hnew]
          generalize hx : get_imacro_from_iblk
              (s.grid_blocks ((s.block_locs mem.blk_index).loc.add swap_offset)) s.pl_macros = x
            at hnew ⊢
          have hxr : 0 ≤ x ∧ x < (s.pl_macros.length : Int) := by
            rw [← hx] at hnew ⊢
            exact get_imacro_from_iblk_range s _ hnew.1
          have hnd2 : (macros ++ [x]).Nodup := by
            refine List.Nodup.append hnd (List.nodup_singleton _) ?_
            intro y hy1 hy2
            rw [List.mem_singleton] at hy2
            subst hy2
            exact hnew.2 hy1
          have hr2 : ∀ y ∈ macros ++ [x], 0 ≤ y ∧ y < (s.pl_macros.length : Int) := by
            intro y hy
            rw [List.mem_append, List.mem_singleton] at hy
            rcases hy with hy | rfl
            · exact hr y hy
            · exact hxr
          have hlen := nodup_range_length _ _ hnd2 hr2
          rw [List.length_append, List.length_singleton] at hlen
          have e : (s.pl_macros.length - macros.length) * (max_members s + 2)
              = (s.pl_macros.length - (macros.length + 1)) * (max_members s + 2)
                + (max_members s + 2) := by
            have : s.pl_macros.length - macros.length
                = (s.pl_macros.length - (macros.length + 1)) + 1 := by omega
            rw [this, Nat.add_mul, Nat.one_mul]
          rw [e] at hf
          have hLx := macro_members_length_le s x
          obtain ⟨res2, hrec⟩ := ih st (macros ++ [x]) x 0 hnd2 hr2 (by
            rw [List.length_append, List.length_singleton]
            generalize (s.pl_macros.length - (macros.length + 1)) * (max_members s + 2) = P at hf ⊢
            omega)
          obtain ⟨o2, st2, macros2⟩ := res2
          simp only [hrec]
          by_cases hv : o2 = e_block_move_result.VALID
          · rw [if_pos hv]
            obtain ⟨k1, k2⟩ := identify_loop_grows s swap_offset _ _ _ _ _ _ _ _ hrec
            obtain ⟨k3, _⟩ := identify_loop_inv s swap_offset _ _ _ _ _ _ _ _ hrec hnd2
            have hlen2 := k1.length_le
            rw [List.length_append, List.length_singleton] at hlen2
            have hmul : (s.pl_macros.length - macros2.length) * (max_members s + 2)
                ≤ (s.pl_macros.length - (macros.length + 1)) * (max_members s + 2) :=
              Nat.mul_le_mul_right _ (by omega)
            exact ih st2 macros2 a (i + 1) k3 (k2 hr2) (by
              generalize (s.pl_macros.length - (macros.length + 1)) * (max_members s + 2) = P
                at hf hmul ⊢
              generalize (s.pl_macros.length - macros2.length) * (max_members s + 2) = Q
                at hmul ⊢
              omega)
          · rw [if_neg hv]
            exact ⟨_, rfl⟩
        · rw [if_neg hnew]
          exact ih st macros a (i + 1) hnd hr (by
            generalize (s.pl_macros.length - macros.length) * (max_members s + 2) = K at hf ⊢
            omega)

theorem identify_loop_closure (s : PlacementState) (swap_offset : t_pl_offset) :
    ∀ (fuel : Nat) (st : MoveCtx) (macros : List Int) (a : Int) (i : Nat)
      (o : e_block_move_result) (st1 : MoveCtx) (macros1 : List Int),
      identify_loop s swap_offset fuel st macros a i = Except.ok (o, st1, macros1) →
      (o = e_block_move_result.ABORT →
        ∃ m ∈ (macro_members s a).drop i, is_legal_swap_to_location s m.blk_index
          ((s.block_locs m.blk_index).loc.add swap_offset) = false)
      ∧ ((∀ x ∈ macros1, x ∈ macros ∨ ∀ m ∈ macro_members s x,
            is_legal_swap_to_location s m.blk_index
              ((s.block_locs m.blk_index).loc.add swap_offset) = true) →
          o = e_block_move_result.VALID →
          (∀ m ∈ (macro_members s a).drop i,
            is_legal_swap_to_location s m.blk_index
                ((s.block_locs m.blk_index).loc.add swap_offset) = true
              ∧ (get_imacro_from_iblk (dest_occupant s swap_offset m) s.pl_macros ≠ -1 →
                  get_imacro_from_iblk (dest_occupant s swap_offset m) s.pl_macros ∈ macros1))
          ∧ (∀ y ∈ macros1, y ∈ macros ∨ ∀ m ∈ macro_members s y,
              get_imacro_from_iblk (dest_occupant s swap_offset m) s.pl_macros ≠ -1 →
                get_imacro_from_iblk (dest_occupant s swap_offset m) s.pl_macros ∈ macros1)) := by
  intro fuel
  induction fuel with
  | zero => intro st macros a i o st1 macros1 h; simp [identify_loop] at h
  | succ fuel ih =>
    intro st macros a i o st1 macros1 h
    have hgrow := identify_loop_grows s swap_offset _ _ _ _ _ _ _ _ h
    unfold identify_loop at h
    cases hget : (macro_members s a).get? i with
    | none =>
      simp only [hget, Except.ok.injEq, Prod.mk.injEq] at h
      obtain ⟨rfl, _, rfl⟩ := h
      have hnil : (macro_members s a).drop i = [] :=
        List.drop_eq_nil_of_le (List.get?_eq_none.mp hget)
      rw [hnil]
      exact ⟨fun hc => (by cases hc), fun _ _ => ⟨fun m hm => (by cases hm),
        fun y hy => Or.inl hy⟩⟩
    | some mem =>
      simp only [hget] at h
      have hdrop := drop_of_get? hget
      rw [hdrop]
      by_cases hleg : is_legal_swap_to_location s mem.blk_index
          ((s.block_locs mem.blk_index).loc.add swap_offset) = false
      · rw [if_pos hleg] at h
        simp only [Except.ok.injEq, Prod.mk.injEq] at h
        obtain ⟨rfl, _, rfl⟩ := h
        exact ⟨fun _ => ⟨mem, List.mem_cons_self _ _, hleg⟩, fun _ hc => (by cases hc)⟩
      · rw [if_neg hleg] at h
        have hlegt : is_legal_swap_to_location s mem.blk_index
            ((s.block_locs mem.blk_index).loc.add swap_offset) = true := by simpa using hleg
        by_cases hnew : get_imacro_from_iblk
              (s.grid_blocks ((s.block_locs mem.blk_index).loc.add swap_offset)) s.pl_macros ≠ -1
            ∧ ¬ (get_imacro_from_iblk
              (s.grid_blocks ((s.block_locs mem.blk_index).loc.add swap_offset)) s.pl_macros
                ∈ macros)
        · rw [if_pos hnew] at h
          have hdj : get_imacro_from_iblk (dest_occupant s swap_offset mem) s.pl_macros
              = get_imacro_from_iblk
                (s.grid_blocks ((s.block_locs mem.blk_index).loc.add swap_offset)) s.pl_macros :=
            rfl
          generalize hx : get_imacro_from_iblk
              (s.grid_blocks ((s.block_locs mem.blk_index).loc.add swap_offset)) s.pl_macros = x
            at hnew h hdj
          cases hrec : identify_loop s swap_offset fuel st (macros ++ [x]) x 0 with
          | error e => simp only [hrec] at h; cases h
          | ok r =>
            obtain ⟨o2, st2, macros2⟩ := r
            simp only [hrec] at h
            obtain ⟨A2, B2⟩ := ih _ _ _ _ _ _ _ hrec
            obtain ⟨g2, _⟩ := identify_loop_grows s swap_offset _ _ _ _ _ _ _ _ hrec
            have hx2 : x ∈ macros2 :=
              g2.subset (List.mem_append_right _ (List.mem_singleton.mpr rfl))
            have hsub2 : ∀ y ∈ macros, y ∈ macros2 :=
              fun y hy => g2.subset (List.mem_append_left _ hy)
            rw [List.drop_zero] at A2 B2
            by_cases hv : o2 = e_block_move_result.VALID
            · rw [if_pos hv] at h
              obtain ⟨A3, B3⟩ := ih _ _ _ _ _ _ _ h
              obtain ⟨g3, _⟩ := identify_loop_grows s swap_offset _ _ _ _ _ _ _ _ h
              refine ⟨fun hab => ?_, fun HL hvo => ?_⟩
              · obtain ⟨m, hm, hml⟩ := A3 hab
                exact ⟨m, List.mem_cons_of_mem _ hm, hml⟩
              · obtain ⟨T3, C3⟩ := B3 (fun y hy => (HL y hy).imp (hsub2 y) id) hvo
                obtain ⟨T2, C2⟩ := B2 (fun y hy =>
                  (HL y (g3.subset hy)).imp (fun hy1 => List.mem_append_left _ hy1) id) hv
                refine ⟨fun m hm => ?_, fun y hy => ?_⟩
                · rw [List.mem_cons] at hm
                  rcases hm with rfl | hm
                  · exact ⟨hlegt, fun _ => by rw [hdj]; exact g3.subset hx2⟩
                  · exact T3 m hm
                · rcases C3 y hy with hy2 | hcl
                  · rcases C2 y hy2 with hy1 | hcl2
                    · rw [List.mem_append, List.mem_singleton] at hy1
                      rcases hy1 with hy1 | rfl
                      · exact Or.inl hy1
                      · exact Or.inr (fun m hm hne => g3.subset ((T2 m hm).2 hne))
                    · exact Or.inr (fun m hm hne => g3.subset (hcl2 m hm hne))
                  · exact Or.inr hcl
            · rw [if_neg hv] at h
              simp only [Except.ok.injEq, Prod.mk.injEq] at h
              obtain ⟨rfl, _, rfl⟩ := h
              refine ⟨fun hc => (by cases hc), fun HL _ => ?_⟩
              have ho2 : o2 = e_block_move_result.ABORT := by
                rcases identify_loop_outcome s swap_offset _ _ _ _ _ _ _ _ hrec with h1 | h1
                · exact absurd h1 hv
                · exact h1
              obtain ⟨m, hm, hml⟩ := A2 ho2
              rcases HL x hx2 with hxm | hxl
              · exact absurd hxm hnew.2
              · rw [hxl m hm] at hml
                cases hml
        · rw [if_neg hnew] at h
          obtain ⟨A3, B3⟩ := ih _ _ _ _ _ _ _ h
          obtain ⟨g3, _⟩ := identify_loop_grows s swap_offset _ _ _ _ _ _ _ _ h
          refine ⟨fun hab => ?_, fun HL hvo => ?_⟩
          · obtain ⟨m, hm, hml⟩ := A3 hab
            exact ⟨m, List.mem_cons_of_mem _ hm, hml⟩
          · obtain ⟨T3, C3⟩ := B3 HL hvo
            refine ⟨fun m hm => ?_, C3⟩
            rw [List.mem_cons] at hm
            rcases hm with rfl | hm
            · refine ⟨hlegt, fun hne => ?_⟩
              by_contra hnot
              exact hnew ⟨hne, fun hin => hnot (g3.subset hin)⟩
            · exact T3 m hm

/-- C27: when a member of the macro `imacro_cur`, or of a macro reached from it
by following the macros of destination occupants under the same offset, has an
illegal destination, `record_macro_self_swaps` returns ABORT (for every amount
of fuel from `self_swap_fuel` on). The function
`identify_macro_self_swap_affected_macros` itself returns ABORT only when a
member of the macro it is called on has an illegal destination. -/
theorem record_macro_self_swaps_aborts_on_illegal (s : PlacementState) (st : MoveCtx)
    (imacro_cur : Int) (swap_offset : t_pl_offset) (j : Int) (m : t_pl_macro_member)
    (hreach : reached s swap_offset imacro_cur j) (hm : m ∈ macro_members s j)
    (hill : is_legal_swap_to_location s m.blk_index
      ((s.block_locs m.blk_index).loc.add swap_offset) = false) :
    (∀ fuel : Nat, self_swap_fuel s ≤ fuel →
      ∃ st1, record_macro_self_swaps s fuel st imacro_cur swap_offset
        = Except.ok (e_block_move_result.ABORT, st1))
    ∧ (∀ (fuel : Nat) (st0 : MoveCtx) (macros : List Int) (a : Int) (st1 : MoveCtx)
        (macros1 : List Int),
        identify_macro_self_swap_affected_macros s fuel st0 macros a swap_offset
          = Except.ok (e_block_move_result.ABORT, st1, macros1) →
        ∃ m1 ∈ macro_members s a, is_legal_swap_to_location s m1.blk_index
          ((s.block_locs m1.blk_index).loc.add swap_offset) = false) := by
  refine ⟨fun fuel hfuel => ?_, fun fuel st0 macros a st1 macros1 h => ?_⟩
  · have hL := macro_members_length_le s imacro_cur
    obtain ⟨res, hid⟩ := identify_loop_returns s swap_offset fuel (clear_move_blocks st) []
      imacro_cur 0 List.nodup_nil (fun x hx => (by cases hx)) (by
        unfold self_swap_fuel at hfuel
        rw [Nat.add_mul, Nat.one_mul] at hfuel
        simp only [List.length_nil, Nat.sub_zero]
        generalize s.pl_macros.length * (max_members s + 2) = K at hfuel ⊢
        omega)
    obtain ⟨o, st1, macros⟩ := res
    obtain ⟨A, B⟩ := identify_loop_closure s swap_offset _ _ _ _ _ _ _ _ hid
    unfold record_macro_self_swaps identify_macro_self_swap_affected_macros
    simp only [hid]
    by_cases hv : o ≠ e_block_move_result.VALID
    · rw [if_pos hv]
      rcases identify_loop_outcome s swap_offset _ _ _ _ _ _ _ _ hid with h1 | h1
      · exact absurd h1 hv
      · rw [h1]
        exact ⟨_, rfl⟩
    · rw [if_neg hv]
      by_cases hmv : (move_affected_macros s swap_offset (std_unique macros) st1 []).1
          ≠ e_block_move_result.VALID
      · rw [if_pos hmv]
        rcases move_affected_macros_outcome s swap_offset (std_unique macros) st1 [] with h1 | h1
        · exact absurd h1 hmv
        · rw [h1]
          exact ⟨_, rfl⟩
      · exfalso
        have hlegal := move_affected_macros_legal s swap_offset _ _ _ (not_not.mp hmv)
        have hlegal2 : ∀ x ∈ macros, ∀ m ∈ macro_members s x,
            is_legal_swap_to_location s m.blk_index
              ((s.block_locs m.blk_index).loc.add swap_offset) = true :=
          fun x hx => hlegal x ((mem_std_unique x macros).mpr hx)
        obtain ⟨T, C⟩ := B (fun x hx => Or.inr (hlegal2 x hx)) (not_not.mp hv)
        rw [List.drop_zero] at T
        have hclosed : ∀ k : Int, reached s swap_offset imacro_cur k →
            k = imacro_cur ∨ k ∈ macros := by
          intro k hk
          induction hk with
          | refl => exact Or.inl rfl
          | tail _ hstep ihk =>
            obtain ⟨hne, m2, hm2, hdj⟩ := hstep
            rw [← hdj] at hne ⊢
            rcases ihk with rfl | hin
            · exact Or.inr ((T m2 hm2).2 hne)
            · rcases C _ hin with hnil | hcl
              · cases hnil
              · exact Or.inr (hcl m2 hm2 hne)
        have hleg : is_legal_swap_to_location s m.blk_index
            ((s.block_locs m.blk_index).loc.add swap_offset) = true := by
          rcases hclosed j hreach with rfl | hin
          · exact (T m hm).1
          · exact hlegal2 j hin m hm
        rw [hleg] at hill
        cases hill
  · unfold identify_macro_self_swap_affected_macros at h
    obtain ⟨m1, hm1, hml⟩ := (identify_loop_closure s swap_offset _ _ _ _ _ _ _ _ h).1 rfl
    rw [List.drop_zero] at hm1
    exact ⟨m1, hm1, hml⟩

/-- Witness of C27 on `s_stacked`, macro 0 moved up by one: the first member of
macro 0 lands on macro 1, whose first member has its destination outside the
grid. The nested call of `identify_macro_self_swap_affected_macros` aborts, the
call on macro 0 returns VALID, and `record_macro_self_swaps` returns ABORT. -/
theorem record_macro_self_swaps_aborts_on_illegal_witness :
    identify_macro_self_swap_affected_macros s_stacked 12 MoveCtx.empty [] 0 ⟨0, 1, 0⟩
        = Except.ok (e_block_move_result.VALID,
            ⟨[], ["macro move to location illegal"]⟩, [1])
    ∧ ∃ st1, record_macro_self_swaps s_stacked 12 MoveCtx.empty 0 ⟨0, 1, 0⟩
        = Except.ok (e_block_move_result.ABORT, st1) :=
  ⟨rfl, (record_macro_self_swaps_aborts_on_illegal s_stacked MoveCtx.empty 0 ⟨0, 1, 0⟩ 1
    ⟨2, ⟨0, 0, 0⟩⟩
    (Relation.ReflTransGen.single ⟨by decide, ⟨0, ⟨0, 0, 0⟩⟩, by decide, by decide⟩)
    (by decide) (by decide)).1 12 (by decide)⟩

theorem exists_untried (tried : List Int) (d : Int) (hd : 0 ≤ d)
    (hlen : (tried.length : Int) < d + 1) : ∃ v, 0 ≤ v ∧ v ≤ d ∧ v ∉ tried := by
  by_contra h
  push_neg at h
  have hsub : Finset.Icc (0 : Int) d ⊆ tried.toFinset := by
    intro v hv
    rw [Finset.mem_Icc] at hv
    rw [List.mem_toFinset]
    exact h v hv.1 hv.2
  have h1 := Finset.card_le_card hsub
  rw [Int.card_Icc] at h1
  have h2 := List.toFinset_card_le tried
  omega

theorem rng_succ_fair : fair_source rng_succ := by
  intro n imax v hv0 hv1
  refine ⟨(v + (imax + 1) * ((n : Int) + 1) - ((n : Int) + 1)).toNat, ?_⟩
  unfold irand rng_succ
  have hk : (0 : Int) ≤ v + (imax + 1) * ((n : Int) + 1) - ((n : Int) + 1) := by nlinarith
  have e : (((n + (v + (imax + 1) * ((n : Int) + 1) - ((n : Int) + 1)).toNat + 1 : Nat)) : Int)
      = v + (imax + 1) * ((n : Int) + 1) := by
    push_cast
    rw [Int.toNat_of_nonneg hk]
    ring
  rw [e, Int.add_mul_emod_self_left]
  exact Int.emod_eq_of_lt hv0 (by omega)

theorem row_search_loop_step (rng : Nat → Nat) (keys : List Int) (y_lower : Nat) (y_range : Int)
    (min_cy max_cy cx_from cy_from cx_to : Int) :
    ∀ (fuel : Nat) (tried_dy : List Int) (cy_to : Int) (n : Nat)
      (r : Except SearchFault (Bool × Int × Nat × List Int)),
      row_search_loop rng keys y_lower y_range min_cy max_cy cx_from cy_from cx_to fuel tried_dy
        cy_to n = r → r ≠ Except.error SearchFault.out_of_fuel →
      row_search_loop rng keys y_lower y_range min_cy max_cy cx_from cy_from cx_to (fuel + 1)
        tried_dy cy_to n = r := by
  intro fuel
  induction fuel with
  | zero =>
    intro tried_dy cy_to n r h hne
    unfold row_search_loop at h
    exact absurd h.symm hne
  | succ fuel ih =>
    intro tried_dy cy_to n r h hne
    rw [row_search_loop] at h ⊢
    by_cases hlt : (tried_dy.length : Int) < y_range
    · rw [if_pos hlt] at h ⊢
      dsimp only at h ⊢
      by_cases hmem : irand rng n (y_range - 1) ∈ tried_dy
      · rw [if_pos hmem] at h ⊢
        exact ih _ _ _ _ h hne
      · rw [if_neg hmem] at h ⊢
        cases hk : keys.get? (y_lower + (irand rng n (y_range - 1)).toNat) with
        | none => simp only [hk] at h ⊢; exact h
        | some cy =>
          simp only [hk] at h ⊢
          by_cases hassert : cy < min_cy ∨ max_cy < cy
          · rw [if_pos hassert] at h ⊢; exact h
          · rw [if_neg hassert] at h ⊢
            by_cases hsame : cx_from = cx_to ∧ cy_from = cy
            · rw [if_pos hsame] at h ⊢
              exact ih _ _ _ _ h hne
            · rw [if_neg hsame] at h ⊢
              exact h
    · rw [if_neg hlt] at h ⊢
      exact h

theorem row_search_loop_mono (rng : Nat → Nat) (keys : List Int) (y_lower : Nat) (y_range : Int)
    (min_cy max_cy cx_from cy_from cx_to : Int) (fuel : Nat) (tried_dy : List Int) (cy_to : Int)
    (n : Nat) (r : Except SearchFault (Bool × Int × Nat × List Int))
    (h : row_search_loop rng keys y_lower y_range min_cy max_cy cx_from cy_from cx_to fuel
      tried_dy cy_to n = r) (hne : r ≠ Except.error SearchFault.out_of_fuel) :
    ∀ fuel1, fuel ≤ fuel1 →
      row_search_loop rng keys y_lower y_range min_cy max_cy cx_from cy_from cx_to fuel1
        tried_dy cy_to n = r := by
  intro fuel1 hle
  induction fuel1, hle using Nat.le_induction with
  | base => exact h
  | succ m _ ihm => exact row_search_loop_step _ _ _ _ _ _ _ _ _ _ _ _ _ _ ihm hne

theorem column_search_loop_step (env : SearchEnv) (rng : Nat → Nat)
    (min_cx max_cx delta_cx cx_from cy_from possibilities : Int) :
    ∀ (fuel : Nat) (tried : List Int) (min_cy max_cy cx_to cy_to : Int) (n rows : Nat)
      (r : Except SearchFault KernelResult),
      column_search_loop env rng min_cx max_cx delta_cx cx_from cy_from possibilities fuel tried
        min_cy max_cy cx_to cy_to n rows = r → r ≠ Except.error SearchFault.out_of_fuel →
      column_search_loop env rng min_cx max_cx delta_cx cx_from cy_from possibilities (fuel + 1)
        tried min_cy max_cy cx_to cy_to n rows = r := by
  intro fuel
  induction fuel with
  | zero =>
    intro tried min_cy max_cy cx_to cy_to n rows r h hne
    unfold column_search_loop at h
    exact absurd h.symm hne
  | succ fuel ih =>
    intro tried min_cy max_cy cx_to cy_to n rows r h hne
    rw [column_search_loop] at h ⊢
    by_cases hpos : (tried.length : Int) < possibilities
    · rw [if_pos hpos] at h ⊢
      dsimp only at h ⊢
      by_cases hassert : min_cx + irand rng n delta_cx < min_cx
          ∨ max_cx < min_cx + irand rng n delta_cx
      · rw [if_pos hassert] at h ⊢; exact h
      · rw [if_neg hassert] at h ⊢
        by_cases hmem : min_cx + irand rng n delta_cx ∈ tried
        · rw [if_pos hmem] at h ⊢
          exact ih _ _ _ _ _ _ _ _ h hne
        · rw [if_neg hmem] at h ⊢
          cases hk : column_at env (min_cx + irand rng n delta_cx) with
          | none => simp only [hk] at h ⊢; exact h
          | some keys =>
            simp only [hk] at h ⊢
            cases hw : column_window env.type_index keys min_cy max_cy with
            | none =>
              simp only [hw] at h ⊢
              exact ih _ _ _ _ _ _ _ _ h hne
            | some w =>
              obtain ⟨y_lower, y_upper, min_cy1, max_cy1⟩ := w
              simp only [hw] at h ⊢
              by_cases hneg : (y_upper : Int) - (y_lower : Int) < 0
              · rw [if_pos hneg] at h ⊢; exact h
              · rw [if_neg hneg] at h ⊢
                cases hr : row_search_loop rng keys y_lower ((y_upper : Int) - (y_lower : Int))
                    min_cy1 max_cy1 cx_from cy_from (min_cx + irand rng n delta_cx) fuel [] cy_to
                    (n + 1) with
                | error e =>
                  simp only [hr] at h
                  have he : e ≠ SearchFault.out_of_fuel := by
                    intro heq
                    rw [heq] at h
                    exact hne h.symm
                  have hr1 := row_search_loop_step _ _ _ _ _ _ _ _ _ _ _ _ _ _ hr
                    (by intro hc; cases hc; exact he rfl)
                  simp only [hr1]
                  exact h
                | ok rr =>
                  obtain ⟨legal, cy1, n1, tried_dy⟩ := rr
                  simp only [hr] at h
                  have hr1 := row_search_loop_step _ _ _ _ _ _ _ _ _ _ _ _ _ _ hr
                    (by intro hc; cases hc)
                  simp only [hr1]
                  cases legal with
                  | true =>
                    simp only [if_true] at h ⊢
                    exact h
                  | false =>
                    simp only [Bool.false_eq_true, if_false] at h ⊢
                    exact ih _ _ _ _ _ _ _ _ h hne
    · rw [if_neg hpos] at h ⊢
      exact h

theorem column_search_loop_mono (env : SearchEnv) (rng : Nat → Nat)
    (min_cx max_cx delta_cx cx_from cy_from possibilities : Int) (fuel : Nat) (tried : List Int)
    (min_cy max_cy cx_to cy_to : Int) (n rows : Nat) (r : Except SearchFault KernelResult)
    (h : column_search_loop env rng min_cx max_cx delta_cx cx_from cy_from possibilities fuel
      tried min_cy max_cy cx_to cy_to n rows = r)
    (hne : r ≠ Except.error SearchFault.out_of_fuel) :
    ∀ fuel1, fuel ≤ fuel1 →
      column_search_loop env rng min_cx max_cx delta_cx cx_from cy_from possibilities fuel1
        tried min_cy max_cy cx_to cy_to n rows = r := by
  intro fuel1 hle
  induction fuel1, hle using Nat.le_induction with
  | base => exact h
  | succ m _ ihm => exact column_search_loop_step _ _ _ _ _ _ _ _ _ _ _ _ _ _ _ _ _ ihm hne

theorem row_search_loop_returns (rng : Nat → Nat) (hfair : fair_source rng) (keys : List Int)
    (y_lower : Nat) (y_range : Int) (min_cy max_cy cx_from cy_from cx_to : Int) :
    ∀ (d : Nat) (tried_dy : List Int) (cy_to : Int) (n : Nat),
      y_range.toNat - tried_dy.length ≤ d →
      ∃ (fuel : Nat) (r : Except SearchFault (Bool × Int × Nat × List Int)),
        row_search_loop rng keys y_lower y_range min_cy max_cy cx_from cy_from cx_to fuel
          tried_dy cy_to n = r ∧ r ≠ Except.error SearchFault.out_of_fuel := by
  intro d
  induction d with
  | zero =>
    intro tried_dy cy_to n hd
    refine ⟨1, _, rfl, ?_⟩
    rw [row_search_loop]
    have hlt : ¬ (tried_dy.length : Int) < y_range := by omega
    rw [if_neg hlt]
    intro hc; cases hc
  | succ d ih =>
    intro tried_dy cy_to n hd
    by_cases hlt : (tried_dy.length : Int) < y_range
    · obtain ⟨v, hv0, hv1, hv⟩ := exists_untried tried_dy (y_range - 1) (by omega) (by omega)
      obtain ⟨k, hk⟩ := hfair n (y_range - 1) v hv0 hv1
      have head : ∀ (n : Nat), irand rng n (y_range - 1) ∉ tried_dy →
          ∃ (fuel : Nat) (r : Except SearchFault (Bool × Int × Nat × List Int)),
            row_search_loop rng keys y_lower y_range min_cy max_cy cx_from cy_from cx_to fuel
              tried_dy cy_to n = r ∧ r ≠ Except.error SearchFault.out_of_fuel := by
        intro n hnot
        cases hget : keys.get? (y_lower + (irand rng n (y_range - 1)).toNat) with
        | none =>
          refine ⟨1, _, rfl, ?_⟩
          rw [row_search_loop, if_pos hlt]
          dsimp only
          rw [if_neg hnot]
          simp only [hget]
          intro hc; cases hc
        | some cy =>
          by_cases hassert : cy < min_cy ∨ max_cy < cy
          · refine ⟨1, _, rfl, ?_⟩
            rw [row_search_loop, if_pos hlt]
            dsimp only
            rw [if_neg hnot]
            simp only [hget]
            rw [if_pos hassert]
            intro hc; cases hc
          · by_cases hsame : cx_from = cx_to ∧ cy_from = cy
            · obtain ⟨F, r, hF, hr⟩ := ih (tried_dy ++ [irand rng n (y_range - 1)]) cy (n + 1)
                (by rw [List.length_append, List.length_singleton]; omega)
              refine ⟨F + 1, r, ?_, hr⟩
              rw [row_search_loop, if_pos hlt]
              dsimp only
              rw [if_neg hnot]
              simp only [hget]
              rw [if_neg hassert, if_pos hsame]
              exact hF
            · refine ⟨1, _, rfl, ?_⟩
              rw [row_search_loop, if_pos hlt]
              dsimp only
              rw [if_neg hnot]
              simp only [hget]
              rw [if_neg hassert, if_neg hsame]
              intro hc; cases hc
      have inner : ∀ (k : Nat) (n : Nat), irand rng (n + k) (y_range - 1) ∉ tried_dy →
          ∃ (fuel : Nat) (r : Except SearchFault (Bool × Int × Nat × List Int)),
            row_search_loop rng keys y_lower y_range min_cy max_cy cx_from cy_from cx_to fuel
              tried_dy cy_to n = r ∧ r ≠ Except.error SearchFault.out_of_fuel := by
        intro k
        induction k with
        | zero =>
          intro n hnot
          exact head n hnot
        | succ k ihk =>
          intro n hnot
          by_cases hmem : irand rng n (y_range - 1) ∈ tried_dy
          · have hnot1 : irand rng (n + 1 + k) (y_range - 1) ∉ tried_dy := by
              have e : n + 1 + k = n + (k + 1) := by omega
              rw [e]
              exact hnot
            obtain ⟨F, r, hF, hr⟩ := ihk (n + 1) hnot1
            refine ⟨F + 1, r, ?_, hr⟩
            rw [row_search_loop, if_pos hlt]
            dsimp only
            rw [if_pos hmem]
            exact hF
          · exact head n hmem
      exact inner k n (by rw [hk]; exact hv)
    · refine ⟨1, _, rfl, ?_⟩
      rw [row_search_loop, if_neg hlt]
      intro hc; cases hc

theorem column_search_loop_returns (env : SearchEnv) (rng : Nat → Nat) (hfair : fair_source rng)
    (min_cx max_cx delta_cx cx_from cy_from possibilities : Int) (hdelta : 0 ≤ delta_cx)
    (hposs : possibilities ≤ delta_cx + 1) :
    ∀ (d : Nat) (tried : List Int) (min_cy max_cy cx_to cy_to : Int) (n rows : Nat),
      (delta_cx + 1).toNat - tried.length ≤ d →
      ∃ (fuel : Nat) (r : Except SearchFault KernelResult),
        column_search_loop env rng min_cx max_cx delta_cx cx_from cy_from possibilities fuel
          tried min_cy max_cy cx_to cy_to n rows = r
        ∧ r ≠ Except.error SearchFault.out_of_fuel := by
  intro d
  induction d with
  | zero =>
    intro tried min_cy max_cy cx_to cy_to n rows hd
    refine ⟨1, _, rfl, ?_⟩
    rw [column_search_loop]
    have hlt : ¬ (tried.length : Int) < possibilities := by omega
    rw [if_neg hlt]
    intro hc; cases hc
  | succ d ih =>
    intro tried min_cy max_cy cx_to cy_to n rows hd
    by_cases hlt : (tried.length : Int) < possibilities
    · obtain ⟨v, hv0, hv1, hv⟩ := exists_untried (tried.map (fun c => c - min_cx)) delta_cx hdelta
        (by rw [List.length_map]; omega)
      have hv2 : min_cx + v ∉ tried := by
        intro hin
        apply hv
        rw [List.mem_map]
        exact ⟨min_cx + v, hin, by omega⟩
      obtain ⟨k, hk⟩ := hfair n delta_cx v hv0 hv1
      have hlen1 : ∀ c : Int, (delta_cx + 1).toNat - (tried ++ [c]).length ≤ d := by
        intro c
        rw [List.length_append, List.length_singleton]
        omega
      have head : ∀ (n : Nat) (cx_to : Int), min_cx + irand rng n delta_cx ∉ tried →
          ∃ (fuel : Nat) (r : Except SearchFault KernelResult),
            column_search_loop env rng min_cx max_cx delta_cx cx_from cy_from possibilities fuel
              tried min_cy max_cy cx_to cy_to n rows = r
            ∧ r ≠ Except.error SearchFault.out_of_fuel := by
        intro n cx_to hnot
        by_cases hassert : min_cx + irand rng n delta_cx < min_cx
            ∨ max_cx < min_cx + irand rng n delta_cx
        · refine ⟨1, _, rfl, ?_⟩
          rw [column_search_loop, if_pos hlt]
          dsimp only
          rw [if_pos hassert]
          intro hc; cases hc
        · cases hcol : column_at env (min_cx + irand rng n delta_cx) with
          | none =>
            refine ⟨1, _, rfl, ?_⟩
            rw [column_search_loop, if_pos hlt]
            dsimp only
            rw [if_neg hassert, if_neg hnot]
            simp only [hcol]
            intro hc; cases hc
          | some keys =>
            cases hw : column_window env.type_index keys min_cy max_cy with
            | none =>
              obtain ⟨F, r, hF, hr⟩ := ih (tried ++ [min_cx + irand rng n delta_cx]) min_cy max_cy
                (min_cx + irand rng n delta_cx) cy_to (n + 1) rows (hlen1 _)
              refine ⟨F + 1, r, ?_, hr⟩
              rw [column_search_loop, if_pos hlt]
              dsimp only
              rw [if_neg hassert, if_neg hnot]
              simp only [hcol, hw]
              exact hF
            | some w =>
              obtain ⟨y_lower, y_upper, min_cy1, max_cy1⟩ := w
              by_cases hneg : (y_upper : Int) - (y_lower : Int) < 0
              · refine ⟨1, _, rfl, ?_⟩
                rw [column_search_loop, if_pos hlt]
                dsimp only
                rw [if_neg hassert, if_neg hnot]
                simp only [hcol, hw]
                rw [if_pos hneg]
                intro hc; cases hc
              · obtain ⟨F1, r1, hF1, hr1⟩ := row_search_loop_returns rng hfair keys y_lower
                  ((y_upper : Int) - (y_lower : Int)) min_cy1 max_cy1 cx_from cy_from
                  (min_cx + irand rng n delta_cx) _ [] cy_to (n + 1) (le_refl _)
                cases r1 with
                | error e =>
                  refine ⟨F1 + 1, Except.error e, ?_, ?_⟩
                  · rw [column_search_loop, if_pos hlt]
                    dsimp only
                    rw [if_neg hassert, if_neg hnot]
                    simp only [hcol, hw]
                    rw [if_neg hneg]
                    simp only [hF1]
                  · intro hc
                    cases hc
                    exact hr1 rfl
                | ok rr =>
                  obtain ⟨legal, cy1, n1, tried_dy⟩ := rr
                  cases legal with
                  | true =>
                    refine ⟨F1 + 1, Except.ok ⟨true, min_cx + irand rng n delta_cx, cy1, n1,
                      tried ++ [min_cx + irand rng n delta_cx], rows + tried_dy.length⟩, ?_, ?_⟩
                    · rw [column_search_loop, if_pos hlt]
                      dsimp only
                      rw [if_neg hassert, if_neg hnot]
                      simp only [hcol, hw]
                      rw [if_neg hneg]
                      simp only [hF1, if_true]
                    · intro hc; cases hc
                  | false =>
                    obtain ⟨F2, r2, hF2, hr2⟩ := ih (tried ++ [min_cx + irand rng n delta_cx])
                      min_cy1 max_cy1 (min_cx + irand rng n delta_cx) cy1 n1
                      (rows + tried_dy.length) (hlen1 _)
                    have hrow := row_search_loop_mono _ _ _ _ _ _ _ _ _ _ _ _ _ _ hF1 hr1
                      (max F1 F2) (le_max_left _ _)
                    have hcol2 := column_search_loop_mono _ _ _ _ _ _ _ _ _ _ _ _ _ _ _ _ _ hF2
                      hr2 (max F1 F2) (le_max_right _ _)
                    refine ⟨max F1 F2 + 1, r2, ?_, hr2⟩
                    rw [column_search_loop, if_pos hlt]
                    dsimp only
                    rw [if_neg hassert, if_neg hnot]
                    simp only [hcol, hw]
                    rw [if_neg hneg]
                    simp only [hrow, Bool.false_eq_true, if_false]
                    exact hcol2
      have inner : ∀ (k : Nat) (n : Nat) (cx_to : Int),
          min_cx + irand rng (n + k) delta_cx ∉ tried →
          ∃ (fuel : Nat) (r : Except SearchFault KernelResult),
            column_search_loop env rng min_cx max_cx delta_cx cx_from cy_from possibilities fuel
              tried min_cy max_cy cx_to cy_to n rows = r
            ∧ r ≠ Except.error SearchFault.out_of_fuel := by
        intro k
        induction k with
        | zero =>
          intro n cx_to hnot
          exact head n cx_to hnot
        | succ k ihk =>
          intro n cx_to hnot
          by_cases hmem : min_cx + irand rng n delta_cx ∈ tried
          · have hnot1 : min_cx + irand rng (n + 1 + k) delta_cx ∉ tried := by
              have e : n + 1 + k = n + (k + 1) := by omega
              rw [e]
              exact hnot
            obtain ⟨F, r, hF, hr⟩ := ihk (n + 1) (min_cx + irand rng n delta_cx) hnot1
            by_cases hassert : min_cx + irand rng n delta_cx < min_cx
                ∨ max_cx < min_cx + irand rng n delta_cx
            · refine ⟨1, _, rfl, ?_⟩
              rw [column_search_loop, if_pos hlt]
              dsimp only
              rw [if_pos hassert]
              intro hc; cases hc
            · refine ⟨F + 1, r, ?_, hr⟩
              rw [column_search_loop, if_pos hlt]
              dsimp only
              rw [if_neg hassert, if_pos hmem]
              exact hF
          · exact head n cx_to hmem
      exact inner k n cx_to (by rw [hk]; exact hv2)
    · refine ⟨1, _, rfl, ?_⟩
      rw [column_search_loop, if_neg hlt]
      intro hc; cases hc

/-- C18 (counterexample): on `env_one_column` (one column with the rows 0 and
1), with the window of that column and both rows and the source at (0, 0), the
call with the source `rng_succ` returns true after 3 picks (the column, the row
0 of the source, the row 1), more than columns x rows = 1 x 2. On
`env_three_columns` a source that always draws 0 picks the column 0 again and
again, and no amount of fuel lets the call return. -/
theorem find_compatible_compressed_loc_in_range_picks_unbounded :
    (env_one_column.compressed_block_grid.grid = [[0, 1]]
      ∧ find_compatible_compressed_loc_in_range env_one_column rng_succ 3 0
          0 0 0 1 0 0 0 (-1) (-1) true = Except.ok ⟨true, 0, 1, 3, [0], 2⟩
      ∧ 1 * 2 < 3)
    ∧ ¬ ∃ (fuel : Nat) (res : KernelResult),
        find_compatible_compressed_loc_in_range env_three_columns rng_zero fuel 0
          0 2 0 0 2 0 0 (-1) (-1) false = Except.ok res := by
  refine ⟨⟨rfl, rfl, by decide⟩, ?_⟩
  rintro ⟨fuel, res, h⟩
  rw [kernel_constant_source_out_of_fuel fuel] at h
  cases h

/-- C18 (amended): for every input with `min_cx <= max_cx` and
`delta_cx = max_cx - min_cx`: with a fair random source the call returns (from
some amount of fuel on the result is the same, and it is not the fuel running
out); and with any source, whenever `find_compatible_compressed_loc_in_range`
returns, the columns it has tried are pairwise distinct columns of
`[min_cx, max_cx]`, at most `max_cx - min_cx + 1` of them, and the number of
rows it has tried is at most that number of columns times the largest number of
occupied rows of a column. -/
theorem find_compatible_compressed_loc_in_range_returns_within_bound (env : SearchEnv)
    (rng : Nat → Nat) (n : Nat)
    (min_cx max_cx min_cy max_cy delta_cx cx_from cy_from cx_to cy_to : Int)
    (is_median : Bool) (R : Nat)
    (hwin : min_cx ≤ max_cx) (hdelta : delta_cx = max_cx - min_cx)
    (hrows : ∀ keys ∈ env.compressed_block_grid.grid, keys.length ≤ R) :
    (fair_source rng →
      ∃ (fuel0 : Nat) (r : Except SearchFault KernelResult),
        r ≠ Except.error SearchFault.out_of_fuel
        ∧ ∀ fuel : Nat, fuel0 ≤ fuel →
            find_compatible_compressed_loc_in_range env rng fuel n min_cx max_cx min_cy max_cy
              delta_cx cx_from cy_from cx_to cy_to is_median = r)
    ∧ (∀ (fuel : Nat) (res : KernelResult),
        find_compatible_compressed_loc_in_range env rng fuel n min_cx max_cx min_cy max_cy
          delta_cx cx_from cy_from cx_to cy_to is_median = Except.ok res →
        res.tried_cx_to.Nodup
        ∧ (∀ c ∈ res.tried_cx_to, min_cx ≤ c ∧ c ≤ max_cx)
        ∧ (res.tried_cx_to.length : Int) ≤ max_cx - min_cx + 1
        ∧ res.n_rows_tried ≤ (max_cx - min_cx + 1).toNat * R) := by
  refine ⟨fun hfair => ?_, fun fuel res h => ?_⟩
  · obtain ⟨F, r, hF, hr⟩ := column_search_loop_returns env rng hfair min_cx max_cx delta_cx
      cx_from cy_from (if is_median then delta_cx + 1 else delta_cx) (by omega)
      (by cases is_median <;> simp) _ [] min_cy max_cy cx_to cy_to n 0 (le_refl _)
    refine ⟨F, r, hr, fun fuel hle => ?_⟩
    unfold find_compatible_compressed_loc_in_range
    exact column_search_loop_mono _ _ _ _ _ _ _ _ _ _ _ _ _ _ _ _ _ hF hr fuel hle
  · unfold find_compatible_compressed_loc_in_range at h
    obtain ⟨h1, h2, h3, h4⟩ := column_search_loop_counts env rng _ _ _ _ _ _ R hrows _ _ _ _ _ _ _
      _ _ h List.nodup_nil (by simp) (by simp) (by simp)
    have h5 : (res.tried_cx_to.length : Int) ≤ max_cx - min_cx + 1 := by
      cases is_median <;> simp only [Bool.false_eq_true, if_false, if_true] at h3 <;> omega
    refine ⟨h1, h2, h5, ?_⟩
    calc res.n_rows_tried ≤ res.tried_cx_to.length * R := h4
      _ ≤ (max_cx - min_cx + 1).toNat * R := Nat.mul_le_mul_right R (by omega)

/-- Witness of C18 (amended) on `env_full5` with the fair source `rng_succ`: the
search of the columns 1 to 3 returns after one column and one row. -/
theorem find_compatible_compressed_loc_in_range_returns_within_bound_witness :
    fair_source rng_succ
    ∧ find_compatible_compressed_loc_in_range env_full5 rng_succ 5 0 1 3 1 3 2 2 2 (-1) (-1) false
        = Except.ok ⟨true, 2, 3, 2, [2], 1⟩
    ∧ (∃ (fuel0 : Nat) (r : Except SearchFault KernelResult),
        r ≠ Except.error SearchFault.out_of_fuel
        ∧ ∀ fuel : Nat, fuel0 ≤ fuel →
            find_compatible_compressed_loc_in_range env_full5 rng_succ fuel 0 1 3 1 3 2 2 2
              (-1) (-1) false = r)
    ∧ (([2] : List Int).Nodup
      ∧ (∀ c ∈ ([2] : List Int), (1 : Int) ≤ c ∧ c ≤ 3)
      ∧ ((([2] : List Int).length : Nat) : Int) ≤ 3 - 1 + 1
      ∧ 1 ≤ ((3 : Int) - 1 + 1).toNat * 5) :=
  ⟨rng_succ_fair, rfl,
    (find_compatible_compressed_loc_in_range_returns_within_bound env_full5 rng_succ 0 1 3 1 3 2
      2 2 (-1) (-1) false 5 (by decide) (by decide) (by decide)).1 rng_succ_fair,
    (find_compatible_compressed_loc_in_range_returns_within_bound env_full5 rng_succ 0 1 3 1 3 2
      2 2 (-1) (-1) false 5 (by decide) (by decide) (by decide)).2 5
      ⟨true, 2, 3, 2, [2], 1⟩ rfl⟩

/-! ## The engine over the appending helper is the engine above -/

theorem record_single_block_swap_via_plain (s : PlacementState) (st : MoveCtx)
    (b_from : ClusterBlockId) (to_loc : t_pl_loc) :
    record_single_block_swap_via record_block_move s st b_from to_loc
      = record_single_block_swap s st b_from to_loc := rfl

theorem record_macro_move_loop_via_plain (s : PlacementState) (a : Int)
    (swap_offset : t_pl_offset) :
    ∀ (ms : List t_pl_macro_member) (st : MoveCtx) (disp : List ClusterBlockId),
      record_macro_move_loop_via record_block_move s a swap_offset ms st disp
        = record_macro_move_loop s a swap_offset ms st disp := by
  intro ms
  induction ms with
  | nil => intro st disp; rfl
  | cons m rest ih =>
    intro st disp
    unfold record_macro_move_loop_via record_macro_move_loop
    dsimp only
    split
    · rfl
    · exact ih _ _

theorem move_affected_macros_via_plain (s : PlacementState) (swap_offset : t_pl_offset) :
    ∀ (A : List Int) (st : MoveCtx) (disp : List ClusterBlockId),
      move_affected_macros_via record_block_move s swap_offset A st disp
        = move_affected_macros s swap_offset A st disp := by
  intro A
  induction A with
  | nil => intro st disp; rfl
  | cons a rest ih =>
    intro st disp
    unfold move_affected_macros_via move_affected_macros record_macro_move_via record_macro_move
    dsimp only
    rw [record_macro_move_loop_via_plain]
    split
    · rfl
    · exact ih _ _

theorem reseat_displaced_via_plain (s : PlacementState) :
    ∀ (nm : List ClusterBlockId) (locs : List t_pl_loc) (r : e_block_move_result × MoveCtx),
      reseat_displaced_via record_block_move s nm locs r = reseat_displaced s nm locs r := by
  intro nm
  induction nm with
  | nil => intro locs r; rfl
  | cons b rest ih =>
    intro locs r
    cases locs with
    | nil => rfl
    | cons l ls =>
      unfold reseat_displaced_via reseat_displaced
      exact ih _ _

theorem record_macro_self_swaps_via_plain (s : PlacementState) (fuel : Nat) (st : MoveCtx)
    (imacro_cur : Int) (swap_offset : t_pl_offset) :
    record_macro_self_swaps_via record_block_move s fuel st imacro_cur swap_offset
      = record_macro_self_swaps s fuel st imacro_cur swap_offset := by
  unfold record_macro_self_swaps_via record_macro_self_swaps
  simp only [move_affected_macros_via_plain, reseat_displaced_via_plain]

theorem lock_step_loop_via_plain (s : PlacementState) (from_members : List t_pl_macro_member)
    (fto swap_offset : t_pl_offset) :
    ∀ (ts : List t_pl_macro_member) (st : MoveCtx) (j jt : Int),
      lock_step_loop_via record_block_move s from_members fto swap_offset ts st j jt
        = lock_step_loop s from_members fto swap_offset ts st j jt := by
  intro ts
  induction ts with
  | nil => intro st j jt; rfl
  | cons t rest ih =>
    intro st j jt
    unfold lock_step_loop_via lock_step_loop
    simp only [record_single_block_swap_via_plain, ih]

theorem macro_swaps_via_plain (s : PlacementState) :
    ∀ (fuel : Nat),
      (∀ (st : MoveCtx) (imf im : Int) (off : t_pl_offset),
        record_macro_swaps_via record_block_move s fuel st imf im off
          = record_macro_swaps s fuel st imf im off)
      ∧ (∀ (st : MoveCtx) (imf im imt : Int) (bt : ClusterBlockId) (off : t_pl_offset),
        record_macro_macro_swaps_via record_block_move s fuel st imf im imt bt off
          = record_macro_macro_swaps s fuel st imf im imt bt off) := by
  intro fuel
  induction fuel with
  | zero =>
    refine ⟨fun st imf im off => ?_, fun st imf im imt bt off => ?_⟩
    · rw [record_macro_swaps_via, record_macro_swaps]
    · rw [record_macro_macro_swaps_via, record_macro_macro_swaps]
  | succ fuel ih =>
    obtain ⟨ih1, ih2⟩ := ih
    refine ⟨fun st imf im off => ?_, fun st imf im imt bt off => ?_⟩
    · rw [record_macro_swaps_via, record_macro_swaps]
      simp only [record_macro_self_swaps_via_plain, record_single_block_swap_via_plain, ih1, ih2]
    · rw [record_macro_macro_swaps_via, record_macro_macro_swaps]
      simp only [lock_step_loop_via_plain, ih1]

/-- With the appending helper `record_block_move`, the engine over a helper is
the engine: `create_move_via record_block_move` is `create_move`. -/
theorem create_move_via_plain (s : PlacementState) (fuel : Nat) (st : MoveCtx)
    (b_from : ClusterBlockId) (to_loc : t_pl_loc) :
    create_move_via record_block_move s fuel st b_from to_loc
      = create_move s fuel st b_from to_loc := by
  have hfab : find_affected_blocks_via record_block_move s fuel = find_affected_blocks s fuel := by
    funext st1 b l
    unfold find_affected_blocks_via find_affected_blocks
    simp only [(macro_swaps_via_plain s fuel).1, record_single_block_swap_via_plain]
  unfold create_move_via create_move
  rw [hfab]

/-! ## Invariants of the record that the helper keeps -/

end MoveUtils
